import Mathlib

/-!
# neatld: a shallow embedding of `ld.c`

The linker is embedded at the level of its C structures.

* Machine integers (`int`, `long`, `unsigned long`, `Elf32_Word`, pointers) are 32 bits
  wide, as on the i386 target the linker is written for; they are natural numbers here and
  every operation that can wrap is reduced modulo `2 ^ 32` explicitly.  Signed values are
  kept in their two's-complement representation, which is enough because the code only
  adds, subtracts and masks them and compares counters that are not negative.
* An input buffer (`char *mem`) is given by its address `mem`, its contents `bytes` and the
  tables that `obj_init` locates in it (section headers, symbol table, symbol strings),
  already decoded into structures.  Relocation entries and section contents are read
  from `bytes`, and relocation patches `bytes`.
* A pointer to an element of one of those tables is the pair of the buffer address and the
  element index, so that pointer comparison in the C code is comparison of such pairs.
  A pointer to a `struct obj` is the index of the object in `objs`.
* `die` ends the process; it is the `error` case of `Except`.  Accesses through a null
  pointer, outside a table or past the end of a fixed-size array are undefined in C and
  are the error `fault`.
-/

namespace NeatLd

/-! ## Constants of `ld.c` -/

def SRCADDR : Nat := 0x4000000
def DATADDR : Nat := 0x6000000
def BSSADDR : Nat := 0x8000000
def MAXSECS : Nat := 1024
def MAXOBJS : Nat := 128
def MAXSYMS : Nat := 4096
def PAGE_SIZE : Nat := 4096
def GOT_PAD : Nat := 16
def MAXPHDRS : Nat := 4

/-- Two to the width of `int`, `long`, `unsigned long` and `Elf32_Word`. -/
def WORD : Nat := 2 ^ 32

/-! ## Constants and field extractors of `<elf.h>` (System V ABI, i386 supplement) -/

def ET_REL : Nat := 1
def ET_EXEC : Nat := 2
def EM_386 : Nat := 3
def EV_CURRENT : Nat := 1
def ELFCLASS32 : Nat := 1
def ELFDATA2LSB : Nat := 1
def SHN_UNDEF : Nat := 0
def SHN_COMMON : Nat := 0xfff2
def SHT_SYMTAB : Nat := 2
def SHT_NOBITS : Nat := 8
def SHT_REL : Nat := 9
def SHF_EXECINSTR : Nat := 4
def STB_LOCAL : Nat := 0
def STT_NOTYPE : Nat := 0
def STT_OBJECT : Nat := 1
def STT_FUNC : Nat := 2
def STT_SECTION : Nat := 3
def PT_LOAD : Nat := 1
def PF_X : Nat := 1
def PF_W : Nat := 2
def PF_R : Nat := 4
def R_386_NONE : Nat := 0
def R_386_32 : Nat := 1
def R_386_PC32 : Nat := 2
def R_386_PLT32 : Nat := 4
def R_386_16 : Nat := 20

/-- Size of `Elf32_Ehdr`. -/
def EHDR_SIZE : Nat := 52
/-- Size of `Elf32_Phdr`. -/
def PHDR_SIZE : Nat := 32
/-- Size of `Elf32_Rel`. -/
def REL_SIZE : Nat := 8
/-- Size of `struct arhdr`. -/
def ARHDR_SIZE : Nat := 60

def ELF32_ST_BIND (info : Nat) : Nat := info >>> 4
def ELF32_ST_TYPE (info : Nat) : Nat := info &&& 0xf
def ELF32_R_SYM (info : Nat) : Nat := info >>> 8
def ELF32_R_TYPE (info : Nat) : Nat := info &&& 0xff

/-! ## Data model -/

structure Elf32_Sym where
  st_name : Nat
  st_value : Nat
  st_size : Nat
  st_info : Nat
  st_other : Nat
  st_shndx : Nat
deriving DecidableEq, Repr, Inhabited

structure Elf32_Shdr where
  sh_name : Nat
  sh_type : Nat
  sh_flags : Nat
  sh_addr : Nat
  sh_offset : Nat
  sh_size : Nat
  sh_link : Nat
  sh_info : Nat
  sh_addralign : Nat
  sh_entsize : Nat
deriving DecidableEq, Repr, Inhabited

structure Elf32_Phdr where
  p_type : Nat
  p_offset : Nat
  p_vaddr : Nat
  p_paddr : Nat
  p_filesz : Nat
  p_memsz : Nat
  p_flags : Nat
  p_align : Nat
deriving DecidableEq, Repr, Inhabited

structure Elf32_Ehdr where
  e_ident : List Nat
  e_type : Nat
  e_machine : Nat
  e_version : Nat
  e_entry : Nat
  e_phoff : Nat
  e_shoff : Nat
  e_flags : Nat
  e_ehsize : Nat
  e_phentsize : Nat
  e_phnum : Nat
  e_shentsize : Nat
  e_shnum : Nat
  e_shstrndx : Nat
deriving DecidableEq, Repr, Inhabited

/-- A pointer into a table of an input buffer: buffer address and element index. -/
abbrev Ptr := Nat × Nat

/-- The C `struct obj`: an input buffer with the views `obj_init` sets up in it.
`shdr` has `e_shnum` entries and `syms` has `nsyms` entries. -/
structure Obj where
  mem : Nat
  bytes : List Nat
  e_type : Nat
  shdr : List Elf32_Shdr
  syms : List Elf32_Sym
  symstr : List Nat
deriving DecidableEq, Repr, Inhabited

/-- The C `struct secmap`; `obj` is the index of the owning object. -/
structure Secmap where
  o_shdr : Ptr
  obj : Nat
  vaddr : Nat
  faddr : Nat
deriving DecidableEq, Repr, Inhabited

/-- The C `struct bss_sym`. -/
structure Bss_sym where
  sym : Ptr
  off : Nat
deriving DecidableEq, Repr, Inhabited

/-- The C `struct got_sym`: object index and symbol index in that object. -/
structure Got_sym where
  sym : Nat
  obj : Nat
deriving DecidableEq, Repr, Inhabited

/-- The C `struct outelf`.  The counters `nph`, `nsecs`, `nobjs`, `nbss_syms` and
`ngot_syms` are the lengths of the lists. -/
structure Outelf where
  ehdr : Elf32_Ehdr
  phdr : List Elf32_Phdr
  secs : List Secmap
  objs : List Obj
  code_addr : Nat
  bss_syms : List Bss_sym
  bss_vaddr : Nat
  bss_len : Nat
  got_syms : List Got_sym
  got_vaddr : Nat
  got_faddr : Nat
deriving DecidableEq, Repr, Inhabited

/-- The ways a run stops without returning: the `die` calls of `ld.c`, undefined
behaviour (`fault`) and a loop that is still running when the fuel is used up. -/
inductive Err where
  /-- Message of `warn_undef`: the name followed by " undefined". -/
  | undefined (name : List Nat)
  /-- Message "unknown symbol!" of `outelf_addr`. -/
  | unknown_symbol
  /-- Message "unknown relocation type" of `outelf_reloc_sec`. -/
  | unknown_reloc
  /-- Message "ld: MAXOBJS reached!" of `outelf_add`. -/
  | maxobjs
  /-- Message "ld: MAXSECS reached" of `outelf_add`. -/
  | maxsecs
  /-- Access through a null pointer or outside a table, buffer or array. -/
  | fault
  /-- The loop did not finish within the given number of iterations. -/
  | fuel
deriving DecidableEq, Repr

deriving instance DecidableEq for Except

/-! ## Helpers standing for C idioms -/

/-- The macro `MAX(a, b)`. -/
def MAX (a b : Nat) : Nat := if a > b then a else b

/-- The macro `ALIGN(x, a)`, `((x) + (long) (a) - 1) & ~((long) (a) - 1)`, on 32-bit
words. -/
def ALIGN (x a : Nat) : Nat :=
  ((x + a + (WORD - 1)) % WORD) &&& ((WORD - 1) - (a + (WORD - 1)) % WORD)

/-- The string that starts at offset `off` of a character array and ends before the first
zero byte. -/
def cstr (s : List Nat) (off : Nat) : List Nat := (s.drop off).takeWhile (fun c => c != 0)

/-- The name of a symbol: `obj->symstr + sym->st_name`. -/
def sym_name (obj : Obj) (sym : Elf32_Sym) : List Nat := cstr obj.symstr sym.st_name

/-! ## `obj_find` -/

/-- The loop of `obj_find` from symbol index `i` on. -/
def obj_find_from (symstr name : List Nat) : List Elf32_Sym → Nat → Option Nat
  | [], _ => none
  | sym :: rest, i =>
    if ELF32_ST_BIND sym.st_info = STB_LOCAL ∨ sym.st_shndx = SHN_UNDEF then
      obj_find_from symstr name rest (i + 1)
    else if name = cstr symstr sym.st_name then some i
    else obj_find_from symstr name rest (i + 1)

/-- The index of the symbol `obj_find` returns, `none` for `NULL`. -/
def obj_find (obj : Obj) (name : List Nat) : Option Nat :=
  obj_find_from obj.symstr name obj.syms 0

/-! ## `outelf_init`, `outelf_mapping`, `outelf_find`, `bss_addr` -/

def outelf_init : Outelf :=
  { ehdr :=
      { e_ident := [0x7f, 69, 76, 70, ELFCLASS32, ELFDATA2LSB, EV_CURRENT,
                    0, 0, 0, 0, 0, 0, 0, 0, 0]
        e_type := ET_EXEC, e_machine := EM_386, e_version := EV_CURRENT
        e_entry := 0, e_phoff := 0, e_shoff := 0, e_flags := 0
        e_ehsize := EHDR_SIZE, e_phentsize := PHDR_SIZE, e_phnum := 0
        e_shentsize := 40, e_shnum := 0, e_shstrndx := SHN_UNDEF }
    phdr := [], secs := [], objs := [], code_addr := 0
    bss_syms := [], bss_vaddr := 0, bss_len := 0
    got_syms := [], got_vaddr := 0, got_faddr := 0 }

/-- The first mapping whose `o_shdr` is the given pointer. -/
def outelf_mapping (oe : Outelf) (shdr : Ptr) : Option Secmap :=
  oe.secs.find? (fun sec => sec.o_shdr = shdr)

/-- The loop of `outelf_find` from object index `i` on. -/
def outelf_find_from (name : List Nat) : List Obj → Nat → Option (Nat × Nat)
  | [], _ => none
  | obj :: rest, i =>
    match obj_find obj name with
    | some j => some (i, j)
    | none => outelf_find_from name rest (i + 1)

/-- The object index and symbol index `outelf_find` stores, `none` when it returns 1. -/
def outelf_find (oe : Outelf) (name : List Nat) : Option (Nat × Nat) :=
  outelf_find_from name oe.objs 0

/-- The loop of `bss_addr`. -/
def bss_addr_from (bss_vaddr : Nat) (sym : Ptr) : List Bss_sym → Nat
  | [] => 0
  | b :: rest => if b.sym = sym then (bss_vaddr + b.off) % WORD
                 else bss_addr_from bss_vaddr sym rest

def bss_addr (oe : Outelf) (sym : Ptr) : Nat := bss_addr_from oe.bss_vaddr sym oe.bss_syms

/-! ## `die`, `warn_undef`, `symval`, `outelf_addr` -/

def die {α : Type} (e : Err) : Except Err α := Except.error e

/-- Size of the array `msg` of `warn_undef`. -/
def MSG_SIZE : Nat := 128

/-- The C `warn_undef`: dies with the message made of the name and " undefined".  The
message is put together in `msg`: the name, the 11 characters of " undefined" with the
line feed, and the final zero have to fit. -/
def warn_undef {α : Type} (name : List Nat) : Except Err α :=
  if MSG_SIZE < name.length + 12 then die Err.fault else die (Err.undefined name)

/-- The part of `symval` after the symbol has been resolved, in the case of the three
ordinary symbol types. -/
def symval_defined (oe : Outelf) (obj : Obj) (j : Nat) (sym : Elf32_Sym) : Nat :=
  if sym.st_shndx = SHN_COMMON then bss_addr oe (obj.mem, j)
  else
    match outelf_mapping oe (obj.mem, sym.st_shndx) with
    | some sec => (sec.vaddr + sym.st_value) % WORD
    | none => 0

/-- The C `symval` for the symbol with index `j` of the object with index `o`. -/
def symval (oe : Outelf) (o j : Nat) : Except Err Nat :=
  match oe.objs[o]? with
  | none => die Err.fault
  | some obj =>
    match obj.syms[j]? with
    | none => die Err.fault
    | some sym =>
      let name := sym_name obj sym
      let ty := ELF32_ST_TYPE sym.st_info
      if ty = STT_SECTION then
        match outelf_mapping oe (obj.mem, sym.st_shndx) with
        | some sec => Except.ok sec.vaddr
        | none => Except.ok 0
      else if ty = STT_NOTYPE ∨ ty = STT_OBJECT ∨ ty = STT_FUNC then
        if name ≠ [] ∧ sym.st_shndx = SHN_UNDEF then
          match outelf_find oe name with
          | none => warn_undef name
          | some (o2, j2) =>
            match oe.objs[o2]? with
            | none => die Err.fault
            | some obj2 =>
              match obj2.syms[j2]? with
              | none => die Err.fault
              | some sym2 => Except.ok (symval_defined oe obj2 j2 sym2)
        else Except.ok (symval_defined oe obj j sym)
      else Except.ok 0

/-- The bytes of "_start". -/
def START : List Nat := [95, 115, 116, 97, 114, 116]

def outelf_addr (oe : Outelf) (name : List Nat) : Except Err Nat :=
  match outelf_find oe name with
  | none => die Err.unknown_symbol
  | some (o, j) => symval oe o j

/-! ## Little-endian access to the bytes of a buffer -/

def rd8 (b : List Nat) (a : Nat) : Nat := b.getD a 0

def rd16 (b : List Nat) (a : Nat) : Nat := rd8 b a + 256 * rd8 b (a + 1)

def rd32 (b : List Nat) (a : Nat) : Nat :=
  rd8 b a + 256 * rd8 b (a + 1) + 65536 * rd8 b (a + 2) + 16777216 * rd8 b (a + 3)

def wr8 (b : List Nat) (a v : Nat) : List Nat := b.set a (v % 256)

def wr16 (b : List Nat) (a v : Nat) : List Nat := wr8 (wr8 b a v) (a + 1) (v / 256)

def wr32 (b : List Nat) (a v : Nat) : List Nat :=
  wr8 (wr8 (wr8 (wr8 b a v) (a + 1) (v / 256)) (a + 2) (v / 65536)) (a + 3) (v / 16777216)

/-- Subtraction of 32-bit words. -/
def sub32 (a b : Nat) : Nat := (a + (WORD - b % WORD)) % WORD

/-! ## `outelf_reloc_sec`, `outelf_reloc` -/

/-- One iteration of the loop of `outelf_reloc_sec`: entry `i` of the relocation section
`rel_shdr` of object `o`, applied to the contents `bytes` of the buffer of that object.
`other_shdr` is the header of the section the entries apply to. -/
def reloc_entry (oe : Outelf) (o : Nat) (obj : Obj) (rel_shdr other_shdr : Elf32_Shdr)
    (bytes : List Nat) (i : Nat) : Except Err (List Nat) :=
  let rel := rel_shdr.sh_offset + REL_SIZE * i
  if bytes.length < rel + REL_SIZE then die Err.fault
  else
    let r_offset := rd32 bytes rel
    let r_info := rd32 bytes (rel + 4)
    match symval oe o (ELF32_R_SYM r_info) with
    | Except.error e => Except.error e
    | Except.ok val =>
      let dst := other_shdr.sh_offset + r_offset
      let ty := ELF32_R_TYPE r_info
      if ty = R_386_NONE then Except.ok bytes
      else if ty = R_386_16 then
        if bytes.length < dst + 2 then die Err.fault
        else Except.ok (wr16 bytes dst ((rd16 bytes dst + val) % 65536))
      else if ty = R_386_32 then
        if bytes.length < dst + 4 then die Err.fault
        else Except.ok (wr32 bytes dst ((rd32 bytes dst + val) % WORD))
      else if ty = R_386_PC32 ∨ ty = R_386_PLT32 then
        match outelf_mapping oe (obj.mem, rel_shdr.sh_info) with
        | none => die Err.fault
        | some sec =>
          let addr := (sec.vaddr + r_offset) % WORD
          if bytes.length < dst + 4 then die Err.fault
          else Except.ok (wr32 bytes dst ((rd32 bytes dst + sub32 val addr) % WORD))
      else die Err.unknown_reloc

/-- The loop of `outelf_reloc_sec`: `k` entries are left, the next one is entry `i`. -/
def reloc_loop (oe : Outelf) (o : Nat) (obj : Obj) (rel_shdr other_shdr : Elf32_Shdr) :
    Nat → Nat → List Nat → Except Err (List Nat)
  | 0, _, bytes => Except.ok bytes
  | k + 1, i, bytes =>
    match reloc_entry oe o obj rel_shdr other_shdr bytes i with
    | Except.error e => Except.error e
    | Except.ok bytes1 => reloc_loop oe o obj rel_shdr other_shdr k (i + 1) bytes1

/-- The C `outelf_reloc_sec`: the patches go to the buffer of object `o_idx`. -/
def outelf_reloc_sec (oe : Outelf) (o_idx s_idx : Nat) : Except Err Outelf :=
  match oe.objs[o_idx]? with
  | none => die Err.fault
  | some obj =>
    match obj.shdr[s_idx]? with
    | none => die Err.fault
    | some rel_shdr =>
      match obj.shdr[rel_shdr.sh_info]? with
      | none => die Err.fault
      | some other_shdr =>
        let nrels := rel_shdr.sh_size / REL_SIZE
        match reloc_loop oe o_idx obj rel_shdr other_shdr nrels 0 obj.bytes with
        | Except.error e => Except.error e
        | Except.ok bytes1 =>
          Except.ok { oe with objs := oe.objs.set o_idx { obj with bytes := bytes1 } }

/-- The inner loop of `outelf_reloc` over the sections of object `i`, from section `j`. -/
def reloc_secs (i : Nat) : List Elf32_Shdr → Nat → Outelf → Except Err Outelf
  | [], _, oe => Except.ok oe
  | sh :: rest, j, oe =>
    if sh.sh_type = SHT_REL then
      match outelf_reloc_sec oe i j with
      | Except.error e => Except.error e
      | Except.ok oe1 => reloc_secs i rest (j + 1) oe1
    else reloc_secs i rest (j + 1) oe

/-- The outer loop of `outelf_reloc`, from object `i`. -/
def reloc_objs : List Obj → Nat → Outelf → Except Err Outelf
  | [], _, oe => Except.ok oe
  | obj :: rest, i, oe =>
    match reloc_secs i obj.shdr 0 oe with
    | Except.error e => Except.error e
    | Except.ok oe1 => reloc_objs rest (i + 1) oe1

def outelf_reloc (oe : Outelf) : Except Err Outelf := reloc_objs oe.objs 0 oe

/-! ## `alloc_bss`, `outelf_bss` -/

/-- The C `alloc_bss` for the symbol behind the pointer `sym`; the record goes to
`bss_syms[nbss_syms]`, an array of `MAXSYMS` entries. -/
def alloc_bss (oe : Outelf) (sym : Ptr) (s : Elf32_Sym) : Except Err Outelf :=
  if oe.bss_syms.length ≥ MAXSYMS then die Err.fault
  else
    let off := ALIGN oe.bss_len (MAX s.st_value 4)
    Except.ok { oe with
      bss_syms := oe.bss_syms ++ [{ sym := sym, off := (off + s.st_size) % WORD }]
      bss_len := (oe.bss_len + (off + s.st_size)) % WORD }

/-- The inner loop of `outelf_bss` over the symbols of the buffer `mem`, from index `j`. -/
def bss_syms_loop (mem : Nat) : List Elf32_Sym → Nat → Outelf → Except Err Outelf
  | [], _, oe => Except.ok oe
  | s :: rest, j, oe =>
    if s.st_shndx = SHN_COMMON then
      match alloc_bss oe (mem, j) s with
      | Except.error e => Except.error e
      | Except.ok oe1 => bss_syms_loop mem rest (j + 1) oe1
    else bss_syms_loop mem rest (j + 1) oe

/-- The outer loop of `outelf_bss`. -/
def bss_objs_loop : List Obj → Outelf → Except Err Outelf
  | [], oe => Except.ok oe
  | obj :: rest, oe =>
    match bss_syms_loop obj.mem obj.syms 0 oe with
    | Except.error e => Except.error e
    | Except.ok oe1 => bss_objs_loop rest oe1

def outelf_bss (oe : Outelf) : Except Err Outelf := bss_objs_loop oe.objs oe

/-! ## `outelf_add` -/

/-- The section loop of `outelf_add` for the object with index `o` in the buffer `mem`,
from section `i`. -/
def add_secs (o mem : Nat) : List Elf32_Shdr → Nat → Outelf → Except Err Outelf
  | [], _, oe => Except.ok oe
  | sh :: rest, i, oe =>
    if sh.sh_flags &&& 0x7 = 0 then add_secs o mem rest (i + 1) oe
    else if oe.secs.length ≥ MAXSECS then die Err.maxsecs
    else
      add_secs o mem rest (i + 1)
        { oe with secs := oe.secs ++ [{ o_shdr := (mem, i), obj := o, vaddr := 0, faddr := 0 }] }

/-- The C `outelf_add`; the buffer comes with the views of `obj_init`. -/
def outelf_add (oe : Outelf) (mem : Obj) : Except Err Outelf :=
  if mem.e_type ≠ ET_REL then Except.ok oe
  else if oe.objs.length ≥ MAXOBJS then die Err.maxobjs
  else add_secs oe.objs.length mem.mem mem.shdr 0 { oe with objs := oe.objs ++ [mem] }

/-! ## `outelf_link` -/

/-- The section header behind `sec->o_shdr`, read in the buffer of `sec->obj`. -/
def sec_shdr (oe : Outelf) (sec : Secmap) : Elf32_Shdr :=
  match oe.objs[sec.obj]? with
  | some obj => obj.shdr.getD sec.o_shdr.2 default
  | none => default

/-- The macro `SEC_CODE`. -/
def SEC_CODE (s : Elf32_Shdr) : Bool := s.sh_flags &&& SHF_EXECINSTR != 0
/-- The macro `SEC_BSS`. -/
def SEC_BSS (s : Elf32_Shdr) : Bool := s.sh_type == SHT_NOBITS
/-- The macro `SEC_DATA`. -/
def SEC_DATA (s : Elf32_Shdr) : Bool := !SEC_CODE s && !SEC_BSS s

/-- The first loop of `outelf_link` (code sections): the mappings after the loop and the
final `len`. -/
def link_code (oe : Outelf) (vaddr faddr : Nat) : List Secmap → Nat → List Secmap × Nat
  | [], len => ([], len)
  | sec :: rest, len =>
    let sh := sec_shdr oe sec
    let alignment := MAX sh.sh_addralign 4
    if SEC_CODE sh then
      let len1 := sub32 (ALIGN ((vaddr + len) % WORD) alignment) vaddr
      let r := link_code oe vaddr faddr rest ((len1 + sh.sh_size) % WORD)
      ({ sec with vaddr := (vaddr + len1) % WORD, faddr := (faddr + len1) % WORD } :: r.1, r.2)
    else
      let r := link_code oe vaddr faddr rest len
      (sec :: r.1, r.2)

/-- The second loop of `outelf_link` (nobits sections). -/
def link_bss (oe : Outelf) (vaddr faddr : Nat) : List Secmap → Nat → List Secmap × Nat
  | [], len => ([], len)
  | sec :: rest, len =>
    let sh := sec_shdr oe sec
    let alignment := MAX sh.sh_addralign 4
    if SEC_BSS sh then
      let len1 := sub32 (ALIGN ((vaddr + len) % WORD) alignment) vaddr
      let r := link_bss oe vaddr faddr rest ((len1 + sh.sh_size) % WORD)
      ({ sec with vaddr := (vaddr + len1) % WORD, faddr := faddr } :: r.1, r.2)
    else
      let r := link_bss oe vaddr faddr rest len
      (sec :: r.1, r.2)

/-- The third loop of `outelf_link` (data sections). -/
def link_data (oe : Outelf) (vaddr faddr : Nat) : List Secmap → Nat → List Secmap × Nat
  | [], len => ([], len)
  | sec :: rest, len =>
    let sh := sec_shdr oe sec
    if SEC_DATA sh then
      let r := link_data oe vaddr faddr rest ((len + sh.sh_size) % WORD)
      ({ sec with vaddr := (vaddr + len) % WORD, faddr := (faddr + len) % WORD } :: r.1, r.2)
    else
      let r := link_data oe vaddr faddr rest len
      (sec :: r.1, r.2)

/-! `outelf_link` is one function in C; it is cut here at the points where its local
variables `faddr`, `vaddr` and `len` are reassigned, so that each stage has a name. -/

/-- The initial `faddr` of `outelf_link`. -/
def text_faddr : Nat := EHDR_SIZE + MAXPHDRS * PHDR_SIZE

/-- The initial `vaddr` of `outelf_link`. -/
def text_vaddr : Nat := SRCADDR + text_faddr % PAGE_SIZE

/-- The result of the first loop: the mappings and `len`. -/
def text_pass (oe : Outelf) : List Secmap × Nat :=
  link_code oe text_vaddr text_faddr oe.secs 0

def code_phdr (oe : Outelf) : Elf32_Phdr :=
  { p_type := PT_LOAD, p_flags := PF_R ||| PF_W ||| PF_X, p_vaddr := text_vaddr
    p_paddr := text_vaddr, p_offset := text_faddr, p_filesz := (text_pass oe).2
    p_memsz := (text_pass oe).2, p_align := PAGE_SIZE }

/-- The image after the first loop. -/
def link_after_text (oe : Outelf) : Outelf := { oe with secs := (text_pass oe).1 }

/-- The variable `faddr` after `faddr += len`. -/
def bss_faddr (oe : Outelf) : Nat := (text_faddr + (text_pass oe).2) % WORD

/-- The variable `vaddr` after `vaddr = BSSADDR + faddr % PAGE_SIZE`. -/
def bss_base (oe : Outelf) : Nat := BSSADDR + bss_faddr oe % PAGE_SIZE

/-- The image after `outelf_bss(oe)`, which returned `ob`, and the assignment of
`oe->bss_vaddr`. -/
def link_before_bss (oe ob : Outelf) : Outelf := { ob with bss_vaddr := bss_base oe }

/-- The result of the second loop, entered with `len = oe->bss_len`. -/
def bss_pass (oe ob : Outelf) : List Secmap × Nat :=
  link_bss (link_before_bss oe ob) (bss_base oe) (bss_faddr oe) (link_before_bss oe ob).secs
    ((link_before_bss oe ob).bss_len % WORD)

def bss_phdr (oe ob : Outelf) : Elf32_Phdr :=
  { p_type := PT_LOAD, p_flags := PF_R ||| PF_W, p_vaddr := bss_base oe
    p_paddr := bss_base oe, p_offset := bss_faddr oe, p_filesz := 0
    p_memsz := (bss_pass oe ob).2, p_align := PAGE_SIZE }

/-- The image after the second loop. -/
def link_after_bss (oe ob : Outelf) : Outelf :=
  { link_before_bss oe ob with secs := (bss_pass oe ob).1 }

/-- The variable `faddr` after `faddr = ALIGN(faddr, 4)`. -/
def data_faddr (oe : Outelf) : Nat := ALIGN (bss_faddr oe) 4

/-- The variable `vaddr` after `vaddr = DATADDR + faddr % PAGE_SIZE`. -/
def data_vaddr (oe : Outelf) : Nat := DATADDR + data_faddr oe % PAGE_SIZE

/-- The result of the third loop. -/
def data_pass (oe ob : Outelf) : List Secmap × Nat :=
  link_data (link_after_bss oe ob) (data_vaddr oe) (data_faddr oe) (link_after_bss oe ob).secs 0

/-- The variable `len` after `len = ALIGN(len, 4)`. -/
def data_len (oe ob : Outelf) : Nat := ALIGN (data_pass oe ob).2 4

/-- The image at the call of `outelf_reloc`. -/
def link_layout (oe ob : Outelf) : Outelf :=
  { link_after_bss oe ob with
    secs := (data_pass oe ob).1
    got_faddr := (data_faddr oe + data_len oe ob) % WORD
    got_vaddr := (data_vaddr oe + data_len oe ob) % WORD }

/-- The data program header; `ngot` is `oe->ngot_syms` after `outelf_reloc`. -/
def data_phdr (oe ob : Outelf) (ngot : Nat) : Elf32_Phdr :=
  { p_type := PT_LOAD, p_flags := PF_R ||| PF_W ||| PF_X, p_align := PAGE_SIZE
    p_vaddr := data_vaddr oe, p_paddr := data_vaddr oe
    p_filesz := (data_len oe ob + (ngot * 4 + GOT_PAD)) % WORD
    p_memsz := (data_len oe ob + (ngot * 4 + GOT_PAD)) % WORD
    p_offset := data_faddr oe }

/-- The C `outelf_link`.  The three program headers take the next three entries of the
array `phdr`, which has `MAXSECS` entries, in the order code, bss, data; the run ends in
an error when `outelf_bss` or `outelf_reloc` does. -/
def outelf_link (oe : Outelf) : Except Err Outelf :=
  if MAXSECS < oe.phdr.length + 3 then die Err.fault
  else
    match outelf_bss (link_after_text oe) with
    | Except.error e => Except.error e
    | Except.ok ob =>
      match outelf_reloc (link_layout oe ob) with
      | Except.error e => Except.error e
      | Except.ok oe1 =>
        Except.ok { oe1 with
          phdr := oe1.phdr ++
            [code_phdr oe, bss_phdr oe ob, data_phdr oe ob oe1.got_syms.length] }

/-! ## `outelf_putgot`, `outelf_write` -/

/-- The four bytes of a 32-bit word, least significant first. -/
def le32 (v : Nat) : List Nat := [v % 256, v / 256 % 256, v / 65536 % 256, v / 16777216 % 256]

/-- The loop of `outelf_putgot`: the slots of the entries. -/
def putgot_loop (oe : Outelf) : List Got_sym → Except Err (List Nat)
  | [] => Except.ok []
  | g :: rest =>
    match symval oe g.obj g.sym with
    | Except.error e => Except.error e
    | Except.ok v =>
      match putgot_loop oe rest with
      | Except.error e => Except.error e
      | Except.ok bs => Except.ok (le32 v ++ bs)

/-- The bytes `outelf_putgot` leaves in `buf`; their number is its return value. -/
def outelf_putgot (oe : Outelf) : Except Err (List Nat) :=
  match putgot_loop oe oe.got_syms with
  | Except.error e => Except.error e
  | Except.ok bs => Except.ok (bs ++ List.replicate GOT_PAD 0)

/-- What `outelf_write` writes: the header, the program headers, and then pairs of a file
offset and the bytes written there, in the order of the `write` calls. -/
structure Outfile where
  ehdr : Elf32_Ehdr
  phdr : List Elf32_Phdr
  chunks : List (Nat × List Nat)
deriving DecidableEq, Repr

/-- The section loop of `outelf_write`. -/
def write_secs (oe : Outelf) : List Secmap → List (Nat × List Nat)
  | [] => []
  | sec :: rest =>
    let sh := sec_shdr oe sec
    if SEC_BSS sh then write_secs oe rest
    else
      let buf := ((oe.objs.getD sec.obj default).bytes.drop sh.sh_offset).take sh.sh_size
      (sec.faddr, buf) :: write_secs oe rest

/-- Size of the array `buf` of `outelf_write`, which receives the GOT. -/
def BUF_SIZE : Nat := 1 <<< 14

/-- The C `outelf_write`: the image with its header completed, and the file. -/
def outelf_write (oe : Outelf) : Except Err (Outelf × Outfile) :=
  match outelf_addr oe START with
  | Except.error e => Except.error e
  | Except.ok entry =>
    let oe1 := { oe with ehdr := { oe.ehdr with e_entry := entry } }
    match outelf_putgot oe1 with
    | Except.error e => Except.error e
    | Except.ok got =>
      if BUF_SIZE < got.length then die Err.fault else
      let oe2 := { oe1 with ehdr := { oe1.ehdr with e_phnum := oe1.phdr.length % 65536,
                                                     e_phoff := EHDR_SIZE } }
      Except.ok (oe2, { ehdr := oe2.ehdr, phdr := oe2.phdr,
                        chunks := write_secs oe2 oe2.secs ++ [(oe2.got_faddr, got)] })

/-! ## Archives: `get_be32`, `sym_undef`, `outelf_ar_link`, `link_archive` -/

/-- Left shift of an `int`: the shifted value reduced to 32 bits.  For a count of 32 or
more, which C leaves undefined, every bit of the operand is shifted out. -/
def shl_int (x n : Nat) : Nat := (x <<< n) % WORD

/-- The C `get_be32` on the bytes `s[0]`, `s[1]`, `s[2]`, `s[3]`. -/
def get_be32 (s0 s1 s2 s3 : Nat) : Nat :=
  s3 ||| shl_int s2 8 ||| shl_int s1 16 ||| shl_int s0 32

/-- The call `get_be32(s + p)` on a byte array. -/
def get_be32_at (s : List Nat) (p : Nat) : Nat :=
  get_be32 (rd8 s p) (rd8 s (p + 1)) (rd8 s (p + 2)) (rd8 s (p + 3))

/-- The inner loop of `sym_undef`: `none` when the function returns 0 from inside the
loop, otherwise the value of `undef` after the loop. -/
def sym_undef_syms (symstr name : List Nat) : List Elf32_Sym → Bool → Option Bool
  | [], undef => some undef
  | sym :: rest, undef =>
    if ELF32_ST_BIND sym.st_info = STB_LOCAL then sym_undef_syms symstr name rest undef
    else if name ≠ cstr symstr sym.st_name then sym_undef_syms symstr name rest undef
    else if sym.st_shndx ≠ SHN_UNDEF then none
    else sym_undef_syms symstr name rest true

/-- The outer loop of `sym_undef`. -/
def sym_undef_objs (name : List Nat) : List Obj → Bool → Option Bool
  | [], undef => some undef
  | obj :: rest, undef =>
    match sym_undef_syms obj.symstr name obj.syms undef with
    | none => none
    | some undef1 => sym_undef_objs name rest undef1

def sym_undef (oe : Outelf) (name : List Nat) : Bool :=
  match sym_undef_objs name oe.objs false with
  | none => false
  | some undef => undef

/-- The loop of `outelf_ar_link`: `k` index entries are left, the next one is entry `i`
and its name starts at `ar_name`.  `bytes` is the archive, `ar` the offset of the index in
it, and `member p` is the buffer that starts at offset `p` of the archive. -/
def ar_link_loop (bytes : List Nat) (member : Nat → Obj) (ar base : Nat) :
    Nat → Nat → Nat → Outelf → Nat → Except Err (Outelf × Nat)
  | 0, _, _, oe, added => Except.ok (oe, added)
  | k + 1, i, ar_name, oe, added =>
    let off := (get_be32_at bytes (ar + 4 + i * 4) + ARHDR_SIZE) % WORD
    let name := cstr bytes ar_name
    let next := ar_name + name.length + 1
    if sym_undef oe name then
      match outelf_add oe (member (ar - base + off)) with
      | Except.error e => Except.error e
      | Except.ok oe1 => ar_link_loop bytes member ar base k (i + 1) next oe1 (added + 1)
    else ar_link_loop bytes member ar base k (i + 1) next oe added

/-- The C `outelf_ar_link`: the image after the pass and the number of `outelf_add`
calls. -/
def outelf_ar_link (bytes : List Nat) (member : Nat → Obj) (oe : Outelf) (ar base : Nat) :
    Except Err (Outelf × Nat) :=
  let nsyms := get_be32_at bytes ar
  ar_link_loop bytes member ar base nsyms 0 (ar + 4 + nsyms * 4) oe 0

/-- The loop `while (outelf_ar_link(oe, ar, ar - beg));` run for at most `fuel` passes. -/
def ar_rescan (bytes : List Nat) (member : Nat → Obj) (ar : Nat) : Nat → Outelf → Except Err Outelf
  | 0, _ => die Err.fuel
  | fuel + 1, oe =>
    match outelf_ar_link bytes member oe ar ar with
    | Except.error e => Except.error e
    | Except.ok (oe1, added) =>
      if added ≠ 0 then ar_rescan bytes member ar fuel oe1 else Except.ok oe1

/-- The digits loop of `atoi`. -/
def atoi_digits : List Nat → Nat → Nat
  | [], acc => acc
  | c :: rest, acc => if 48 ≤ c ∧ c ≤ 57 then atoi_digits rest (acc * 10 + (c - 48)) else acc

/-- The C library `atoi`: white space, an optional sign, decimal digits. -/
def atoi (s : List Nat) : Int :=
  match s.dropWhile (fun c => c == 32 || (9 ≤ c && c ≤ 13)) with
  | 45 :: rest => - (atoi_digits rest 0 : Int)
  | 43 :: rest => (atoi_digits rest 0 : Int)
  | rest => (atoi_digits rest 0 : Int)

/-- The member loop of `link_archive`; `pos` is the offset of the next member header and
`fuel` bounds the number of headers read plus the number of index passes. -/
def link_archive_loop (bytes : List Nat) (member : Nat → Obj) :
    Nat → Nat → Outelf → Except Err Outelf
  | 0, _, _ => die Err.fuel
  | fuel + 1, pos, oe =>
    if bytes.length < pos + ARHDR_SIZE then die Err.fault
    else
      let ar := pos + ARHDR_SIZE
      let size := atoi (cstr ((bytes.drop (pos + 48)).take 9) 0)
      let size1 := 2 * ((size + 1) / 2)
      if rd8 bytes pos = 47 ∧ rd8 bytes (pos + 1) = 32 then
        ar_rescan bytes member ar fuel oe
      else
        let r := if rd8 bytes pos = 47 ∧ rd8 bytes (pos + 1) = 47 ∧ rd8 bytes (pos + 2) = 32
                 then outelf_add oe (member ar) else Except.ok oe
        match r with
        | Except.error e => Except.error e
        | Except.ok oe1 =>
          if (ar : Int) + size1 < 0 then die Err.fault
          else link_archive_loop bytes member fuel ((ar : Int) + size1).toNat oe1

/-- The C `link_archive`. -/
def link_archive (fuel : Nat) (bytes : List Nat) (member : Nat → Obj) (oe : Outelf) :
    Except Err Outelf :=
  link_archive_loop bytes member fuel 8 oe

/-! ## Notions used to state the properties -/

/-- A symbol that `obj_find` accepts for `name`: not LOCAL, not UNDEF, and with that
name. -/
def sym_defines (symstr name : List Nat) (sym : Elf32_Sym) : Prop :=
  ELF32_ST_BIND sym.st_info ≠ STB_LOCAL ∧ sym.st_shndx ≠ SHN_UNDEF ∧
    cstr symstr sym.st_name = name

/-- A non-LOCAL symbol whose name is `name`: what `sym_undef` looks at. -/
def sym_refers (symstr name : List Nat) (sym : Elf32_Sym) : Prop :=
  ELF32_ST_BIND sym.st_info ≠ STB_LOCAL ∧ name = cstr symstr sym.st_name

/-- Two images that differ at most in the `objs` list. -/
def same_but_objs (a b : Outelf) : Prop :=
  b.ehdr = a.ehdr ∧ b.phdr = a.phdr ∧ b.secs = a.secs ∧ b.code_addr = a.code_addr ∧
  b.bss_syms = a.bss_syms ∧ b.bss_vaddr = a.bss_vaddr ∧ b.bss_len = a.bss_len ∧
  b.got_syms = a.got_syms ∧ b.got_vaddr = a.got_vaddr ∧ b.got_faddr = a.got_faddr

/-- Two images that differ at most in `bss_syms` and `bss_len`. -/
def same_but_bss (a b : Outelf) : Prop :=
  b.ehdr = a.ehdr ∧ b.phdr = a.phdr ∧ b.secs = a.secs ∧ b.objs = a.objs ∧
  b.code_addr = a.code_addr ∧ b.bss_vaddr = a.bss_vaddr ∧
  b.got_syms = a.got_syms ∧ b.got_vaddr = a.got_vaddr ∧ b.got_faddr = a.got_faddr

/-- The views of an object other than the contents of its buffer. -/
def Obj.tables (o : Obj) : Nat × Nat × List Elf32_Shdr × List Elf32_Sym × List Nat :=
  (o.mem, o.e_type, o.shdr, o.syms, o.symstr)

/-- The index entries from entry `i` on, in the order the loop of `outelf_ar_link` reads
them: the name and the member offset `off` it computes. -/
def ar_entries_loop (bytes : List Nat) (ar : Nat) : Nat → Nat → Nat → List (List Nat × Nat)
  | 0, _, _ => []
  | k + 1, i, ar_name =>
    (cstr bytes ar_name, (get_be32_at bytes (ar + 4 + i * 4) + ARHDR_SIZE) % WORD) ::
      ar_entries_loop bytes ar k (i + 1) (ar_name + (cstr bytes ar_name).length + 1)

/-- The entries of the archive index at offset `ar`, as `outelf_ar_link` reads them. -/
def ar_entries (bytes : List Nat) (ar : Nat) : List (List Nat × Nat) :=
  ar_entries_loop bytes ar (get_be32_at bytes ar) 0 (ar + 4 + get_be32_at bytes ar * 4)

/-- One pass over a list of index entries: the loop of `outelf_ar_link` with the entries
already read. -/
def ar_pass (member : Nat → Obj) (delta : Nat) :
    List (List Nat × Nat) → Outelf → Nat → Except Err (Outelf × Nat)
  | [], oe, added => Except.ok (oe, added)
  | e :: rest, oe, added =>
    if sym_undef oe e.1 then
      match outelf_add oe (member (delta + e.2)) with
      | Except.error err => Except.error err
      | Except.ok oe1 => ar_pass member delta rest oe1 (added + 1)
    else ar_pass member delta rest oe added

/-- Some loaded object has a symbol that `obj_find` accepts for `name`. -/
def name_defined (oe : Outelf) (name : List Nat) : Bool :=
  oe.objs.any (fun o => (obj_find o name).isSome)

/-- The total weight of the entries whose name no loaded object defines. -/
def ar_weight (w : List Nat × Nat → Nat) (es : List (List Nat × Nat)) (oe : Outelf) : Nat :=
  (es.map (fun e => if name_defined oe e.1 then 0 else w e)).sum

/-- The number of entries whose name no loaded object defines. -/
def ar_pending (es : List (List Nat × Nat)) (oe : Outelf) : Nat :=
  ar_weight (fun _ => 1) es oe

/-- The number of sections of a buffer that `outelf_add` gives a mapping. -/
def nalloc (m : Obj) : Nat := m.shdr.countP (fun sh => sh.sh_flags &&& 0x7 != 0)

/-- The number of mappings the members of the still undefined entries need. -/
def ar_pending_secs (member : Nat → Obj) (es : List (List Nat × Nat)) (oe : Outelf) : Nat :=
  ar_weight (fun e => nalloc (member e.2)) es oe

/-- Room for the members of all entries that are still undefined. -/
def ar_room (member : Nat → Obj) (es : List (List Nat × Nat)) (oe : Outelf) : Prop :=
  oe.objs.length + ar_pending es oe ≤ MAXOBJS ∧
  oe.secs.length + ar_pending_secs member es oe ≤ MAXSECS

/-- The mappings `outelf_add` is to append for the sections `shdr` of the buffer `mem`,
taken as object `o`, the first section having index `i0`: one for each section whose header
has one of the low three flag bits, in increasing order of the index. -/
def wanted_secs (o mem : Nat) (shdr : List Elf32_Shdr) (i0 : Nat) : List Secmap :=
  ((List.range shdr.length).filter
      (fun k => (shdr.getD k default).sh_flags &&& 0x7 != 0)).map
    (fun k => { o_shdr := (mem, i0 + k), obj := o, vaddr := 0, faddr := 0 })

/-- The common shape of the three section loops of `outelf_link`, used to reason about
them together: `H` reads the header of a mapping, `sel` is the class of the loop, `al` its
alignment and `fmove` tells whether `faddr` advances with `len`.  The loops are instances
of it (`link_code_eq_place`, `link_bss_eq_place`, `link_data_eq_place`). -/
def place (H : Secmap → Elf32_Shdr) (sel : Elf32_Shdr → Bool) (al : Elf32_Shdr → Nat)
    (fmove : Bool) (v f : Nat) : List Secmap → Nat → List Secmap × Nat
  | [], len => ([], len)
  | sec :: rest, len =>
    if sel (H sec) then
      let len1 := sub32 (ALIGN ((v + len) % WORD) (al (H sec))) v
      let r := place H sel al fmove v f rest ((len1 + (H sec).sh_size) % WORD)
      ({ sec with vaddr := (v + len1) % WORD
                  faddr := if fmove then (f + len1) % WORD else f } :: r.1, r.2)
    else
      let r := place H sel al fmove v f rest len
      (sec :: r.1, r.2)

/-- The alignment used by the code loop and the nobits loop. -/
def al_max (sh : Elf32_Shdr) : Nat := MAX sh.sh_addralign 4

/-- The data loop does not align. -/
def al_one (_ : Elf32_Shdr) : Nat := 1

/-- The sizes plus the alignments of the headers of one class. -/
def sel_weight (sel : Elf32_Shdr → Bool) (al : Elf32_Shdr → Nat) (hs : List Elf32_Shdr) : Nat :=
  (hs.map (fun sh => if sel sh then sh.sh_size + al sh else 0)).sum

/-- The sizes of the headers of one class. -/
def sel_size (sel : Elf32_Shdr → Bool) (hs : List Elf32_Shdr) : Nat :=
  ((hs.filter sel).map (fun sh => sh.sh_size)).sum

/-- The sum of `sh_size` over the mappings of data sections. -/
def data_size (oe : Outelf) : Nat := sel_size SEC_DATA (oe.secs.map (sec_shdr oe))

/-- Rounding up to a multiple of 4. -/
def round4 (n : Nat) : Nat := (n + 3) / 4 * 4

/-- The sum over all mappings of the size of the section plus its alignment
`max(sh_addralign, 4)`: a bound for the length of every segment, padding included. -/
def layout_weight (oe : Outelf) : Nat :=
  ((oe.secs.map (sec_shdr oe)).map (fun sh => sh.sh_size + MAX sh.sh_addralign 4)).sum

/-- The sum over the mappings of nobits sections of the size of the section plus its
alignment `max(sh_addralign, 4)`. -/
def nobits_weight (oe : Outelf) : Nat :=
  sel_weight SEC_BSS al_max (oe.secs.map (sec_shdr oe))

/-- The ranges `[a, a + n)` and `[b, b + m)` have no element in common. -/
def ranges_disjoint (a n b m : Nat) : Prop :=
  ∀ x, ¬ (a ≤ x ∧ x < a + n ∧ b ≤ x ∧ x < b + m)

/-- The mapping `s` of a section of `size` bytes lies inside the segment `seg`, at the same
distance from its start in memory and in the file. -/
def inside_segment (seg : Elf32_Phdr) (s : Secmap) (size : Nat) : Prop :=
  seg.p_vaddr ≤ s.vaddr ∧ seg.p_offset ≤ s.faddr ∧
  s.vaddr - seg.p_vaddr = s.faddr - seg.p_offset ∧
  (s.faddr - seg.p_offset) + size ≤ seg.p_filesz

/-! ## Sample inputs

The objects below carry their tables decoded; `bytes` spells out the file up to the end
of the last section whose contents the linker reads or patches. -/

/-- A section header with the fields the linker reads. -/
def mk_shdr (ty flags offset size align link info : Nat) : Elf32_Shdr :=
  { sh_name := 0, sh_type := ty, sh_flags := flags, sh_addr := 0, sh_offset := offset,
    sh_size := size, sh_link := link, sh_info := info, sh_addralign := align, sh_entsize := 0 }

/-- A symbol table entry. -/
def mk_sym (name value size info shndx : Nat) : Elf32_Sym :=
  { st_name := name, st_value := value, st_size := size, st_info := info, st_other := 0,
    st_shndx := shndx }

/-- An object with `.text` (a call of `puts` and a load from `x`), `.data`, `.bss` and
`.rel.text`; it defines `_start`, refers to `puts` and declares the common `x`. -/
def ex_start : Obj :=
  { mem := 0x10000
    bytes := List.replicate 52 0 ++
      [0xe8, 0xfc, 0xff, 0xff, 0xff, 0xa1, 0, 0, 0, 0, 0x90, 0xc3] ++
      [1, 0, 0, 0] ++
      [1, 0, 0, 0, 2, 2, 0, 0, 6, 0, 0, 0, 1, 3, 0, 0]
    e_type := ET_REL
    shdr := [default,
      mk_shdr 1 6 52 12 16 0 0,
      mk_shdr 1 3 64 4 4 0 0,
      mk_shdr SHT_NOBITS 3 68 8 4 0 0,
      mk_shdr SHT_REL 0 68 16 4 0 1]
    syms := [default,
      mk_sym 1 0 12 0x12 1,
      mk_sym 8 0 0 0x10 SHN_UNDEF,
      mk_sym 13 4 16 0x11 SHN_COMMON]
    symstr := [0, 95, 115, 116, 97, 114, 116, 0, 112, 117, 116, 115, 0, 120, 0] }

/-- An object that defines `puts` in `.text` and declares the common `x`. -/
def ex_puts : Obj :=
  { mem := 0x20000
    bytes := List.replicate 52 0 ++ [0x31, 0xc0, 0xc3, 0x90]
    e_type := ET_REL
    shdr := [default, mk_shdr 1 6 52 4 4 0 0]
    syms := [default, mk_sym 1 0 3 0x12 1, mk_sym 6 4 16 0x11 SHN_COMMON]
    symstr := [0, 112, 117, 116, 115, 0, 120, 0] }

/-- The image after `outelf_add` of `ex_start` and `ex_puts`. -/
def ex_hello : Outelf :=
  { outelf_init with
    objs := [ex_start, ex_puts]
    secs := [{ o_shdr := (0x10000, 1), obj := 0, vaddr := 0, faddr := 0 },
             { o_shdr := (0x10000, 2), obj := 0, vaddr := 0, faddr := 0 },
             { o_shdr := (0x10000, 3), obj := 0, vaddr := 0, faddr := 0 },
             { o_shdr := (0x20000, 1), obj := 1, vaddr := 0, faddr := 0 }] }

/-- The image `outelf_link` makes of `ex_hello`. -/
def ex_hello_linked : Outelf :=
  { ex_hello with
    phdr := [{ p_type := 1, p_offset := 180, p_vaddr := 0x40000b4, p_paddr := 0x40000b4,
               p_filesz := 28, p_memsz := 28, p_flags := 7, p_align := 4096 },
             { p_type := 1, p_offset := 208, p_vaddr := 0x80000d0, p_paddr := 0x80000d0,
               p_filesz := 0, p_memsz := 56, p_flags := 6, p_align := 4096 },
             { p_type := 1, p_offset := 208, p_vaddr := 0x60000d0, p_paddr := 0x60000d0,
               p_filesz := 20, p_memsz := 20, p_flags := 7, p_align := 4096 }]
    secs := [{ o_shdr := (0x10000, 1), obj := 0, vaddr := 0x40000c0, faddr := 192 },
             { o_shdr := (0x10000, 2), obj := 0, vaddr := 0x60000d0, faddr := 208 },
             { o_shdr := (0x10000, 3), obj := 0, vaddr := 0x8000100, faddr := 208 },
             { o_shdr := (0x20000, 1), obj := 1, vaddr := 0x40000cc, faddr := 204 }]
    objs := [{ ex_start with
               bytes := List.replicate 52 0 ++
                 [0xe8, 0x07, 0, 0, 0, 0xa1, 0xe0, 0, 0, 0x08, 0x90, 0xc3] ++
                 [1, 0, 0, 0] ++
                 [1, 0, 0, 0, 2, 2, 0, 0, 6, 0, 0, 0, 1, 3, 0, 0] },
             ex_puts]
    bss_syms := [{ sym := (0x10000, 3), off := 16 }, { sym := (0x20000, 2), off := 32 }]
    bss_vaddr := 0x80000d0
    bss_len := 48
    got_vaddr := 0x60000d4
    got_faddr := 212 }

/-- The image of the sample link at the call of `outelf_reloc`: the layout is done, no
buffer is patched and the program headers are not filled in yet. -/
def ex_hello_layout : Outelf :=
  { ex_hello_linked with phdr := [], objs := [ex_start, ex_puts] }

/-- An object that only refers to `tv` (bytes 116, 118). -/
def ex_ref : Obj :=
  { mem := 0x30000
    bytes := List.replicate 52 0
    e_type := ET_REL
    shdr := [default]
    syms := [default, mk_sym 1 0 0 0x10 SHN_UNDEF]
    symstr := [0, 116, 118, 0] }

/-- An object that defines `tv` as a global symbol of type `STT_TLS` (6) at offset 4 of
its `.tdata` section. -/
def ex_tls : Obj :=
  { mem := 0x40000
    bytes := List.replicate 52 0 ++ [0, 0, 0, 0, 7, 0, 0, 0]
    e_type := ET_REL
    shdr := [default, mk_shdr 1 0x403 52 8 4 0 0]
    syms := [default, mk_sym 1 4 4 0x16 1]
    symstr := [0, 116, 118, 0] }

/-- The image after `outelf_add` of `ex_ref` and `ex_tls`. -/
def ex_tv : Outelf :=
  { outelf_init with
    objs := [ex_ref, ex_tls]
    secs := [{ o_shdr := (0x40000, 1), obj := 1, vaddr := 0, faddr := 0 }] }

/-- The image `outelf_link` makes of `ex_tv`. -/
def ex_tv_linked : Outelf :=
  { ex_tv with
    phdr := [{ p_type := 1, p_offset := 180, p_vaddr := 0x40000b4, p_paddr := 0x40000b4,
               p_filesz := 0, p_memsz := 0, p_flags := 7, p_align := 4096 },
             { p_type := 1, p_offset := 180, p_vaddr := 0x80000b4, p_paddr := 0x80000b4,
               p_filesz := 0, p_memsz := 0, p_flags := 6, p_align := 4096 },
             { p_type := 1, p_offset := 180, p_vaddr := 0x60000b4, p_paddr := 0x60000b4,
               p_filesz := 24, p_memsz := 24, p_flags := 7, p_align := 4096 }]
    secs := [{ o_shdr := (0x40000, 1), obj := 1, vaddr := 0x60000b4, faddr := 180 }]
    bss_vaddr := 0x80000b4
    got_vaddr := 0x60000bc
    got_faddr := 188 }

/-- An object that refers to an undefined symbol whose name is 117 times the letter `a`. -/
def ex_long : Obj :=
  { mem := 0x70000
    bytes := List.replicate 52 0
    e_type := ET_REL
    shdr := [default]
    syms := [default, mk_sym 1 0 0 0x10 SHN_UNDEF]
    symstr := [0] ++ List.replicate 117 97 ++ [0] }

/-- The image after `outelf_add` of `ex_long`. -/
def ex_long_name : Outelf := { outelf_init with objs := [ex_long] }

/-- The start of an archive: the magic, the header of the member `/` and the symbol index
with the entries `a` (member header at 84) and `b` (member header at 244). -/
def ex_ar : List Nat :=
  [33, 60, 97, 114, 99, 104, 62, 10] ++
  ([47] ++ List.replicate 15 32 ++ [48] ++ List.replicate 11 32 ++ [48] ++ List.replicate 5 32 ++
    [48] ++ List.replicate 5 32 ++ [48] ++ List.replicate 7 32 ++ [49, 54] ++
    List.replicate 8 32 ++ [96, 10]) ++
  [0, 0, 0, 2, 0, 0, 0, 84, 0, 0, 0, 244, 97, 0, 98, 0]

/-- The archive member that defines `a`. -/
def ex_m1 : Obj :=
  { mem := 0x50000 + 144
    bytes := List.replicate 52 0 ++ [0xc3, 0x90, 0x90, 0x90]
    e_type := ET_REL
    shdr := [default, mk_shdr 1 6 52 4 4 0 0]
    syms := [default, mk_sym 1 0 4 0x12 1]
    symstr := [0, 97, 0] }

/-- The archive member that defines `b` and refers to `a`. -/
def ex_m2 : Obj :=
  { mem := 0x50000 + 304
    bytes := List.replicate 52 0 ++ [0xc3, 0x90, 0x90, 0x90]
    e_type := ET_REL
    shdr := [default, mk_shdr 1 6 52 4 4 0 0]
    syms := [default, mk_sym 1 0 4 0x12 1, mk_sym 3 0 0 0x10 SHN_UNDEF]
    symstr := [0, 98, 0, 97, 0] }

/-- The buffers at the offsets of the archive `ex_ar`. -/
def ex_member (p : Nat) : Obj :=
  if p = 144 then ex_m1 else if p = 304 then ex_m2 else default

/-- An object that defines `_start` and refers to `b` only. -/
def ex_main_b : Obj :=
  { mem := 0x60000
    bytes := List.replicate 52 0 ++ [0xc3, 0x90, 0x90, 0x90]
    e_type := ET_REL
    shdr := [default, mk_shdr 1 6 52 4 4 0 0]
    syms := [default, mk_sym 1 0 4 0x12 1, mk_sym 8 0 0 0x10 SHN_UNDEF]
    symstr := [0, 95, 115, 116, 97, 114, 116, 0, 98, 0] }

/-- The image after `outelf_add` of `ex_main_b`. -/
def ex_needs_b : Outelf :=
  { outelf_init with
    objs := [ex_main_b]
    secs := [{ o_shdr := (0x60000, 1), obj := 0, vaddr := 0, faddr := 0 }] }

/-- The image after `outelf_add` of `ex_puts`, which refers to neither `a` nor `b`. -/
def ex_needs_none : Outelf :=
  { outelf_init with
    objs := [ex_puts]
    secs := [{ o_shdr := (0x20000, 1), obj := 0, vaddr := 0, faddr := 0 }] }

/-- An object that declares two commons: `a`, 16 bytes aligned to 4, and `b`, 2 bytes
aligned to 2. -/
def ex_two_commons : Obj :=
  { mem := 0x80000
    bytes := List.replicate 52 0
    e_type := ET_REL
    shdr := [default]
    syms := [default, mk_sym 1 4 16 0x11 SHN_COMMON, mk_sym 3 2 2 0x11 SHN_COMMON]
    symstr := [0, 97, 0, 98, 0] }

/-- The image after `outelf_add` of `ex_two_commons`. -/
def ex_commons : Outelf := { outelf_init with objs := [ex_two_commons] }

/-- An object with a `.text` of 32 MiB and 4 KiB and a `.data` of 4 bytes; it has no
relocations. -/
def ex_big_text : Obj :=
  { mem := 0x90000
    bytes := List.replicate 52 0 ++ List.replicate 0x2001000 0x90 ++ [1, 0, 0, 0]
    e_type := ET_REL
    shdr := [default, mk_shdr 1 6 52 0x2001000 16 0 0, mk_shdr 1 3 0x2001034 4 4 0 0]
    syms := [default]
    symstr := [0] }

/-- The image after `outelf_add` of `ex_big_text`. -/
def ex_big : Outelf :=
  { outelf_init with
    objs := [ex_big_text]
    secs := [{ o_shdr := (0x90000, 1), obj := 0, vaddr := 0, faddr := 0 },
             { o_shdr := (0x90000, 2), obj := 0, vaddr := 0, faddr := 0 }] }

/-- An object with two nobits sections, of `0xF8000000` and of 4 bytes. -/
def ex_big_bss : Obj :=
  { mem := 0xa0000
    bytes := List.replicate 52 0
    e_type := ET_REL
    shdr := [default, mk_shdr SHT_NOBITS 3 52 0xF8000000 4 0 0, mk_shdr SHT_NOBITS 3 52 4 4 0 0]
    syms := [default]
    symstr := [0] }

/-- The image after `outelf_add` of `ex_big_bss`. -/
def ex_wide : Outelf :=
  { outelf_init with
    objs := [ex_big_bss]
    secs := [{ o_shdr := (0xa0000, 1), obj := 0, vaddr := 0, faddr := 0 },
             { o_shdr := (0xa0000, 2), obj := 0, vaddr := 0, faddr := 0 }] }

/-- An object with four code sections of 4 bytes, each with `sh_addralign = 0x40000000`. -/
def ex_four_aligned : Obj :=
  { mem := 0xb0000
    bytes := List.replicate 52 0 ++ List.replicate 16 0x90
    e_type := ET_REL
    shdr := [default, mk_shdr 1 6 52 4 0x40000000 0 0, mk_shdr 1 6 56 4 0x40000000 0 0,
      mk_shdr 1 6 60 4 0x40000000 0 0, mk_shdr 1 6 64 4 0x40000000 0 0]
    syms := [default]
    symstr := [0] }

/-- The image after `outelf_add` of `ex_four_aligned`. -/
def ex_aligned : Outelf :=
  { outelf_init with
    objs := [ex_four_aligned]
    secs := [{ o_shdr := (0xb0000, 1), obj := 0, vaddr := 0, faddr := 0 },
             { o_shdr := (0xb0000, 2), obj := 0, vaddr := 0, faddr := 0 },
             { o_shdr := (0xb0000, 3), obj := 0, vaddr := 0, faddr := 0 },
             { o_shdr := (0xb0000, 4), obj := 0, vaddr := 0, faddr := 0 }] }

/-! # Theorems -/

/-! ## Byte access -/

theorem rd8_wr8 (b : List Nat) (a v p : Nat) :
    rd8 (wr8 b a v) p = if p = a ∧ a < b.length then v % 256 else rd8 b p := by
  simp only [rd8, wr8, List.getD_eq_getElem?_getD, List.getElem?_set]
  by_cases h : a = p
  · subst h
    by_cases h2 : a < b.length
    · simp [h2]
    · simp [h2]
      rw [List.getElem?_eq_none (by omega)]
      rfl
  · have h3 : ¬ p = a := fun e => h e.symm
    simp [h, h3]

theorem wr8_length (b : List Nat) (a v : Nat) : (wr8 b a v).length = b.length := by
  simp [wr8]

theorem wr16_length (b : List Nat) (a v : Nat) : (wr16 b a v).length = b.length := by
  simp [wr16, wr8_length]

theorem wr32_length (b : List Nat) (a v : Nat) : (wr32 b a v).length = b.length := by
  simp [wr32, wr8_length]

theorem rd16_wr16 (b : List Nat) (a v : Nat) (h : a + 2 ≤ b.length) :
    rd16 (wr16 b a v) a = v % 65536 := by
  simp only [rd16, wr16, rd8_wr8, wr8_length]
  have h1 : a < b.length := by omega
  have h2 : a + 1 < b.length := by omega
  simp [h1, h2]
  omega

theorem rd32_wr32 (b : List Nat) (a v : Nat) (h : a + 4 ≤ b.length) :
    rd32 (wr32 b a v) a = v % WORD := by
  simp only [rd32, wr32, rd8_wr8, wr8_length]
  have h1 : a < b.length := by omega
  have h2 : a + 1 < b.length := by omega
  have h3 : a + 2 < b.length := by omega
  have h4 : a + 3 < b.length := by omega
  simp [h1, h2, h3, h4, WORD]
  omega

/-! ## Relocation changes buffer contents only -/

theorem same_but_objs_refl (a : Outelf) : same_but_objs a a := by
  simp [same_but_objs]

theorem same_but_objs_trans {a b c : Outelf} (h1 : same_but_objs a b)
    (h2 : same_but_objs b c) : same_but_objs a c := by
  obtain ⟨a1, a2, a3, a4, a5, a6, a7, a8, a9, a10⟩ := h1
  obtain ⟨b1, b2, b3, b4, b5, b6, b7, b8, b9, b10⟩ := h2
  exact ⟨b1.trans a1, b2.trans a2, b3.trans a3, b4.trans a4, b5.trans a5, b6.trans a6,
    b7.trans a7, b8.trans a8, b9.trans a9, b10.trans a10⟩

theorem outelf_reloc_sec_frame {oe oe1 : Outelf} {i j : Nat}
    (h : outelf_reloc_sec oe i j = Except.ok oe1) : same_but_objs oe oe1 := by
  unfold outelf_reloc_sec at h
  split at h
  · simp [die] at h
  · split at h
    · simp [die] at h
    · split at h
      · simp [die] at h
      · simp only at h
        split at h
        · simp at h
        · simp only [Except.ok.injEq] at h
          subst h
          simp [same_but_objs]

theorem reloc_secs_frame (i : Nat) (l : List Elf32_Shdr) :
    ∀ (j : Nat) (oe oe1 : Outelf), reloc_secs i l j oe = Except.ok oe1 → same_but_objs oe oe1 := by
  induction l with
  | nil =>
    intro j oe oe1 h
    simp only [reloc_secs, Except.ok.injEq] at h
    subst h
    exact same_but_objs_refl _
  | cons sh rest ih =>
    intro j oe oe1 h
    simp only [reloc_secs] at h
    split at h
    · split at h
      · simp at h
      · rename_i oe2 h2
        exact same_but_objs_trans (outelf_reloc_sec_frame h2) (ih _ _ _ h)
    · exact ih _ _ _ h

theorem reloc_objs_frame (l : List Obj) :
    ∀ (i : Nat) (oe oe1 : Outelf), reloc_objs l i oe = Except.ok oe1 → same_but_objs oe oe1 := by
  induction l with
  | nil =>
    intro i oe oe1 h
    simp only [reloc_objs, Except.ok.injEq] at h
    subst h
    exact same_but_objs_refl _
  | cons obj rest ih =>
    intro i oe oe1 h
    simp only [reloc_objs] at h
    split at h
    · simp at h
    · rename_i oe2 h2
      exact same_but_objs_trans (reloc_secs_frame _ _ _ _ _ h2) (ih _ _ _ h)

theorem outelf_reloc_frame {oe oe1 : Outelf} (h : outelf_reloc oe = Except.ok oe1) :
    same_but_objs oe oe1 :=
  reloc_objs_frame _ _ _ _ h

/-! ### Relocation keeps the tables of every object -/

theorem outelf_reloc_sec_tables {oe oe1 : Outelf} {i j : Nat}
    (h : outelf_reloc_sec oe i j = Except.ok oe1) :
    oe1.objs.map Obj.tables = oe.objs.map Obj.tables := by
  unfold outelf_reloc_sec at h
  split at h
  · simp [die] at h
  · rename_i obj hobj
    split at h
    · simp [die] at h
    · split at h
      · simp [die] at h
      · simp only at h
        split at h
        · simp at h
        · simp only [Except.ok.injEq] at h
          subst h
          simp only [List.map_set]
          apply List.ext_getElem?
          intro n
          rw [List.getElem?_set]
          split
          · rename_i hn
            subst hn
            split
            · rw [List.getElem?_map, hobj]
              rfl
            · rename_i hlt
              rw [List.getElem?_eq_none (by omega)]
          · rfl

theorem reloc_secs_tables (i : Nat) (l : List Elf32_Shdr) :
    ∀ (j : Nat) (oe oe1 : Outelf), reloc_secs i l j oe = Except.ok oe1 →
      oe1.objs.map Obj.tables = oe.objs.map Obj.tables := by
  induction l with
  | nil =>
    intro j oe oe1 h
    simp only [reloc_secs, Except.ok.injEq] at h
    rw [h]
  | cons sh rest ih =>
    intro j oe oe1 h
    simp only [reloc_secs] at h
    split at h
    · split at h
      · simp at h
      · rename_i oe2 h2
        rw [ih _ _ _ h, outelf_reloc_sec_tables h2]
    · exact ih _ _ _ h

theorem reloc_objs_tables (l : List Obj) :
    ∀ (i : Nat) (oe oe1 : Outelf), reloc_objs l i oe = Except.ok oe1 →
      oe1.objs.map Obj.tables = oe.objs.map Obj.tables := by
  induction l with
  | nil =>
    intro i oe oe1 h
    simp only [reloc_objs, Except.ok.injEq] at h
    rw [h]
  | cons obj rest ih =>
    intro i oe oe1 h
    simp only [reloc_objs] at h
    split at h
    · simp at h
    · rename_i oe2 h2
      rw [ih _ _ _ h, reloc_secs_tables _ _ _ _ _ h2]

theorem outelf_reloc_tables {oe oe1 : Outelf} (h : outelf_reloc oe = Except.ok oe1) :
    oe1.objs.map Obj.tables = oe.objs.map Obj.tables :=
  reloc_objs_tables _ _ _ _ h

/-! ## `outelf_bss` changes the bss table and `bss_len` only -/

theorem same_but_bss_refl (a : Outelf) : same_but_bss a a := by
  simp [same_but_bss]

theorem same_but_bss_trans {a b c : Outelf} (h1 : same_but_bss a b)
    (h2 : same_but_bss b c) : same_but_bss a c := by
  obtain ⟨a1, a2, a3, a4, a5, a6, a7, a8, a9⟩ := h1
  obtain ⟨b1, b2, b3, b4, b5, b6, b7, b8, b9⟩ := h2
  exact ⟨b1.trans a1, b2.trans a2, b3.trans a3, b4.trans a4, b5.trans a5, b6.trans a6,
    b7.trans a7, b8.trans a8, b9.trans a9⟩

theorem alloc_bss_ok {oe oe1 : Outelf} {p : Ptr} {s : Elf32_Sym}
    (h : alloc_bss oe p s = Except.ok oe1) :
    oe1 = { oe with
      bss_syms := oe.bss_syms ++
        [{ sym := p, off := (ALIGN oe.bss_len (MAX s.st_value 4) + s.st_size) % WORD }]
      bss_len := (oe.bss_len + (ALIGN oe.bss_len (MAX s.st_value 4) + s.st_size)) % WORD } := by
  unfold alloc_bss at h
  split at h
  · simp [die] at h
  · simp only [Except.ok.injEq] at h
    exact h.symm

theorem alloc_bss_frame {oe oe1 : Outelf} {p : Ptr} {s : Elf32_Sym}
    (h : alloc_bss oe p s = Except.ok oe1) : same_but_bss oe oe1 := by
  rw [alloc_bss_ok h]
  simp [same_but_bss]

theorem bss_syms_loop_frame (mem : Nat) (l : List Elf32_Sym) :
    ∀ (j : Nat) (oe oe1 : Outelf), bss_syms_loop mem l j oe = Except.ok oe1 →
      same_but_bss oe oe1 := by
  induction l with
  | nil =>
    intro j oe oe1 h
    simp only [bss_syms_loop, Except.ok.injEq] at h
    subst h
    exact same_but_bss_refl _
  | cons s rest ih =>
    intro j oe oe1 h
    simp only [bss_syms_loop] at h
    split at h
    · split at h
      · simp at h
      · rename_i oe2 h2
        exact same_but_bss_trans (alloc_bss_frame h2) (ih _ _ _ h)
    · exact ih _ _ _ h

theorem bss_objs_loop_frame (l : List Obj) :
    ∀ (oe oe1 : Outelf), bss_objs_loop l oe = Except.ok oe1 → same_but_bss oe oe1 := by
  induction l with
  | nil =>
    intro oe oe1 h
    simp only [bss_objs_loop, Except.ok.injEq] at h
    subst h
    exact same_but_bss_refl _
  | cons o rest ih =>
    intro oe oe1 h
    simp only [bss_objs_loop] at h
    split at h
    · simp at h
    · rename_i oe2 h2
      exact same_but_bss_trans (bss_syms_loop_frame _ _ _ _ _ h2) (ih _ _ h)

theorem outelf_bss_frame {oe oe1 : Outelf} (h : outelf_bss oe = Except.ok oe1) :
    same_but_bss oe oe1 :=
  bss_objs_loop_frame _ _ _ h

theorem link_layout_phdr {oe ob : Outelf} (h : outelf_bss (link_after_text oe) = Except.ok ob) :
    (link_layout oe ob).phdr = oe.phdr := by
  simp only [link_layout, link_after_bss, link_before_bss]
  exact (outelf_bss_frame h).2.1

theorem link_layout_bss_syms (oe ob : Outelf) : (link_layout oe ob).bss_syms = ob.bss_syms :=
  rfl

theorem link_layout_objs {oe ob : Outelf} (h : outelf_bss (link_after_text oe) = Except.ok ob) :
    (link_layout oe ob).objs = oe.objs := by
  simp only [link_layout, link_after_bss, link_before_bss]
  exact (outelf_bss_frame h).2.2.2.1

/-! ### The bss table -/

theorem bss_addr_from_mem (v : Nat) (p : Ptr) (l : List Bss_sym) (h : ∃ b ∈ l, b.sym = p) :
    ∃ b ∈ l, b.sym = p ∧ bss_addr_from v p l = (v + b.off) % WORD := by
  induction l with
  | nil => simp at h
  | cons a rest ih =>
    simp only [bss_addr_from]
    by_cases ha : a.sym = p
    · rw [if_pos ha]
      exact ⟨a, List.mem_cons_self _ _, ha, rfl⟩
    · rw [if_neg ha]
      obtain ⟨b, hb, hp⟩ := h
      rcases List.mem_cons.mp hb with h1 | h1
      · subst h1; exact absurd hp ha
      · obtain ⟨b2, hb2, h2⟩ := ih ⟨b, h1, hp⟩
        exact ⟨b2, List.mem_cons_of_mem _ hb2, h2⟩

theorem bss_syms_loop_keeps (mem : Nat) (l : List Elf32_Sym) :
    ∀ (j : Nat) (oe oe1 : Outelf) (b : Bss_sym), bss_syms_loop mem l j oe = Except.ok oe1 →
      b ∈ oe.bss_syms → b ∈ oe1.bss_syms := by
  induction l with
  | nil =>
    intro j oe oe1 b h hb
    simp only [bss_syms_loop, Except.ok.injEq] at h
    subst h
    exact hb
  | cons s rest ih =>
    intro j oe oe1 b h hb
    simp only [bss_syms_loop] at h
    split at h
    · split at h
      · simp at h
      · rename_i oe2 h2
        apply ih _ _ _ _ h
        rw [alloc_bss_ok h2]
        simp only [List.mem_append]
        exact Or.inl hb
    · exact ih _ _ _ _ h hb

theorem bss_syms_loop_records (mem : Nat) (l : List Elf32_Sym) :
    ∀ (j0 : Nat) (oe oe1 : Outelf) (k : Nat) (s : Elf32_Sym),
      bss_syms_loop mem l j0 oe = Except.ok oe1 → l[k]? = some s →
      s.st_shndx = SHN_COMMON → ∃ b ∈ oe1.bss_syms, b.sym = (mem, j0 + k) := by
  induction l with
  | nil => intro j0 oe oe1 k s _ h; simp at h
  | cons a rest ih =>
    intro j0 oe oe1 k s h hk hc
    simp only [bss_syms_loop] at h
    cases k with
    | zero =>
      simp at hk
      subst hk
      rw [if_pos hc] at h
      split at h
      · simp at h
      · rename_i oe2 h2
        refine ⟨{ sym := (mem, j0),
                  off := (ALIGN oe.bss_len (MAX a.st_value 4) + a.st_size) % WORD }, ?_, rfl⟩
        apply bss_syms_loop_keeps _ _ _ _ _ _ h
        rw [alloc_bss_ok h2]
        simp
    | succ k =>
      have hk2 : rest[k]? = some s := by simpa using hk
      have e : j0 + (k + 1) = (j0 + 1) + k := by omega
      rw [e]
      split at h
      · split at h
        · simp at h
        · exact ih _ _ _ _ _ h hk2 hc
      · exact ih _ _ _ _ _ h hk2 hc

theorem bss_objs_loop_keeps (l : List Obj) :
    ∀ (oe oe1 : Outelf) (b : Bss_sym), bss_objs_loop l oe = Except.ok oe1 →
      b ∈ oe.bss_syms → b ∈ oe1.bss_syms := by
  induction l with
  | nil =>
    intro oe oe1 b h hb
    simp only [bss_objs_loop, Except.ok.injEq] at h
    subst h
    exact hb
  | cons o rest ih =>
    intro oe oe1 b h hb
    simp only [bss_objs_loop] at h
    split at h
    · simp at h
    · rename_i oe2 h2
      exact ih _ _ _ h (bss_syms_loop_keeps _ _ _ _ _ _ h2 hb)

theorem bss_objs_loop_records (l : List Obj) :
    ∀ (oe oe1 : Outelf) (obj : Obj), bss_objs_loop l oe = Except.ok oe1 → obj ∈ l →
      ∀ (k : Nat) (s : Elf32_Sym), obj.syms[k]? = some s → s.st_shndx = SHN_COMMON →
      ∃ b ∈ oe1.bss_syms, b.sym = (obj.mem, k) := by
  induction l with
  | nil => intro oe oe1 obj _ h; simp at h
  | cons a rest ih =>
    intro oe oe1 obj h hobj k s hk hc
    simp only [bss_objs_loop] at h
    split at h
    · simp at h
    · rename_i oe2 h2
      rcases List.mem_cons.mp hobj with h3 | h3
      · subst h3
        obtain ⟨b, hb, hp⟩ := bss_syms_loop_records obj.mem obj.syms 0 oe oe2 k s h2 hk hc
        refine ⟨b, bss_objs_loop_keeps _ _ _ _ h hb, ?_⟩
        simpa using hp
      · exact ih _ _ obj h h3 k s hk hc

/-! ## `obj_find`, `outelf_find` -/

theorem obj_find_from_some (symstr name : List Nat) (l : List Elf32_Sym) :
    ∀ (i0 i : Nat), obj_find_from symstr name l i0 = some i ↔
      ∃ k sym, i = i0 + k ∧ l[k]? = some sym ∧ sym_defines symstr name sym ∧
        ∀ k2 s, k2 < k → l[k2]? = some s → ¬ sym_defines symstr name s := by
  induction l with
  | nil => intro i0 i; simp [obj_find_from]
  | cons a rest ih =>
    intro i0 i
    simp only [obj_find_from]
    by_cases ha : sym_defines symstr name a
    · have h1 : ¬ (ELF32_ST_BIND a.st_info = STB_LOCAL ∨ a.st_shndx = SHN_UNDEF) := by
        rintro (h | h)
        · exact ha.1 h
        · exact ha.2.1 h
      have h2 : name = cstr symstr a.st_name := ha.2.2.symm
      rw [if_neg h1, if_pos h2]
      constructor
      · intro h
        injection h with h
        exact ⟨0, a, by omega, by simp, ha, by intro k2 s hk; omega⟩
      · rintro ⟨k, sym, hi, hk, hs, hmin⟩
        cases k with
        | zero => simp [hi]
        | succ k => exact absurd ha (hmin 0 a (by omega) (by simp))
    · have h3 : obj_find_from symstr name rest (i0 + 1) = some i ↔
          ∃ k sym, i = i0 + k ∧ (a :: rest)[k]? = some sym ∧ sym_defines symstr name sym ∧
            ∀ k2 s, k2 < k → (a :: rest)[k2]? = some s → ¬ sym_defines symstr name s := by
        rw [ih]
        constructor
        · rintro ⟨k, sym, hi, hk, hs, hmin⟩
          refine ⟨k + 1, sym, by omega, by simpa using hk, hs, ?_⟩
          intro k2 s hk2 hs2
          cases k2 with
          | zero =>
            simp at hs2
            subst hs2
            exact ha
          | succ k2 => exact hmin k2 s (by omega) (by simpa using hs2)
        · rintro ⟨k, sym, hi, hk, hs, hmin⟩
          cases k with
          | zero =>
            simp at hk
            subst hk
            exact absurd hs ha
          | succ k =>
            refine ⟨k, sym, by omega, by simpa using hk, hs, ?_⟩
            intro k2 s hk2 hs2
            exact hmin (k2 + 1) s (by omega) (by simpa using hs2)
      by_cases h1 : ELF32_ST_BIND a.st_info = STB_LOCAL ∨ a.st_shndx = SHN_UNDEF
      · rw [if_pos h1]; exact h3
      · rw [if_neg h1]
        have h2 : ¬ name = cstr symstr a.st_name := by
          intro h
          apply ha
          refine ⟨fun e => h1 (Or.inl e), fun e => h1 (Or.inr e), h.symm⟩
        rw [if_neg h2]; exact h3

theorem obj_find_from_none (symstr name : List Nat) (l : List Elf32_Sym) :
    ∀ (i0 : Nat), obj_find_from symstr name l i0 = none ↔
      ∀ s ∈ l, ¬ sym_defines symstr name s := by
  induction l with
  | nil => intro i0; simp [obj_find_from]
  | cons a rest ih =>
    intro i0
    simp only [obj_find_from, List.mem_cons, forall_eq_or_imp]
    by_cases ha : sym_defines symstr name a
    · have h1 : ¬ (ELF32_ST_BIND a.st_info = STB_LOCAL ∨ a.st_shndx = SHN_UNDEF) := by
        rintro (h | h)
        · exact ha.1 h
        · exact ha.2.1 h
      have h2 : name = cstr symstr a.st_name := ha.2.2.symm
      rw [if_neg h1, if_pos h2]
      simp [ha]
    · by_cases h1 : ELF32_ST_BIND a.st_info = STB_LOCAL ∨ a.st_shndx = SHN_UNDEF
      · rw [if_pos h1, ih]; simp [ha]
      · rw [if_neg h1]
        have h2 : ¬ name = cstr symstr a.st_name := by
          intro h
          apply ha
          refine ⟨fun e => h1 (Or.inl e), fun e => h1 (Or.inr e), h.symm⟩
        rw [if_neg h2, ih]; simp [ha]

theorem obj_find_some_iff (obj : Obj) (name : List Nat) (i : Nat) :
    obj_find obj name = some i ↔
      ∃ sym, obj.syms[i]? = some sym ∧ sym_defines obj.symstr name sym ∧
        ∀ k s, k < i → obj.syms[k]? = some s → ¬ sym_defines obj.symstr name s := by
  unfold obj_find
  rw [obj_find_from_some]
  constructor
  · rintro ⟨k, sym, hi, hk, hs, hmin⟩
    have : i = k := by omega
    subst this
    exact ⟨sym, hk, hs, hmin⟩
  · rintro ⟨sym, hk, hs, hmin⟩
    exact ⟨i, sym, by omega, hk, hs, hmin⟩

theorem obj_find_none_iff (obj : Obj) (name : List Nat) :
    obj_find obj name = none ↔ ∀ s ∈ obj.syms, ¬ sym_defines obj.symstr name s := by
  unfold obj_find
  exact obj_find_from_none _ _ _ _

theorem outelf_find_from_some (name : List Nat) (l : List Obj) :
    ∀ (i0 o j : Nat), outelf_find_from name l i0 = some (o, j) ↔
      ∃ k obj, o = i0 + k ∧ l[k]? = some obj ∧ obj_find obj name = some j ∧
        ∀ k2 ob, k2 < k → l[k2]? = some ob → obj_find ob name = none := by
  induction l with
  | nil => intro i0 o j; simp [outelf_find_from]
  | cons a rest ih =>
    intro i0 o j
    simp only [outelf_find_from]
    cases ha : obj_find a name with
    | some j1 =>
      simp only [Option.some.injEq, Prod.mk.injEq]
      constructor
      · rintro ⟨h1, h2⟩
        subst h1 h2
        exact ⟨0, a, by omega, by simp, ha, by intro k2 ob hk; omega⟩
      · rintro ⟨k, obj, ho, hk, hj, hmin⟩
        cases k with
        | zero =>
          simp at hk
          subst hk
          rw [ha] at hj
          injection hj with hj
          exact ⟨by omega, hj⟩
        | succ k =>
          have := hmin 0 a (by omega) (by simp)
          rw [ha] at this
          exact Option.noConfusion this
    | none =>
      simp only
      rw [ih]
      constructor
      · rintro ⟨k, obj, ho, hk, hj, hmin⟩
        refine ⟨k + 1, obj, by omega, by simpa using hk, hj, ?_⟩
        intro k2 ob hk2 hob
        cases k2 with
        | zero =>
          simp at hob
          subst hob
          exact ha
        | succ k2 => exact hmin k2 ob (by omega) (by simpa using hob)
      · rintro ⟨k, obj, ho, hk, hj, hmin⟩
        cases k with
        | zero =>
          simp at hk
          subst hk
          rw [ha] at hj
          exact Option.noConfusion hj
        | succ k =>
          refine ⟨k, obj, by omega, by simpa using hk, hj, ?_⟩
          intro k2 ob hk2 hob
          exact hmin (k2 + 1) ob (by omega) (by simpa using hob)

theorem outelf_find_from_none (name : List Nat) (l : List Obj) :
    ∀ (i0 : Nat), outelf_find_from name l i0 = none ↔ ∀ obj ∈ l, obj_find obj name = none := by
  induction l with
  | nil => intro i0; simp [outelf_find_from]
  | cons a rest ih =>
    intro i0
    simp only [outelf_find_from, List.mem_cons, forall_eq_or_imp]
    cases ha : obj_find a name with
    | some j1 => simp
    | none => simp [ih]

theorem outelf_find_some_iff (oe : Outelf) (name : List Nat) (o j : Nat) :
    outelf_find oe name = some (o, j) ↔
      ∃ obj, oe.objs[o]? = some obj ∧ obj_find obj name = some j ∧
        ∀ k ob, k < o → oe.objs[k]? = some ob → obj_find ob name = none := by
  unfold outelf_find
  rw [outelf_find_from_some]
  constructor
  · rintro ⟨k, obj, ho, hk, hj, hmin⟩
    have : o = k := by omega
    subst this
    exact ⟨obj, hk, hj, hmin⟩
  · rintro ⟨obj, hk, hj, hmin⟩
    exact ⟨o, obj, by omega, hk, hj, hmin⟩

theorem outelf_find_none_iff (oe : Outelf) (name : List Nat) :
    outelf_find oe name = none ↔
      ∀ obj ∈ oe.objs, ∀ s ∈ obj.syms, ¬ sym_defines obj.symstr name s := by
  unfold outelf_find
  rw [outelf_find_from_none]
  constructor
  · intro h obj ho
    exact (obj_find_none_iff obj name).mp (h obj ho)
  · intro h obj ho
    exact (obj_find_none_iff obj name).mpr (h obj ho)

/-- The first defining symbol in ingestion order is what `outelf_find` returns. -/
theorem outelf_find_first (oe : Outelf) (name : List Nat) (o j : Nat) (obj : Obj)
    (sym : Elf32_Sym) (hobj : oe.objs[o]? = some obj) (hsym : obj.syms[j]? = some sym)
    (hdef : sym_defines obj.symstr name sym)
    (hfirst : ∀ o3 j3 obj3 sym3, oe.objs[o3]? = some obj3 → obj3.syms[j3]? = some sym3 →
      sym_defines obj3.symstr name sym3 → o < o3 ∨ (o = o3 ∧ j ≤ j3)) :
    outelf_find oe name = some (o, j) := by
  rw [outelf_find_some_iff]
  refine ⟨obj, hobj, ?_, ?_⟩
  · rw [obj_find_some_iff]
    refine ⟨sym, hsym, hdef, ?_⟩
    intro k s hk hs hd
    have := hfirst o k obj s hobj hs hd
    omega
  · intro k ob hk hob
    rw [obj_find_none_iff]
    intro s hs hd
    obtain ⟨j3, hj3, hget⟩ := List.getElem_of_mem hs
    have := hfirst k j3 ob s hob (by rw [List.getElem?_eq_getElem hj3, hget]) hd
    omega

theorem symval_of_defined (oe : Outelf) (o j : Nat) (obj : Obj) (sym : Elf32_Sym)
    (hobj : oe.objs[o]? = some obj) (hsym : obj.syms[j]? = some sym)
    (hty : ELF32_ST_TYPE sym.st_info = STT_NOTYPE ∨ ELF32_ST_TYPE sym.st_info = STT_OBJECT ∨
      ELF32_ST_TYPE sym.st_info = STT_FUNC)
    (hdef : sym.st_shndx ≠ SHN_UNDEF) :
    symval oe o j = Except.ok (symval_defined oe obj j sym) := by
  have h3 : ¬ ELF32_ST_TYPE sym.st_info = STT_SECTION := by
    rcases hty with h | h | h <;> rw [h] <;> decide
  simp only [symval, hobj, hsym, h3, if_false, hty, if_true, hdef, and_false]

/-! ## `sym_undef` -/

theorem sym_undef_syms_spec (symstr name : List Nat) (l : List Elf32_Sym) :
    ∀ u : Bool,
      (sym_undef_syms symstr name l u = none ↔
        ∃ s ∈ l, sym_refers symstr name s ∧ s.st_shndx ≠ SHN_UNDEF) ∧
      (∀ v, sym_undef_syms symstr name l u = some v →
        (v = true ↔ u = true ∨ ∃ s ∈ l, sym_refers symstr name s)) := by
  induction l with
  | nil => intro u; simp [sym_undef_syms]
  | cons a rest ih =>
    intro u
    simp only [sym_undef_syms, List.mem_cons, exists_eq_or_imp]
    by_cases h1 : ELF32_ST_BIND a.st_info = STB_LOCAL
    · have hn : ¬ sym_refers symstr name a := fun h => h.1 h1
      rw [if_pos h1]
      simp only [hn, false_and, false_or]
      exact ih u
    · rw [if_neg h1]
      by_cases h2 : name = cstr symstr a.st_name
      · have hr : sym_refers symstr name a := ⟨h1, h2⟩
        rw [if_neg (not_not.mpr h2)]
        by_cases h3 : a.st_shndx = SHN_UNDEF
        · rw [if_neg (not_not.mpr h3)]
          simp only [hr, h3, true_and, ne_eq, not_true_eq_false, false_or, true_or, or_true,
            iff_true]
          refine ⟨(ih true).1, ?_⟩
          intro v hv
          exact ((ih true).2 v hv).mpr (Or.inl rfl)
        · rw [if_pos h3]
          simp [hr, h3]
      · have hn : ¬ sym_refers symstr name a := fun h => h2 h.2
        rw [if_pos h2]
        simp only [hn, false_and, false_or]
        exact ih u

theorem sym_undef_objs_spec (name : List Nat) (l : List Obj) :
    ∀ u : Bool,
      (sym_undef_objs name l u = none ↔
        ∃ o ∈ l, ∃ s ∈ o.syms, sym_refers o.symstr name s ∧ s.st_shndx ≠ SHN_UNDEF) ∧
      (∀ v, sym_undef_objs name l u = some v →
        (v = true ↔ u = true ∨ ∃ o ∈ l, ∃ s ∈ o.syms, sym_refers o.symstr name s)) := by
  induction l with
  | nil => intro u; simp [sym_undef_objs]
  | cons a rest ih =>
    intro u
    simp only [sym_undef_objs, List.mem_cons, exists_eq_or_imp]
    have ha := sym_undef_syms_spec a.symstr name a.syms u
    cases hs : sym_undef_syms a.symstr name a.syms u with
    | none =>
      simp only [true_iff, false_implies, implies_true, and_true, reduceCtorEq]
      exact Or.inl (ha.1.mp hs)
    | some u1 =>
      have hnot : ¬ ∃ s ∈ a.syms, sym_refers a.symstr name s ∧ s.st_shndx ≠ SHN_UNDEF := by
        intro h
        rw [← ha.1, hs] at h
        exact Option.noConfusion h
      have hu1 := ha.2 u1 hs
      simp only [hnot, false_or]
      refine ⟨(ih u1).1, ?_⟩
      intro v hv
      rw [(ih u1).2 v hv, hu1, or_assoc]

theorem sym_undef_true_iff (oe : Outelf) (name : List Nat) :
    sym_undef oe name = true ↔
      (∃ obj ∈ oe.objs, ∃ sym ∈ obj.syms,
        ELF32_ST_BIND sym.st_info ≠ STB_LOCAL ∧ sym_name obj sym = name) ∧
      (∀ obj ∈ oe.objs, ∀ sym ∈ obj.syms,
        ELF32_ST_BIND sym.st_info ≠ STB_LOCAL → sym_name obj sym = name →
          sym.st_shndx = SHN_UNDEF) := by
  have h := sym_undef_objs_spec name oe.objs false
  unfold sym_undef
  cases hs : sym_undef_objs name oe.objs false with
  | none =>
    obtain ⟨o, ho, s, hs2, hr, hd⟩ := h.1.mp hs
    simp only [Bool.false_eq_true, false_iff, not_and]
    intro _ hall
    exact hd (hall o ho s hs2 hr.1 hr.2.symm)
  | some v =>
    have hnot : ¬ ∃ o ∈ oe.objs, ∃ s ∈ o.syms,
        sym_refers o.symstr name s ∧ s.st_shndx ≠ SHN_UNDEF := by
      intro h2
      rw [← h.1, hs] at h2
      exact Option.noConfusion h2
    simp only
    rw [h.2 v hs]
    simp only [Bool.false_eq_true, false_or]
    constructor
    · rintro ⟨o, ho, s, hs2, hr⟩
      refine ⟨⟨o, ho, s, hs2, hr.1, hr.2.symm⟩, ?_⟩
      intro o2 ho2 s2 hs3 hb hn
      by_contra hd
      exact hnot ⟨o2, ho2, s2, hs3, ⟨hb, hn.symm⟩, hd⟩
    · rintro ⟨⟨o, ho, s, hs2, hb, hn⟩, _⟩
      exact ⟨o, ho, s, hs2, hb, hn.symm⟩

/-! ## Archives -/

theorem ar_link_loop_eq_pass (bytes : List Nat) (member : Nat → Obj) (ar base : Nat) :
    ∀ (k i p : Nat) (oe : Outelf) (added : Nat),
      ar_link_loop bytes member ar base k i p oe added =
        ar_pass member (ar - base) (ar_entries_loop bytes ar k i p) oe added := by
  intro k
  induction k with
  | zero => intro i p oe added; rfl
  | succ k ih =>
    intro i p oe added
    simp only [ar_link_loop, ar_entries_loop, ar_pass]
    split
    · cases outelf_add oe (member (ar - base +
          (get_be32_at bytes (ar + 4 + i * 4) + ARHDR_SIZE) % WORD)) with
      | error e => rfl
      | ok oe1 => exact ih _ _ _ _
    · exact ih _ _ _ _

theorem outelf_ar_link_eq_pass (bytes : List Nat) (member : Nat → Obj) (oe : Outelf)
    (ar base : Nat) :
    outelf_ar_link bytes member oe ar base =
      ar_pass member (ar - base) (ar_entries bytes ar) oe 0 :=
  ar_link_loop_eq_pass _ _ _ _ _ _ _ _ _

theorem ar_entries_loop_length (bytes : List Nat) (ar : Nat) :
    ∀ k i p, (ar_entries_loop bytes ar k i p).length = k := by
  intro k
  induction k with
  | zero => intro i p; rfl
  | succ k ih => intro i p; simp [ar_entries_loop, ih]

theorem ar_entries_length (bytes : List Nat) (ar : Nat) :
    (ar_entries bytes ar).length = get_be32_at bytes ar :=
  ar_entries_loop_length _ _ _ _ _

/-! ### `outelf_add` -/

theorem add_secs_objs (o mem : Nat) (l : List Elf32_Shdr) :
    ∀ (i : Nat) (oe oe1 : Outelf), add_secs o mem l i oe = Except.ok oe1 →
      oe1.objs = oe.objs := by
  induction l with
  | nil =>
    intro i oe oe1 h
    simp only [add_secs, Except.ok.injEq] at h
    rw [← h]
  | cons sh rest ih =>
    intro i oe oe1 h
    simp only [add_secs] at h
    split at h
    · exact ih _ _ _ h
    · split at h
      · simp [die] at h
      · have h2 := ih _ _ _ h
        exact h2

theorem add_secs_error (o mem : Nat) (l : List Elf32_Shdr) :
    ∀ (i : Nat) (oe : Outelf) (e : Err), add_secs o mem l i oe = Except.error e →
      e = Err.maxsecs := by
  induction l with
  | nil => intro i oe e h; simp [add_secs] at h
  | cons sh rest ih =>
    intro i oe e h
    simp only [add_secs] at h
    split at h
    · exact ih _ _ _ h
    · split at h
      · simp only [die, Except.error.injEq] at h
        exact h.symm
      · exact ih _ _ _ h

theorem outelf_add_objs {oe oe1 : Outelf} {m : Obj} (h : outelf_add oe m = Except.ok oe1) :
    (m.e_type ≠ ET_REL ∧ oe1 = oe) ∨ (m.e_type = ET_REL ∧ oe1.objs = oe.objs ++ [m]) := by
  unfold outelf_add at h
  split at h
  · left
    rename_i h1
    simp only [Except.ok.injEq] at h
    exact ⟨h1, h.symm⟩
  · rename_i h1
    split at h
    · simp [die] at h
    · right
      refine ⟨not_not.mp h1, ?_⟩
      rw [add_secs_objs _ _ _ _ _ _ h]

theorem outelf_add_error {oe : Outelf} {m : Obj} {e : Err}
    (h : outelf_add oe m = Except.error e) : e = Err.maxobjs ∨ e = Err.maxsecs := by
  unfold outelf_add at h
  split at h
  · simp at h
  · split at h
    · simp only [die, Except.error.injEq] at h
      exact Or.inl h.symm
    · exact Or.inr (add_secs_error _ _ _ _ _ _ h)

/-! ### Names defined by a loaded object -/

theorem name_defined_iff (oe : Outelf) (name : List Nat) :
    name_defined oe name = true ↔
      ∃ o ∈ oe.objs, ∃ s ∈ o.syms, sym_defines o.symstr name s := by
  unfold name_defined
  rw [List.any_eq_true]
  constructor
  · rintro ⟨o, ho, h⟩
    refine ⟨o, ho, ?_⟩
    by_contra hn
    have : obj_find o name = none := by
      unfold obj_find
      rw [obj_find_from_none]
      intro s hs hd
      exact hn ⟨s, hs, hd⟩
    rw [this] at h
    exact absurd h (by simp)
  · rintro ⟨o, ho, s, hs, hd⟩
    refine ⟨o, ho, ?_⟩
    cases hf : obj_find o name with
    | some i => rfl
    | none =>
      unfold obj_find at hf
      rw [obj_find_from_none] at hf
      exact absurd hd (hf s hs)

theorem sym_undef_not_defined {oe : Outelf} {name : List Nat}
    (h : sym_undef oe name = true) : name_defined oe name = false := by
  rw [sym_undef_true_iff] at h
  cases hd : name_defined oe name with
  | false => rfl
  | true =>
    rw [name_defined_iff] at hd
    obtain ⟨o, ho, s, hs, hb, hu, hn⟩ := hd
    exact absurd (h.2 o ho s hs hb hn) hu

theorem name_defined_append {oe oe1 : Outelf} {m : Obj} (h : oe1.objs = oe.objs ++ [m])
    (name : List Nat) :
    name_defined oe1 name = (name_defined oe name || (obj_find m name).isSome) := by
  simp [name_defined, h, List.any_append]

theorem ar_weight_mono (w : List Nat × Nat → Nat) (es : List (List Nat × Nat))
    (oe oe1 : Outelf)
    (hmono : ∀ n, name_defined oe n = true → name_defined oe1 n = true) :
    ar_weight w es oe1 ≤ ar_weight w es oe := by
  induction es with
  | nil => simp [ar_weight]
  | cons a rest ih =>
    unfold ar_weight at ih ⊢
    simp only [List.map_cons, List.sum_cons]
    have h3 : (if name_defined oe1 a.1 = true then 0 else w a) ≤
        (if name_defined oe a.1 = true then 0 else w a) := by
      cases hd : name_defined oe a.1 with
      | false =>
        simp only [Bool.false_eq_true, if_false]
        split <;> omega
      | true =>
        rw [hmono _ hd]
    omega

theorem ar_weight_drop (w : List Nat × Nat → Nat) (es : List (List Nat × Nat))
    (oe oe1 : Outelf)
    (hmono : ∀ n, name_defined oe n = true → name_defined oe1 n = true)
    (e : List Nat × Nat) (he : e ∈ es) (h0 : name_defined oe e.1 = false)
    (h1 : name_defined oe1 e.1 = true) :
    ar_weight w es oe1 + w e ≤ ar_weight w es oe := by
  induction es with
  | nil => simp at he
  | cons a rest ih =>
    have hrest := ar_weight_mono w rest oe oe1 hmono
    unfold ar_weight at hrest ih ⊢
    simp only [List.map_cons, List.sum_cons]
    rcases List.mem_cons.mp he with h | h
    · subst h
      simp only [h0, h1, Bool.false_eq_true, if_false, if_true]
      omega
    · have := ih h
      have h3 : (if name_defined oe1 a.1 = true then 0 else w a) ≤
          (if name_defined oe a.1 = true then 0 else w a) := by
        cases hd : name_defined oe a.1 with
        | false =>
          simp only [Bool.false_eq_true, if_false]
          split <;> omega
        | true =>
          rw [hmono _ hd]
      omega

theorem ar_weight_le (w : List Nat × Nat → Nat) (es : List (List Nat × Nat)) (oe : Outelf) :
    ar_weight w es oe ≤ (es.map w).sum := by
  induction es with
  | nil => simp [ar_weight]
  | cons a rest ih =>
    unfold ar_weight at ih ⊢
    simp only [List.map_cons, List.sum_cons]
    have : (if name_defined oe a.1 = true then 0 else w a) ≤ w a := by split <;> omega
    omega

theorem ar_weight_mem (w : List Nat × Nat → Nat) (es : List (List Nat × Nat)) (oe : Outelf)
    (e : List Nat × Nat) (he : e ∈ es) (h0 : name_defined oe e.1 = false) :
    w e ≤ ar_weight w es oe := by
  induction es with
  | nil => simp at he
  | cons a rest ih =>
    unfold ar_weight at ih ⊢
    simp only [List.map_cons, List.sum_cons]
    rcases List.mem_cons.mp he with h | h
    · subst h
      simp only [h0, Bool.false_eq_true, if_false]
      omega
    · have := ih h
      omega

/-! ### `outelf_add` within capacity -/

theorem add_secs_room (o mem : Nat) (l : List Elf32_Shdr) :
    ∀ (i : Nat) (oe : Outelf),
      oe.secs.length + l.countP (fun sh => sh.sh_flags &&& 0x7 != 0) ≤ MAXSECS →
      ∃ oe1, add_secs o mem l i oe = Except.ok oe1 ∧
        oe1.secs.length = oe.secs.length + l.countP (fun sh => sh.sh_flags &&& 0x7 != 0) := by
  induction l with
  | nil => intro i oe _; exact ⟨oe, rfl, by simp⟩
  | cons sh rest ih =>
    intro i oe h
    simp only [add_secs]
    rw [List.countP_cons] at h ⊢
    by_cases hf : sh.sh_flags &&& 0x7 = 0
    · rw [if_pos hf]
      have h0 : ¬ ((sh.sh_flags &&& 0x7 != 0) = true) := by simp [hf]
      rw [if_neg h0] at h ⊢
      exact ih _ _ h
    · rw [if_neg hf]
      have h0 : (sh.sh_flags &&& 0x7 != 0) = true := by simp [hf]
      rw [if_pos h0] at h ⊢
      have h1 : ¬ oe.secs.length ≥ MAXSECS := by omega
      rw [if_neg h1]
      obtain ⟨oe1, h2, h3⟩ := ih (i + 1)
        { oe with secs := oe.secs ++ [{ o_shdr := (mem, i), obj := o, vaddr := 0, faddr := 0 }] }
        (by simp only [List.length_append, List.length_singleton]; omega)
      refine ⟨oe1, h2, ?_⟩
      rw [h3]
      simp only [List.length_append, List.length_singleton]
      omega

theorem outelf_add_room (oe : Outelf) (m : Obj) (hrel : m.e_type = ET_REL)
    (hobjs : oe.objs.length < MAXOBJS) (hsecs : oe.secs.length + nalloc m ≤ MAXSECS) :
    ∃ oe1, outelf_add oe m = Except.ok oe1 ∧ oe1.secs.length = oe.secs.length + nalloc m := by
  unfold outelf_add
  have h1 : ¬ m.e_type ≠ ET_REL := not_not.mpr hrel
  have h2 : ¬ oe.objs.length ≥ MAXOBJS := by omega
  rw [if_neg h1, if_neg h2]
  exact add_secs_room _ _ _ _ _ hsecs

/-! ### One pass and the rescan loop -/

theorem ar_pass_spec (member : Nat → Obj) (all : List (List Nat × Nat))
    (hall : ∀ e ∈ all, (member e.2).e_type = ET_REL ∧ (obj_find (member e.2) e.1).isSome) :
    ∀ (es : List (List Nat × Nat)), (∀ e ∈ es, e ∈ all) → ∀ (oe : Outelf) (added : Nat),
      match ar_pass member 0 es oe added with
      | Except.error err => (err = Err.maxobjs ∨ err = Err.maxsecs) ∧ ¬ ar_room member all oe
      | Except.ok r =>
        added ≤ r.2 ∧ ar_pending all r.1 + (r.2 - added) ≤ ar_pending all oe ∧
        (r.2 = added → r.1 = oe ∧ ∀ e ∈ es, sym_undef oe e.1 = false) ∧
        (ar_room member all oe → ar_room member all r.1) := by
  intro es
  induction es with
  | nil =>
    intro _ oe added
    simp [ar_pass]
  | cons e rest ih =>
    intro hsub oe added
    have hrest : ∀ x ∈ rest, x ∈ all := fun x hx => hsub x (List.mem_cons_of_mem _ hx)
    have he : e ∈ all := hsub e (List.mem_cons_self _ _)
    simp only [ar_pass, Nat.zero_add]
    by_cases hu : sym_undef oe e.1 = true
    · rw [if_pos hu]
      have hundef := sym_undef_not_defined hu
      have hw1 := ar_weight_mem (fun _ => 1) all oe e he hundef
      have hw2 := ar_weight_mem (fun x => nalloc (member x.2)) all oe e he hundef
      beta_reduce at hw1 hw2
      cases hadd : outelf_add oe (member e.2) with
      | error err =>
        refine ⟨outelf_add_error hadd, ?_⟩
        intro hroom
        obtain ⟨oe1, h1, _⟩ := outelf_add_room oe (member e.2) (hall e he).1
          (by have := hroom.1; unfold ar_pending at this; omega)
          (by have := hroom.2; unfold ar_pending_secs at this; omega)
        rw [hadd] at h1
        exact Except.noConfusion h1
      | ok oe1 =>
        have hobjs : oe1.objs = oe.objs ++ [member e.2] := by
          rcases outelf_add_objs hadd with h | h
          · exact absurd (hall e he).1 h.1
          · exact h.2
        have hmono : ∀ n, name_defined oe n = true → name_defined oe1 n = true := by
          intro n hn
          rw [name_defined_append hobjs, hn]
          rfl
        have hnew : name_defined oe1 e.1 = true := by
          rw [name_defined_append hobjs, (hall e he).2]
          simp
        have hlt := ar_weight_drop (fun _ => 1) all oe oe1 hmono e he hundef hnew
        have hlt2 := ar_weight_drop (fun x => nalloc (member x.2)) all oe oe1 hmono e he
          hundef hnew
        beta_reduce at hlt hlt2
        have hroom1 : ar_room member all oe → ar_room member all oe1 := by
          intro hroom
          obtain ⟨oe2, h1, h2⟩ := outelf_add_room oe (member e.2) (hall e he).1
            (by have := hroom.1; unfold ar_pending at this; omega)
            (by have := hroom.2; unfold ar_pending_secs at this; omega)
          rw [hadd] at h1
          injection h1 with h1
          subst h1
          have hr1 := hroom.1
          have hr2 := hroom.2
          unfold ar_room
          unfold ar_pending at hr1 ⊢
          unfold ar_pending_secs at hr2 ⊢
          rw [hobjs, h2]
          simp only [List.length_append, List.length_singleton]
          constructor <;> omega
        have h := ih hrest oe1 (added + 1)
        simp only
        cases hr : ar_pass member 0 rest oe1 (added + 1) with
        | error err =>
          rw [hr] at h
          exact ⟨h.1, fun hroom => h.2 (hroom1 hroom)⟩
        | ok r =>
          rw [hr] at h
          simp only at h ⊢
          obtain ⟨h1, h2, _, h4⟩ := h
          unfold ar_pending at h2 ⊢
          refine ⟨by omega, by omega, ?_, fun hroom => h4 (hroom1 hroom)⟩
          intro h5
          omega
    · rw [if_neg hu]
      have h := ih hrest oe added
      cases hr : ar_pass member 0 rest oe added with
      | error err => rw [hr] at h; exact h
      | ok r =>
        rw [hr] at h
        simp only at h ⊢
        obtain ⟨h1, h2, h4, h5⟩ := h
        refine ⟨h1, h2, ?_, h5⟩
        intro h6
        refine ⟨(h4 h6).1, ?_⟩
        intro x hx
        rcases List.mem_cons.mp hx with h7 | h7
        · subst h7
          simpa using hu
        · exact (h4 h6).2 x h7

theorem ar_rescan_spec (bytes : List Nat) (member : Nat → Obj) (ar : Nat)
    (hall : ∀ e ∈ ar_entries bytes ar,
      (member e.2).e_type = ET_REL ∧ (obj_find (member e.2) e.1).isSome) :
    ∀ (fuel : Nat) (oe : Outelf), ar_pending (ar_entries bytes ar) oe < fuel →
      (∃ oe1, ar_rescan bytes member ar fuel oe = Except.ok oe1 ∧
        ∀ e ∈ ar_entries bytes ar, sym_undef oe1 e.1 = false) ∨
      ((ar_rescan bytes member ar fuel oe = Except.error Err.maxobjs ∨
        ar_rescan bytes member ar fuel oe = Except.error Err.maxsecs) ∧
       ¬ ar_room member (ar_entries bytes ar) oe) := by
  intro fuel
  induction fuel with
  | zero => intro oe h; omega
  | succ fuel ih =>
    intro oe hfuel
    have hp := ar_pass_spec member (ar_entries bytes ar) hall (ar_entries bytes ar)
      (fun e he => he) oe 0
    simp only [ar_rescan, outelf_ar_link_eq_pass, Nat.sub_self]
    cases hr : ar_pass member 0 (ar_entries bytes ar) oe 0 with
    | error err =>
      rw [hr] at hp
      right
      refine ⟨?_, hp.2⟩
      rcases hp.1 with h | h
      · left; rw [h]
      · right; rw [h]
    | ok r =>
      rw [hr] at hp
      obtain ⟨oe1, added⟩ := r
      simp only at hp ⊢
      obtain ⟨_, h2, h4, h5⟩ := hp
      by_cases ha : added = 0
      · have h6 := h4 ha
        simp only [ha, ne_eq, not_true_eq_false, if_false]
        left
        refine ⟨oe1, rfl, ?_⟩
        rw [h6.1]
        exact h6.2
      · simp only [ne_eq, ha, not_false_eq_true, if_true]
        rcases ih oe1 (by omega) with h | h
        · exact Or.inl h
        · exact Or.inr ⟨h.1, fun hroom => h.2 (h5 hroom)⟩

theorem link_archive_index_first (bytes : List Nat) (member : Nat → Obj) (oe : Outelf)
    (fuel : Nat) (hlen : 8 + ARHDR_SIZE ≤ bytes.length)
    (hidx : rd8 bytes 8 = 47 ∧ rd8 bytes 9 = 32) :
    link_archive (fuel + 1) bytes member oe = ar_rescan bytes member (8 + ARHDR_SIZE) fuel oe := by
  have h1 : ¬ bytes.length < 8 + ARHDR_SIZE := by omega
  simp only [link_archive, link_archive_loop, h1, if_false, hidx, and_self, if_true]

theorem ar_pass_idle (member : Nat → Obj) (delta : Nat) :
    ∀ (es : List (List Nat × Nat)) (oe : Outelf) (added : Nat),
      (∀ e ∈ es, sym_undef oe e.1 = false) →
      ar_pass member delta es oe added = Except.ok (oe, added) := by
  intro es
  induction es with
  | nil => intro oe added _; rfl
  | cons e rest ih =>
    intro oe added h
    have he : ¬ sym_undef oe e.1 = true := by
      rw [h e (List.mem_cons_self _ _)]
      simp
    simp only [ar_pass, if_neg he]
    exact ih oe added (fun x hx => h x (List.mem_cons_of_mem _ hx))

theorem get_be32_value (s0 s1 s2 s3 : Nat) (h1 : s1 < 256) (h2 : s2 < 256) (h3 : s3 < 256) :
    get_be32 s0 s1 s2 s3 = s1 * 2 ^ 16 + s2 * 2 ^ 8 + s3 := by
  have e0 : shl_int s0 32 = 0 := by
    simp [shl_int, WORD, Nat.shiftLeft_eq]
  have e1 : shl_int s1 16 = 2 ^ 16 * s1 := by
    simp only [shl_int, WORD, Nat.shiftLeft_eq]
    omega
  have e2 : shl_int s2 8 = 2 ^ 8 * s2 := by
    simp only [shl_int, WORD, Nat.shiftLeft_eq]
    omega
  unfold get_be32
  rw [e0, e1, e2, Nat.or_zero, Nat.or_comm s3,
    ← Nat.mul_add_lt_is_or (by omega : s3 < 2 ^ 8),
    Nat.or_comm, ← Nat.mul_add_lt_is_or (by omega : 2 ^ 8 * s2 + s3 < 2 ^ 16)]
  omega


/-! ## Bytes outside a patched field -/

theorem wr8_get_other (b : List Nat) (a v p : Nat) (h : p ≠ a) :
    (wr8 b a v)[p]? = b[p]? := by
  simp only [wr8, List.getElem?_set]
  have : ¬ a = p := fun e => h e.symm
  simp [this]

theorem wr16_get_other (b : List Nat) (a v p : Nat) (h : p < a ∨ a + 2 ≤ p) :
    (wr16 b a v)[p]? = b[p]? := by
  unfold wr16
  rw [wr8_get_other _ _ _ _ (by omega), wr8_get_other _ _ _ _ (by omega)]

theorem wr32_get_other (b : List Nat) (a v p : Nat) (h : p < a ∨ a + 4 ≤ p) :
    (wr32 b a v)[p]? = b[p]? := by
  unfold wr32
  rw [wr8_get_other _ _ _ _ (by omega), wr8_get_other _ _ _ _ (by omega),
    wr8_get_other _ _ _ _ (by omega), wr8_get_other _ _ _ _ (by omega)]

/-- The patch step of `reloc_entry` once the entry is read and its symbol valued. -/
theorem reloc_patch_frame (t d : Nat) (bytes b : List Nat) (v16 v32 : Nat) (vpc : Secmap → Nat)
    (m : Option Secmap)
    (h : (if t = R_386_NONE then Except.ok bytes
        else if t = R_386_16 then
          if bytes.length < d + 2 then die Err.fault
          else Except.ok (wr16 bytes d v16)
        else if t = R_386_32 then
          if bytes.length < d + 4 then die Err.fault
          else Except.ok (wr32 bytes d v32)
        else if t = R_386_PC32 ∨ t = R_386_PLT32 then
          match m with
          | none => die Err.fault
          | some sec =>
            if bytes.length < d + 4 then die Err.fault
            else Except.ok (wr32 bytes d (vpc sec))
        else die Err.unknown_reloc) = Except.ok b) :
    b.length = bytes.length ∧
    (t = R_386_32 ∨ t = R_386_PC32 ∨ t = R_386_PLT32 →
      d + 4 ≤ bytes.length ∧ ∀ p, p < d ∨ d + 4 ≤ p → b[p]? = bytes[p]?) ∧
    (t = R_386_16 →
      d + 2 ≤ bytes.length ∧ ∀ p, p < d ∨ d + 2 ≤ p → b[p]? = bytes[p]?) ∧
    (t = R_386_NONE → b = bytes) := by
  by_cases h0 : t = R_386_NONE
  · subst h0
    simp only [if_true, Except.ok.injEq] at h
    subst h
    refine ⟨rfl, ?_, ?_, fun _ => rfl⟩
    · intro hc
      exact absurd hc (by decide)
    · intro hc
      exact absurd hc (by decide)
  · rw [if_neg h0] at h
    by_cases h16 : t = R_386_16
    · subst h16
      rw [if_pos rfl] at h
      by_cases hlen : bytes.length < d + 2
      · exfalso
        rw [if_pos hlen] at h
        simp [die] at h
      · rw [if_neg hlen] at h
        simp only [Except.ok.injEq] at h
        subst h
        refine ⟨wr16_length _ _ _, ?_, ?_, fun hc => absurd hc h0⟩
        · intro hc
          exact absurd hc (by decide)
        · intro _
          exact ⟨by omega, fun p hp => wr16_get_other _ _ _ _ hp⟩
    · rw [if_neg h16] at h
      by_cases h32 : t = R_386_32
      · subst h32
        rw [if_pos rfl] at h
        by_cases hlen : bytes.length < d + 4
        · exfalso
          rw [if_pos hlen] at h
          simp [die] at h
        · rw [if_neg hlen] at h
          simp only [Except.ok.injEq] at h
          subst h
          refine ⟨wr32_length _ _ _, ?_, fun hc => absurd hc h16, fun hc => absurd hc h0⟩
          intro _
          exact ⟨by omega, fun p hp => wr32_get_other _ _ _ _ hp⟩
      · rw [if_neg h32] at h
        by_cases hpc : t = R_386_PC32 ∨ t = R_386_PLT32
        · rw [if_pos hpc] at h
          cases m with
          | none => simp [die] at h
          | some sec =>
            simp only at h
            by_cases hlen : bytes.length < d + 4
            · exfalso
              rw [if_pos hlen] at h
              simp [die] at h
            · rw [if_neg hlen] at h
              simp only [Except.ok.injEq] at h
              subst h
              refine ⟨wr32_length _ _ _, ?_, fun hc => absurd hc h16,
                fun hc => absurd hc h0⟩
              intro _
              exact ⟨by omega, fun p hp => wr32_get_other _ _ _ _ hp⟩
        · rw [if_neg hpc] at h
          simp [die] at h

/-! ## The mappings `outelf_add` appends -/

theorem wanted_secs_nil (o mem i0 : Nat) : wanted_secs o mem [] i0 = [] := rfl

theorem wanted_secs_cons (o mem : Nat) (sh : Elf32_Shdr) (rest : List Elf32_Shdr) (i0 : Nat) :
    wanted_secs o mem (sh :: rest) i0 =
      if sh.sh_flags &&& 0x7 = 0 then wanted_secs o mem rest (i0 + 1)
      else { o_shdr := (mem, i0), obj := o, vaddr := 0, faddr := 0 } ::
        wanted_secs o mem rest (i0 + 1) := by
  unfold wanted_secs
  rw [List.length_cons, List.range_succ_eq_map, List.filter_cons]
  have hmap : (List.filter (fun k => ((sh :: rest).getD k default).sh_flags &&& 0x7 != 0)
      (List.map Nat.succ (List.range rest.length))) =
      List.map Nat.succ (List.filter (fun k => (rest.getD k default).sh_flags &&& 0x7 != 0)
        (List.range rest.length)) := by
    rw [List.filter_map]
    rfl
  rw [hmap]
  have hshift : List.map (fun k => ({ o_shdr := (mem, i0 + k), obj := o, vaddr := 0, faddr := 0 } : Secmap))
      (List.map Nat.succ (List.filter (fun k => (rest.getD k default).sh_flags &&& 0x7 != 0)
        (List.range rest.length))) =
      List.map (fun k => ({ o_shdr := (mem, i0 + 1 + k), obj := o, vaddr := 0, faddr := 0 } : Secmap))
        (List.filter (fun k => (rest.getD k default).sh_flags &&& 0x7 != 0)
          (List.range rest.length)) := by
    rw [List.map_map]
    apply List.map_congr_left
    intro k _
    simp only [Function.comp, Nat.succ_eq_add_one]
    have : i0 + (k + 1) = i0 + 1 + k := by omega
    rw [this]
  by_cases hf : sh.sh_flags &&& 0x7 = 0
  · simp [hf, hshift]
    intro a _ _
    omega
  · simp [hf, hshift]
    intro a _ _
    omega

theorem add_secs_eq (o mem : Nat) (l : List Elf32_Shdr) :
    ∀ (i : Nat) (oe : Outelf),
      oe.secs.length + l.countP (fun sh => sh.sh_flags &&& 0x7 != 0) ≤ MAXSECS →
      add_secs o mem l i oe =
        Except.ok { oe with secs := oe.secs ++ wanted_secs o mem l i } := by
  induction l with
  | nil => intro i oe _; simp [add_secs, wanted_secs_nil]
  | cons sh rest ih =>
    intro i oe h
    simp only [add_secs]
    rw [wanted_secs_cons]
    rw [List.countP_cons] at h
    by_cases hf : sh.sh_flags &&& 0x7 = 0
    · rw [if_pos hf, if_pos hf]
      have h0 : ¬ ((sh.sh_flags &&& 0x7 != 0) = true) := by simp [hf]
      rw [if_neg h0] at h
      exact ih _ _ h
    · rw [if_neg hf, if_neg hf]
      have h0 : (sh.sh_flags &&& 0x7 != 0) = true := by simp [hf]
      rw [if_pos h0] at h
      have h1 : ¬ oe.secs.length ≥ MAXSECS := by omega
      rw [if_neg h1]
      rw [ih (i + 1) _ (by simp only [List.length_append, List.length_singleton]; omega)]
      simp

theorem add_secs_fresh (o mem : Nat) (l : List Elf32_Shdr) :
    ∀ (i : Nat) (oe oe1 : Outelf), add_secs o mem l i oe = Except.ok oe1 →
      oe1.phdr = oe.phdr ∧ oe1.got_syms = oe.got_syms := by
  induction l with
  | nil =>
    intro i oe oe1 h
    simp only [add_secs, Except.ok.injEq] at h
    rw [← h]
    exact ⟨rfl, rfl⟩
  | cons sh rest ih =>
    intro i oe oe1 h
    simp only [add_secs] at h
    split at h
    · exact ih _ _ _ h
    · split at h
      · simp [die] at h
      · have h2 := ih _ _ _ h
        exact h2

/-- The function `outelf_add` makes no program header and no GOT entry: an image built
by `outelf_init` and `outelf_add` calls has none. -/
theorem outelf_add_fresh {oe oe1 : Outelf} {m : Obj} (h : outelf_add oe m = Except.ok oe1) :
    oe1.phdr = oe.phdr ∧ oe1.got_syms = oe.got_syms := by
  unfold outelf_add at h
  split at h
  · simp only [Except.ok.injEq] at h
    rw [← h]
    exact ⟨rfl, rfl⟩
  · split at h
    · simp [die] at h
    · have h2 := add_secs_fresh _ _ _ _ _ _ h
      exact h2

/-! ## `bss_addr` as a search -/

theorem bss_addr_from_find (v : Nat) (p : Ptr) (l : List Bss_sym) :
    bss_addr_from v p l =
      match l.find? (fun b => b.sym = p) with
      | some b => (v + b.off) % WORD
      | none => 0 := by
  induction l with
  | nil => rfl
  | cons a rest ih =>
    simp only [bss_addr_from, List.find?_cons]
    by_cases ha : a.sym = p
    · simp [ha]
    · simp [ha, ih]

/-! ## `ALIGN` -/

/-- Masking with the complement of `m` takes away the bits of `m`. -/
theorem and_compl_add (n : Nat) :
    ∀ y m : Nat, y < 2 ^ n → m < 2 ^ n → (y &&& (2 ^ n - 1 - m)) + (y &&& m) = y := by
  induction n with
  | zero =>
    intro y m hy hm
    have : y = 0 := by omega
    subst this
    simp
  | succ n ih =>
    intro y m hy hm
    have hp : 2 ^ (n + 1) = 2 * 2 ^ n := by rw [pow_succ]; omega
    have h1 : (y &&& (2 ^ (n + 1) - 1 - m)) / 2 = y / 2 &&& (2 ^ n - 1 - m / 2) := by
      rw [Nat.and_div_two]
      congr 1
      omega
    have h2 : (y &&& m) / 2 = y / 2 &&& m / 2 := Nat.and_div_two
    have h3 := ih (y / 2) (m / 2) (by omega) (by omega)
    have h4 : (y &&& (2 ^ (n + 1) - 1 - m)) % 2 = 1 ↔
        y % 2 = 1 ∧ (2 ^ (n + 1) - 1 - m) % 2 = 1 := Nat.and_mod_two_eq_one
    have h5 : (y &&& m) % 2 = 1 ↔ y % 2 = 1 ∧ m % 2 = 1 := Nat.and_mod_two_eq_one
    have h6 : (2 ^ (n + 1) - 1 - m) % 2 = 1 ↔ m % 2 = 0 := by omega
    rw [h6] at h4
    rw [← h1, ← h2] at h3
    omega

theorem ALIGN_lt (x a : Nat) : ALIGN x a < WORD := by
  unfold ALIGN
  have h : ∀ p q : Nat, q < WORD → p &&& q < WORD := fun p q hq =>
    Nat.lt_of_le_of_lt Nat.and_le_right hq
  apply h
  have : (a + (WORD - 1)) % WORD < WORD := Nat.mod_lt _ (by decide)
  simp only [WORD] at this ⊢
  omega

/-- `ALIGN` rounds up by less than the alignment, whatever the alignment is. -/
theorem ALIGN_bounds (x a : Nat) (ha : 1 ≤ a) (hx : x + a ≤ WORD) :
    x ≤ ALIGN x a ∧ ALIGN x a ≤ x + a - 1 := by
  unfold ALIGN
  have e1 : (x + a + (WORD - 1)) % WORD = x + a - 1 := by
    simp only [WORD] at hx ⊢
    omega
  have e2 : (a + (WORD - 1)) % WORD = a - 1 := by
    simp only [WORD] at hx ⊢
    omega
  rw [e1, e2]
  have h := and_compl_add 32 (x + a - 1) (a - 1) (by simp only [WORD] at hx; omega)
    (by simp only [WORD] at hx; omega)
  have h2 : (x + a - 1) &&& (a - 1) ≤ a - 1 := Nat.and_le_right
  have e3 : WORD - 1 = 2 ^ 32 - 1 := rfl
  rw [e3]
  omega

/-- For a power of two, `ALIGN` gives a multiple of it. -/
theorem ALIGN_pow_two (x k : Nat) : ALIGN x (2 ^ k) % 2 ^ k = 0 := by
  by_cases hk : k < 32
  · unfold ALIGN
    have hlt : 2 ^ k < 2 ^ 32 := Nat.pow_lt_pow_right (by decide) hk
    have hpos : 0 < 2 ^ k := Nat.pos_pow_of_pos _ (by decide)
    have e2 : (2 ^ k + (WORD - 1)) % WORD = 2 ^ k - 1 := by
      simp only [WORD] at hlt ⊢
      omega
    rw [e2]
    generalize hy : (x + 2 ^ k + (WORD - 1)) % WORD = y
    have hyl : y < 2 ^ 32 := by
      rw [← hy]
      exact Nat.mod_lt _ (by decide)
    have h := and_compl_add 32 y (2 ^ k - 1) hyl (by omega)
    rw [Nat.and_pow_two_sub_one_eq_mod] at h
    have e3 : WORD - 1 = 2 ^ 32 - 1 := rfl
    rw [e3]
    have h4 : y &&& (2 ^ 32 - 1 - (2 ^ k - 1)) = y - y % 2 ^ k := by omega
    rw [h4]
    have h5 := Nat.mod_add_div y (2 ^ k)
    have h6 : y - y % 2 ^ k = 2 ^ k * (y / 2 ^ k) := by omega
    rw [h6]
    exact Nat.mul_mod_right _ _
  · have hdvd : 2 ^ 32 ∣ 2 ^ k := Nat.pow_dvd_pow 2 (by omega)
    obtain ⟨c, hc⟩ := hdvd
    have hcpos : 0 < c := by
      rcases Nat.eq_zero_or_pos c with h0 | h0
      · rw [h0] at hc
        have : 0 < 2 ^ k := Nat.pos_pow_of_pos _ (by decide)
        omega
      · exact h0
    unfold ALIGN
    have e2 : (2 ^ k + (WORD - 1)) % WORD = WORD - 1 := by
      rw [hc]
      have : (2 ^ 32 * c + (WORD - 1)) % WORD = (WORD - 1) % WORD := by
        simp only [WORD]
        omega
      rw [this]
      rfl
    rw [e2]
    simp

theorem ALIGN_one (x : Nat) (hx : x < WORD) : ALIGN x 1 = x := by
  have h := ALIGN_bounds x 1 (by omega) (by omega)
  omega

theorem ALIGN_four (x : Nat) : ALIGN x 4 = ((x % WORD + 3) / 4 * 4) % WORD := by
  unfold ALIGN
  generalize hy : (x + 4 + (WORD - 1)) % WORD = y
  have hyl : y < 2 ^ 32 := by
    rw [← hy]
    exact Nat.mod_lt _ (by decide)
  have h := and_compl_add 32 y (2 ^ 2 - 1) hyl (by decide)
  rw [Nat.and_pow_two_sub_one_eq_mod] at h
  have e : (WORD - 1) - (4 + (WORD - 1)) % WORD = 2 ^ 32 - 1 - (2 ^ 2 - 1) := by decide
  rw [e]
  simp only [WORD] at hy ⊢
  omega


/-! ## The section loops of `outelf_link` -/

theorem sub32_add (x v : Nat) : (v + sub32 x v) % WORD = x % WORD := by
  simp only [sub32, WORD]
  omega

theorem link_code_eq_place (oe : Outelf) (v f : Nat) (l : List Secmap) :
    ∀ len, link_code oe v f l len = place (sec_shdr oe) SEC_CODE al_max true v f l len := by
  induction l with
  | nil => intro len; rfl
  | cons sec rest ih =>
    intro len
    simp only [link_code, place, ih, al_max, if_true]

theorem link_bss_eq_place (oe : Outelf) (v f : Nat) (l : List Secmap) :
    ∀ len, link_bss oe v f l len = place (sec_shdr oe) SEC_BSS al_max false v f l len := by
  induction l with
  | nil => intro len; rfl
  | cons sec rest ih =>
    intro len
    simp only [link_bss, place, ih, al_max]
    rfl

theorem link_data_eq_place (oe : Outelf) (v f : Nat) (l : List Secmap) :
    ∀ len, link_data oe v f l len = place (sec_shdr oe) SEC_DATA al_one true v f l len := by
  induction l with
  | nil => intro len; rfl
  | cons sec rest ih =>
    intro len
    have e0 : ALIGN ((v + len) % WORD) 1 = (v + len) % WORD :=
      ALIGN_one _ (Nat.mod_lt _ (by decide))
    have e1 : (v + sub32 ((v + len) % WORD) v) % WORD = (v + len) % WORD := by
      rw [sub32_add, Nat.mod_mod]
    have e2 : (f + sub32 ((v + len) % WORD) v) % WORD = (f + len) % WORD := by
      simp only [sub32, WORD]
      omega
    have e3 : (sub32 ((v + len) % WORD) v + (sec_shdr oe sec).sh_size) % WORD
        = (len + (sec_shdr oe sec).sh_size) % WORD := by
      simp only [sub32, WORD]
      omega
    simp only [link_data, place, ih, al_one, e0, e1, e2, e3, if_true]

theorem place_map (H : Secmap → Elf32_Shdr)
    (hH : ∀ (s : Secmap) (v f : Nat), H { s with vaddr := v, faddr := f } = H s)
    (sel : Elf32_Shdr → Bool) (al : Elf32_Shdr → Nat) (fmove : Bool) (v f : Nat)
    (l : List Secmap) :
    ∀ len, (place H sel al fmove v f l len).1.map H = l.map H := by
  induction l with
  | nil => intro len; rfl
  | cons sec rest ih =>
    intro len
    simp only [place]
    split
    · simp only [List.map_cons, ih, hH]
    · simp only [List.map_cons, ih]

theorem place_skip (H : Secmap → Elf32_Shdr) (sel : Elf32_Shdr → Bool) (al : Elf32_Shdr → Nat)
    (fmove : Bool) (v f : Nat) (l : List Secmap) :
    ∀ (len i : Nat) (sec : Secmap), l[i]? = some sec → sel (H sec) = false →
      (place H sel al fmove v f l len).1[i]? = some sec := by
  induction l with
  | nil => intro len i sec h; simp at h
  | cons a rest ih =>
    intro len i sec h hs
    simp only [place]
    cases i with
    | zero =>
      have ha : a = sec := by simpa using h
      subst ha
      simp [hs]
    | succ i =>
      have h2 : rest[i]? = some sec := by simpa using h
      split
      · simpa using ih _ i sec h2 hs
      · simpa using ih _ i sec h2 hs

theorem place_selected (H : Secmap → Elf32_Shdr) (sel : Elf32_Shdr → Bool)
    (al : Elf32_Shdr → Nat) (fmove : Bool) (v f : Nat) (l : List Secmap) :
    ∀ (len i : Nat) (sec : Secmap), l[i]? = some sec → sel (H sec) = true →
      ∃ s, (place H sel al fmove v f l len).1[i]? = some s ∧
        (∃ x, s.vaddr = ALIGN x (al (H sec))) ∧ (fmove = false → s.faddr = f) := by
  induction l with
  | nil => intro len i sec h; simp at h
  | cons a rest ih =>
    intro len i sec h hs
    simp only [place]
    cases i with
    | zero =>
      have ha : a = sec := by simpa using h
      subst ha
      rw [if_pos hs]
      simp only [List.getElem?_cons_zero]
      refine ⟨_, rfl, ⟨(v + len) % WORD, ?_⟩, ?_⟩
      · simp only
        rw [sub32_add]
        exact Nat.mod_eq_of_lt (ALIGN_lt _ _)
      · intro hf
        simp [hf]
    | succ i =>
      have h2 : rest[i]? = some sec := by simpa using h
      split
      · simpa using ih _ i sec h2 hs
      · simpa using ih _ i sec h2 hs

theorem place_len (H : Secmap → Elf32_Shdr) (sel : Elf32_Shdr → Bool) (fmove : Bool)
    (v f : Nat) (l : List Secmap) :
    ∀ len, (place H sel al_one fmove v f l len).2 % WORD
      = (len + sel_size sel (l.map H)) % WORD := by
  induction l with
  | nil => intro len; simp [place, sel_size]
  | cons a rest ih =>
    intro len
    simp only [place]
    by_cases hs : sel (H a) = true
    · rw [if_pos hs]
      simp only
      rw [ih]
      have e0 : ALIGN ((v + len) % WORD) 1 = (v + len) % WORD :=
        ALIGN_one _ (Nat.mod_lt _ (by decide))
      have e : sel_size sel ((a :: rest).map H) = (H a).sh_size + sel_size sel (rest.map H) := by
        simp [sel_size, List.filter_cons, hs]
      rw [e, al_one, e0]
      simp only [sub32, WORD]
      omega
    · rw [if_neg hs]
      simp only
      rw [ih]
      have e : sel_size sel ((a :: rest).map H) = sel_size sel (rest.map H) := by
        simp [sel_size, List.filter_cons, hs]
      rw [e]

/-- Without wrap-around the selected sections are laid out one after the other. -/
theorem place_bounds (H : Secmap → Elf32_Shdr)
    (hH : ∀ (s : Secmap) (v f : Nat), H { s with vaddr := v, faddr := f } = H s)
    (sel : Elf32_Shdr → Bool) (al : Elf32_Shdr → Nat) (hal : ∀ sh, 1 ≤ al sh)
    (fmove : Bool) (v f : Nat) (l : List Secmap) :
    ∀ len, v + len + sel_weight sel al (l.map H) ≤ WORD →
      (fmove = true → f + len + sel_weight sel al (l.map H) ≤ WORD) →
      len ≤ (place H sel al fmove v f l len).2 ∧
      (place H sel al fmove v f l len).2 ≤ len + sel_weight sel al (l.map H) ∧
      (∀ (i : Nat) (s : Secmap), (place H sel al fmove v f l len).1[i]? = some s →
        sel (H s) = true →
        v + len ≤ s.vaddr ∧
        s.vaddr + (H s).sh_size ≤ v + (place H sel al fmove v f l len).2 ∧
        (fmove = true → s.faddr + v = s.vaddr + f) ∧ (fmove = false → s.faddr = f)) ∧
      (∀ (i j : Nat) (s t : Secmap), i < j →
        (place H sel al fmove v f l len).1[i]? = some s →
        (place H sel al fmove v f l len).1[j]? = some t →
        sel (H s) = true → sel (H t) = true → s.vaddr + (H s).sh_size ≤ t.vaddr) := by
  induction l with
  | nil =>
    intro len _ _
    simp [place]
  | cons a rest ih =>
    intro len hv hf
    by_cases hs : sel (H a) = true
    · have hw : sel_weight sel al ((a :: rest).map H)
          = (H a).sh_size + al (H a) + sel_weight sel al (rest.map H) := by
        simp [sel_weight, hs]
      rw [hw] at hv hf ⊢
      have ha1 := hal (H a)
      have hx : (v + len) % WORD = v + len := Nat.mod_eq_of_lt (by omega)
      have hA := ALIGN_bounds (v + len) (al (H a)) ha1 (by omega)
      have hlen1 : sub32 (ALIGN ((v + len) % WORD) (al (H a))) v
          = ALIGN (v + len) (al (H a)) - v := by
        rw [hx]
        simp only [sub32, WORD] at hv ⊢
        omega
      have hnew : (ALIGN (v + len) (al (H a)) - v + (H a).sh_size) % WORD
          = ALIGN (v + len) (al (H a)) - v + (H a).sh_size := Nat.mod_eq_of_lt (by omega)
      have hpl : place H sel al fmove v f (a :: rest) len
          = ({ a with vaddr := ALIGN (v + len) (al (H a))
                      faddr := if fmove then f + (ALIGN (v + len) (al (H a)) - v) else f } ::
              (place H sel al fmove v f rest
                (ALIGN (v + len) (al (H a)) - v + (H a).sh_size)).1,
             (place H sel al fmove v f rest
                (ALIGN (v + len) (al (H a)) - v + (H a).sh_size)).2) := by
        simp only [place, if_pos hs, hlen1, hnew]
        have e1 : (v + (ALIGN (v + len) (al (H a)) - v)) % WORD = ALIGN (v + len) (al (H a)) := by
          have : v + (ALIGN (v + len) (al (H a)) - v) = ALIGN (v + len) (al (H a)) := by omega
          rw [this]
          exact Nat.mod_eq_of_lt (ALIGN_lt _ _)
        rw [e1]
        cases fmove with
        | false => rfl
        | true =>
          have e2 : (f + (ALIGN (v + len) (al (H a)) - v)) % WORD
              = f + (ALIGN (v + len) (al (H a)) - v) := by
            have := hf rfl
            exact Nat.mod_eq_of_lt (by omega)
          simp only [if_true, e2]
      rw [hpl]
      generalize hA0 : ALIGN (v + len) (al (H a)) = A at hA hpl ⊢
      have ih2 := ih (A - v + (H a).sh_size) (by omega) (fun h => by have := hf h; omega)
      generalize place H sel al fmove v f rest (A - v + (H a).sh_size) = r at ih2 ⊢
      obtain ⟨i1, i2, i3, i4⟩ := ih2
      refine ⟨by simp only; omega, by simp only; omega, ?_, ?_⟩
      · intro i s hi hsel
        cases i with
        | zero =>
          simp only [List.getElem?_cons_zero, Option.some.injEq] at hi
          subst hi
          simp only [hH]
          refine ⟨by omega, by omega, ?_, ?_⟩
          · intro h; simp only [h, if_true]; omega
          · intro h; simp [h]
        | succ i =>
          simp only [List.getElem?_cons_succ] at hi
          have := i3 i s hi hsel
          refine ⟨by omega, this.2.1, this.2.2⟩
      · intro i j s t hij hi hj hss hst
        cases j with
        | zero => omega
        | succ j =>
          simp only [List.getElem?_cons_succ] at hj
          cases i with
          | zero =>
            simp only [List.getElem?_cons_zero, Option.some.injEq] at hi
            subst hi
            simp only [hH]
            have := (i3 j t hj hst).1
            omega
          | succ i =>
            simp only [List.getElem?_cons_succ] at hi
            exact i4 i j s t (by omega) hi hj hss hst
    · have hw : sel_weight sel al ((a :: rest).map H) = sel_weight sel al (rest.map H) := by
        simp [sel_weight, hs]
      rw [hw] at hv hf ⊢
      have hpl : place H sel al fmove v f (a :: rest) len
          = (a :: (place H sel al fmove v f rest len).1,
             (place H sel al fmove v f rest len).2) := by
        simp only [place, if_neg hs]
      rw [hpl]
      have ih2 := ih len hv hf
      generalize place H sel al fmove v f rest len = r at ih2 ⊢
      obtain ⟨i1, i2, i3, i4⟩ := ih2
      refine ⟨i1, i2, ?_, ?_⟩
      · intro i s hi hsel
        cases i with
        | zero =>
          simp only [List.getElem?_cons_zero, Option.some.injEq] at hi
          subst hi
          exact absurd hsel hs
        | succ i =>
          simp only [List.getElem?_cons_succ] at hi
          exact i3 i s hi hsel
      · intro i j s t hij hi hj hss hst
        cases j with
        | zero => omega
        | succ j =>
          simp only [List.getElem?_cons_succ] at hj
          cases i with
          | zero =>
            simp only [List.getElem?_cons_zero, Option.some.injEq] at hi
            subst hi
            exact absurd hss hs
          | succ i =>
            simp only [List.getElem?_cons_succ] at hi
            exact i4 i j s t (by omega) hi hj hss hst


/-! ## The stages of `outelf_link` -/

theorem sec_shdr_placed (oe : Outelf) (s : Secmap) (v f : Nat) :
    sec_shdr oe { s with vaddr := v, faddr := f } = sec_shdr oe s := rfl

theorem sec_shdr_objs {a b : Outelf} (h : a.objs = b.objs) : sec_shdr a = sec_shdr b := by
  funext s
  simp only [sec_shdr, h]

theorem sec_shdr_tables {a b : Outelf} (h : a.objs.map Obj.tables = b.objs.map Obj.tables)
    (s : Secmap) : sec_shdr a s = sec_shdr b s := by
  have h1 : (a.objs.map Obj.tables)[s.obj]? = (b.objs.map Obj.tables)[s.obj]? := by rw [h]
  simp only [List.getElem?_map] at h1
  simp only [sec_shdr]
  cases ha : a.objs[s.obj]? with
  | none =>
    rw [ha] at h1
    cases hb : b.objs[s.obj]? with
    | none => rfl
    | some y => rw [hb] at h1; simp at h1
  | some x =>
    rw [ha] at h1
    cases hb : b.objs[s.obj]? with
    | none => rw [hb] at h1; simp at h1
    | some y =>
      rw [hb] at h1
      simp only [Option.map_some', Option.some.injEq] at h1
      have : x.shdr = y.shdr := congrArg (fun t => t.2.2.1) h1
      simp only [this]

theorem map_get {α β : Type} (H : α → β) {l l2 : List α} (h : l.map H = l2.map H)
    {i : Nat} {s : α} (hi : l[i]? = some s) : ∃ s2, l2[i]? = some s2 ∧ H s2 = H s := by
  have h1 : (l.map H)[i]? = (l2.map H)[i]? := by rw [h]
  simp only [List.getElem?_map, hi, Option.map_some'] at h1
  cases h2 : l2[i]? with
  | none => rw [h2] at h1; simp at h1
  | some s2 =>
    rw [h2] at h1
    simp only [Option.map_some', Option.some.injEq] at h1
    exact ⟨s2, rfl, h1.symm⟩

/-- What a returning `outelf_link` has done, stage by stage. -/
theorem outelf_link_inv {oe oe1 : Outelf} (h : outelf_link oe = Except.ok oe1) :
    ∃ ob, outelf_bss (link_after_text oe) = Except.ok ob ∧
      oe1.phdr = oe.phdr ++ [code_phdr oe, bss_phdr oe ob, data_phdr oe ob oe.got_syms.length] ∧
      oe1.secs = (data_pass oe ob).1 ∧
      oe1.bss_vaddr = bss_base oe ∧ oe1.bss_len = ob.bss_len ∧ oe1.bss_syms = ob.bss_syms ∧
      oe1.got_syms = oe.got_syms ∧
      oe1.got_vaddr = (data_vaddr oe + data_len oe ob) % WORD ∧
      oe1.got_faddr = (data_faddr oe + data_len oe ob) % WORD ∧
      oe1.objs.map Obj.tables = oe.objs.map Obj.tables ∧
      ob.objs = oe.objs ∧ ob.secs = (text_pass oe).1 := by
  unfold outelf_link at h
  split at h
  · simp [die] at h
  · split at h
    · simp at h
    · rename_i ob hb
      split at h
      · simp at h
      · rename_i oe6 h6
        have hf := outelf_reloc_frame h6
        have ht := outelf_reloc_tables h6
        have hbf := outelf_bss_frame hb
        simp only [Except.ok.injEq] at h
        subst h
        obtain ⟨-, f2, f3, -, f5, f6, f7, f8, f9, f10⟩ := hf
        obtain ⟨-, b2, b3, b4, -, -, b7, -, -⟩ := hbf
        refine ⟨ob, hb, ?_, f3, f6, f7, f5, ?_, f9, f10, ?_, b4, b3⟩
        · simp only [f2, link_layout_phdr hb, f8]
          simp only [link_layout, link_after_bss, link_before_bss, b7]
          rfl
        · rw [f8]
          simp only [link_layout, link_after_bss, link_before_bss, b7]
          rfl
        · rw [ht, link_layout_objs hb]

theorem text_pass_eq (oe : Outelf) :
    text_pass oe = place (sec_shdr oe) SEC_CODE al_max true text_vaddr text_faddr oe.secs 0 :=
  link_code_eq_place _ _ _ _ _

theorem bss_pass_eq {oe ob : Outelf} (hobjs : ob.objs = oe.objs)
    (hsecs : ob.secs = (text_pass oe).1) :
    bss_pass oe ob = place (sec_shdr oe) SEC_BSS al_max false (bss_base oe) (bss_faddr oe)
      (text_pass oe).1 (ob.bss_len % WORD) := by
  have e : sec_shdr (link_before_bss oe ob) = sec_shdr oe := sec_shdr_objs hobjs
  simp only [bss_pass, link_bss_eq_place, e]
  simp only [link_before_bss, hsecs]

theorem data_pass_eq {oe ob : Outelf} (hobjs : ob.objs = oe.objs) :
    data_pass oe ob = place (sec_shdr oe) SEC_DATA al_one true (data_vaddr oe) (data_faddr oe)
      (bss_pass oe ob).1 0 := by
  have e : sec_shdr (link_after_bss oe ob) = sec_shdr oe := sec_shdr_objs hobjs
  simp only [data_pass, link_data_eq_place, e]
  simp only [link_after_bss]

theorem text_pass_headers (oe : Outelf) :
    (text_pass oe).1.map (sec_shdr oe) = oe.secs.map (sec_shdr oe) := by
  rw [text_pass_eq]
  exact place_map _ (sec_shdr_placed oe) _ _ _ _ _ _ _

theorem bss_pass_headers {oe ob : Outelf} (hobjs : ob.objs = oe.objs)
    (hsecs : ob.secs = (text_pass oe).1) :
    (bss_pass oe ob).1.map (sec_shdr oe) = oe.secs.map (sec_shdr oe) := by
  rw [bss_pass_eq hobjs hsecs, place_map _ (sec_shdr_placed oe)]
  exact text_pass_headers oe

theorem data_pass_headers {oe ob : Outelf} (hobjs : ob.objs = oe.objs)
    (hsecs : ob.secs = (text_pass oe).1) :
    (data_pass oe ob).1.map (sec_shdr oe) = oe.secs.map (sec_shdr oe) := by
  rw [data_pass_eq hobjs, place_map _ (sec_shdr_placed oe)]
  exact bss_pass_headers hobjs hsecs

/-- A mapping of a nobits section keeps, in the final image, what the second loop gave it. -/
theorem final_bss {oe ob : Outelf} (hobjs : ob.objs = oe.objs)
    (hsecs : ob.secs = (text_pass oe).1) {i : Nat} {s : Secmap}
    (hi : (data_pass oe ob).1[i]? = some s) (hb : SEC_BSS (sec_shdr oe s) = true) :
    (bss_pass oe ob).1[i]? = some s := by
  have hm : (bss_pass oe ob).1.map (sec_shdr oe) = (data_pass oe ob).1.map (sec_shdr oe) := by
    rw [bss_pass_headers hobjs hsecs, data_pass_headers hobjs hsecs]
  obtain ⟨s2, h2, e2⟩ := map_get (sec_shdr oe) hm.symm hi
  have hd : SEC_DATA (sec_shdr oe s2) = false := by
    rw [e2]
    simp [SEC_DATA, hb]
  have := place_skip (sec_shdr oe) SEC_DATA al_one true (data_vaddr oe) (data_faddr oe)
    (bss_pass oe ob).1 0 i s2 h2 hd
  rw [← data_pass_eq hobjs, hi] at this
  rw [h2, this]

/-- A mapping of a code section that is not nobits keeps what the first loop gave it. -/
theorem final_code {oe ob : Outelf} (hobjs : ob.objs = oe.objs)
    (hsecs : ob.secs = (text_pass oe).1) {i : Nat} {s : Secmap}
    (hi : (data_pass oe ob).1[i]? = some s) (hc : SEC_CODE (sec_shdr oe s) = true)
    (hb : SEC_BSS (sec_shdr oe s) = false) :
    (text_pass oe).1[i]? = some s := by
  have hm : (bss_pass oe ob).1.map (sec_shdr oe) = (data_pass oe ob).1.map (sec_shdr oe) := by
    rw [bss_pass_headers hobjs hsecs, data_pass_headers hobjs hsecs]
  obtain ⟨s2, h2, e2⟩ := map_get (sec_shdr oe) hm.symm hi
  have hd : SEC_DATA (sec_shdr oe s2) = false := by
    rw [e2]
    simp [SEC_DATA, hc]
  have h3 := place_skip (sec_shdr oe) SEC_DATA al_one true (data_vaddr oe) (data_faddr oe)
    (bss_pass oe ob).1 0 i s2 h2 hd
  rw [← data_pass_eq hobjs, hi] at h3
  have e3 : s2 = s := by simpa using h3.symm
  subst e3
  have hm1 : (text_pass oe).1.map (sec_shdr oe) = (bss_pass oe ob).1.map (sec_shdr oe) := by
    rw [bss_pass_headers hobjs hsecs, text_pass_headers]
  obtain ⟨s1, h1, e1⟩ := map_get (sec_shdr oe) hm1.symm h2
  have hb1 : SEC_BSS (sec_shdr oe s1) = false := by rw [e1]; exact hb
  have h4 := place_skip (sec_shdr oe) SEC_BSS al_max false (bss_base oe) (bss_faddr oe)
    (text_pass oe).1 (ob.bss_len % WORD) i s1 h1 hb1
  rw [← bss_pass_eq hobjs hsecs, h2] at h4
  rw [h1, h4]


/-! ## Layout without wrap-around -/

theorem MAX_ge_four (a : Nat) : 4 ≤ MAX a 4 ∧ a ≤ MAX a 4 := by
  unfold MAX
  split <;> omega

theorem sel_weight_le (sel : Elf32_Shdr → Bool) (al : Elf32_Shdr → Nat)
    (hal : ∀ sh, al sh ≤ MAX sh.sh_addralign 4) (hs : List Elf32_Shdr) :
    sel_weight sel al hs ≤ (hs.map (fun sh => sh.sh_size + MAX sh.sh_addralign 4)).sum := by
  induction hs with
  | nil => simp [sel_weight]
  | cons a rest ih =>
    simp only [sel_weight, List.map_cons, List.sum_cons] at ih ⊢
    have := hal a
    split <;> omega

theorem code_data_weight_le (hs : List Elf32_Shdr) :
    sel_weight SEC_CODE al_max hs + sel_weight SEC_DATA al_one hs
      ≤ (hs.map (fun sh => sh.sh_size + MAX sh.sh_addralign 4)).sum := by
  induction hs with
  | nil => simp [sel_weight]
  | cons a rest ih =>
    simp only [sel_weight, al_max, al_one, List.map_cons, List.sum_cons] at ih ⊢
    have h4 := MAX_ge_four a.sh_addralign
    by_cases hc : SEC_CODE a = true
    · have hd : SEC_DATA a = false := by simp [SEC_DATA, hc]
      simp only [hc, hd, if_true, al_max, al_one]
      simp only [Bool.false_eq_true, if_false]
      omega
    · have hc2 : SEC_CODE a = false := by simpa using hc
      simp only [hc2, Bool.false_eq_true, if_false, al_one]
      split <;> omega

/-- The layout of the text and data segments when nothing wraps around. -/
theorem text_data_layout {oe ob : Outelf} (hobjs : ob.objs = oe.objs)
    (hs1 : ob.secs = (text_pass oe).1) (hw : layout_weight oe < 2 ^ 31) :
    (text_pass oe).2 + (data_pass oe ob).2 ≤ layout_weight oe ∧
    bss_faddr oe = text_faddr + (text_pass oe).2 ∧
    bss_faddr oe ≤ data_faddr oe ∧ data_faddr oe ≤ bss_faddr oe + 3 ∧
    (∀ (i : Nat) (s : Secmap), (text_pass oe).1[i]? = some s →
      SEC_CODE (sec_shdr oe s) = true →
      text_vaddr ≤ s.vaddr ∧
      s.vaddr + (sec_shdr oe s).sh_size ≤ text_vaddr + (text_pass oe).2 ∧
      s.faddr + text_vaddr = s.vaddr + text_faddr) ∧
    (∀ (i j : Nat) (s t : Secmap), i < j → (text_pass oe).1[i]? = some s →
      (text_pass oe).1[j]? = some t → SEC_CODE (sec_shdr oe s) = true →
      SEC_CODE (sec_shdr oe t) = true → s.vaddr + (sec_shdr oe s).sh_size ≤ t.vaddr) ∧
    (∀ (i : Nat) (s : Secmap), (data_pass oe ob).1[i]? = some s →
      SEC_DATA (sec_shdr oe s) = true →
      data_vaddr oe ≤ s.vaddr ∧
      s.vaddr + (sec_shdr oe s).sh_size ≤ data_vaddr oe + (data_pass oe ob).2 ∧
      s.faddr + data_vaddr oe = s.vaddr + data_faddr oe) ∧
    (∀ (i j : Nat) (s t : Secmap), i < j → (data_pass oe ob).1[i]? = some s →
      (data_pass oe ob).1[j]? = some t → SEC_DATA (sec_shdr oe s) = true →
      SEC_DATA (sec_shdr oe t) = true → s.vaddr + (sec_shdr oe s).sh_size ≤ t.vaddr) := by
  have hcd := code_data_weight_le (oe.secs.map (sec_shdr oe))
  have hlw : layout_weight oe
      = ((oe.secs.map (sec_shdr oe)).map (fun sh => sh.sh_size + MAX sh.sh_addralign 4)).sum :=
    rfl
  rw [← hlw] at hcd
  have htv : text_vaddr = 0x40000b4 := by decide
  have htf : text_faddr = 0xb4 := by decide
  -- the first loop
  have hT := place_bounds (sec_shdr oe) (sec_shdr_placed oe) SEC_CODE al_max
    (fun sh => by have := MAX_ge_four sh.sh_addralign; simp only [al_max]; omega)
    true text_vaddr text_faddr oe.secs 0
    (by simp only [WORD]; omega) (fun _ => by simp only [WORD]; omega)
  rw [← text_pass_eq] at hT
  obtain ⟨-, t2, t3, t4⟩ := hT
  have hbf : bss_faddr oe = text_faddr + (text_pass oe).2 := by
    simp only [bss_faddr, WORD]
    omega
  have hdf := ALIGN_bounds (bss_faddr oe) 4 (by omega) (by simp only [WORD]; omega)
  have hdf2 : data_faddr oe = ALIGN (bss_faddr oe) 4 := rfl
  rw [← hdf2] at hdf
  have hdv : data_vaddr oe = DATADDR + data_faddr oe % PAGE_SIZE := rfl
  simp only [DATADDR, PAGE_SIZE] at hdv
  -- the third loop
  have hD := place_bounds (sec_shdr oe) (sec_shdr_placed oe) SEC_DATA al_one
    (fun sh => Nat.le_refl 1) true (data_vaddr oe) (data_faddr oe) (bss_pass oe ob).1 0
    (by rw [bss_pass_headers hobjs hs1]; simp only [WORD]; omega)
    (fun _ => by rw [bss_pass_headers hobjs hs1]; simp only [WORD]; omega)
  rw [← data_pass_eq hobjs, bss_pass_headers hobjs hs1] at hD
  obtain ⟨-, d2, d3, d4⟩ := hD
  refine ⟨by omega, hbf, by omega, by omega, ?_, t4, ?_, d4⟩
  · intro i s hi hc
    have := t3 i s hi hc
    exact ⟨by omega, this.2.1, this.2.2.1 rfl⟩
  · intro i s hi hd
    have := d3 i s hi hd
    exact ⟨by omega, this.2.1, this.2.2.1 rfl⟩

/-- The nobits sections come after the common area when the bss addresses do not wrap. -/
theorem bss_layout {oe ob : Outelf} (hobjs : ob.objs = oe.objs)
    (hs1 : ob.secs = (text_pass oe).1)
    (hw : bss_base oe + ob.bss_len + nobits_weight oe ≤ 2 ^ 32) :
    ∀ (i : Nat) (s : Secmap), (bss_pass oe ob).1[i]? = some s →
      SEC_BSS (sec_shdr oe s) = true → bss_base oe + ob.bss_len ≤ s.vaddr := by
  simp only [nobits_weight] at hw
  have hbb : BSSADDR ≤ bss_base oe := Nat.le_add_right _ _
  simp only [BSSADDR] at hbb
  have hmod : ob.bss_len % WORD = ob.bss_len := Nat.mod_eq_of_lt (by simp only [WORD]; omega)
  have hB := place_bounds (sec_shdr oe) (sec_shdr_placed oe) SEC_BSS al_max
    (fun sh => by have := MAX_ge_four sh.sh_addralign; simp only [al_max]; omega)
    false (bss_base oe) (bss_faddr oe) (text_pass oe).1 (ob.bss_len % WORD)
    (by rw [text_pass_headers, hmod]; simp only [WORD]; omega) (fun h => by simp at h)
  rw [← bss_pass_eq hobjs hs1, hmod] at hB
  intro i s hi hb
  exact (hB.2.2.1 i s hi hb).1

/-- The nobits mappings weigh no more than all mappings. -/
theorem nobits_weight_le (oe : Outelf) : nobits_weight oe ≤ layout_weight oe :=
  sel_weight_le SEC_BSS al_max (fun _ => Nat.le_refl _) (oe.secs.map (sec_shdr oe))

/-! ## Headers of the final image, `outelf_putgot` -/

theorem final_headers {oe oe1 : Outelf} (h : outelf_link oe = Except.ok oe1) :
    oe1.secs.map (sec_shdr oe1) = oe.secs.map (sec_shdr oe) := by
  obtain ⟨ob, -, -, hsecs, -, -, -, -, -, -, htab, hobjs, hs⟩ := outelf_link_inv h
  have e : sec_shdr oe1 = sec_shdr oe := funext (sec_shdr_tables htab)
  rw [e, hsecs]
  exact data_pass_headers hobjs hs

theorem putgot_loop_spec (og : Outelf) (l : List Got_sym) :
    (∀ g ∈ l, ∃ v, symval og g.obj g.sym = Except.ok v) →
    ∃ bs, putgot_loop og l = Except.ok bs ∧ bs.length = 4 * l.length ∧
      ∀ i g, l[i]? = some g →
        ∃ v, symval og g.obj g.sym = Except.ok v ∧ (bs.drop (4 * i)).take 4 = le32 v := by
  induction l with
  | nil =>
    intro _
    exact ⟨[], rfl, rfl, by intro i g h; simp at h⟩
  | cons a rest ih =>
    intro hall
    obtain ⟨v, hv⟩ := hall a (List.mem_cons_self _ _)
    obtain ⟨bs, hbs, hlen, hslots⟩ := ih (fun g hg => hall g (List.mem_cons_of_mem _ hg))
    refine ⟨le32 v ++ bs, ?_, ?_, ?_⟩
    · simp only [putgot_loop, hv, hbs]
    · simp only [List.length_append, hlen, le32, List.length_cons, List.length_nil]
      omega
    · intro i g hi
      cases i with
      | zero =>
        have : a = g := by simpa using hi
        subst this
        exact ⟨v, hv, by simp [le32]⟩
      | succ i =>
        have h2 : rest[i]? = some g := by simpa using hi
        obtain ⟨w, hw, hslot⟩ := hslots i g h2
        refine ⟨w, hw, ?_⟩
        have e : 4 * (i + 1) = (le32 v).length + 4 * i := by simp [le32]; omega
        rw [e, List.drop_append]
        exact hslot


/-! ## Placed sections -/

theorem place_selected_out (H : Secmap → Elf32_Shdr)
    (hH : ∀ (s : Secmap) (v f : Nat), H { s with vaddr := v, faddr := f } = H s)
    (sel : Elf32_Shdr → Bool) (al : Elf32_Shdr → Nat) (fmove : Bool) (v f : Nat)
    (l : List Secmap) (len i : Nat) (s : Secmap)
    (hi : (place H sel al fmove v f l len).1[i]? = some s) (hs : sel (H s) = true) :
    (∃ x, s.vaddr = ALIGN x (al (H s))) ∧ (fmove = false → s.faddr = f) := by
  obtain ⟨s0, h0, e0⟩ := map_get H (place_map H hH sel al fmove v f l len) hi
  obtain ⟨s2, h2, hx, hf⟩ := place_selected H sel al fmove v f l len i s0 h0 (by rw [e0]; exact hs)
  rw [hi] at h2
  have : s = s2 := by simpa using h2
  subst this
  rw [e0] at hx
  exact ⟨hx, hf⟩

theorem MAX_pow_two (a : Nat) (h : a = 0 ∨ ∃ k, a = 2 ^ k) : ∃ k, MAX a 4 = 2 ^ k := by
  rcases h with h | ⟨k, hk⟩
  · subst h
    exact ⟨2, by decide⟩
  · subst hk
    unfold MAX
    split
    · exact ⟨k, rfl⟩
    · exact ⟨2, rfl⟩

/-- The file range of a mapping that is not nobits, without wrap-around. -/
theorem file_slot {oe ob : Outelf} (hobjs : ob.objs = oe.objs)
    (hs1 : ob.secs = (text_pass oe).1) (hw : layout_weight oe < 2 ^ 31)
    (i : Nat) (s : Secmap) (hi : (data_pass oe ob).1[i]? = some s)
    (hb : SEC_BSS (sec_shdr oe s) = false) :
    (SEC_CODE (sec_shdr oe s) = true →
      (text_pass oe).1[i]? = some s ∧ text_vaddr ≤ s.vaddr ∧ text_faddr ≤ s.faddr ∧
      s.faddr + text_vaddr = s.vaddr + text_faddr ∧
      s.faddr + (sec_shdr oe s).sh_size ≤ text_faddr + (text_pass oe).2) ∧
    (SEC_CODE (sec_shdr oe s) = false →
      SEC_DATA (sec_shdr oe s) = true ∧ data_vaddr oe ≤ s.vaddr ∧ data_faddr oe ≤ s.faddr ∧
      s.faddr + data_vaddr oe = s.vaddr + data_faddr oe ∧
      s.faddr + (sec_shdr oe s).sh_size ≤ data_faddr oe + (data_pass oe ob).2) := by
  obtain ⟨-, -, -, -, T3, -, D3, -⟩ := text_data_layout hobjs hs1 hw
  constructor
  · intro hc
    have h2 := final_code hobjs hs1 hi hc hb
    have := T3 i s h2 hc
    exact ⟨h2, by omega, by omega, by omega, by omega⟩
  · intro hc
    have hd : SEC_DATA (sec_shdr oe s) = true := by simp [SEC_DATA, hc, hb]
    have := D3 i s hi hd
    exact ⟨hd, by omega, by omega, by omega, by omega⟩


/-! # Main results -/

/-! ## Segment alignment -/

/-- C1: when `outelf_link` returns, it has appended three program headers (code, bss,
data) and each of them has `p_align = 0x1000` and
`p_offset mod p_align = p_vaddr mod p_align`. -/
theorem outelf_link_segments_congruent (oe oe1 : Outelf)
    (h : outelf_link oe = Except.ok oe1) :
    ∃ code bss data : Elf32_Phdr, oe1.phdr = oe.phdr ++ [code, bss, data] ∧
      (code.p_align = 0x1000 ∧ code.p_offset % code.p_align = code.p_vaddr % code.p_align) ∧
      (bss.p_align = 0x1000 ∧ bss.p_offset % bss.p_align = bss.p_vaddr % bss.p_align) ∧
      (data.p_align = 0x1000 ∧ data.p_offset % data.p_align = data.p_vaddr % data.p_align) := by
  unfold outelf_link at h
  split at h
  · simp [die] at h
  · split at h
    · simp at h
    · rename_i ob hb
      split at h
      · simp at h
      · rename_i oe6 h6
        have hf := outelf_reloc_frame h6
        simp only [Except.ok.injEq] at h
        subst h
        refine ⟨code_phdr oe, bss_phdr oe ob, data_phdr oe ob oe6.got_syms.length, ?_, ?_, ?_, ?_⟩
        · simp only [hf.2.1, link_layout_phdr hb]
        · refine ⟨rfl, ?_⟩
          simp only [code_phdr]
          decide
        · refine ⟨rfl, ?_⟩
          simp only [bss_phdr, bss_base, PAGE_SIZE, BSSADDR]
          omega
        · refine ⟨rfl, ?_⟩
          simp only [data_phdr, data_vaddr, PAGE_SIZE, DATADDR]
          omega

/-- The sample link of `ex_start` and `ex_puts` returns, and its three program headers
are congruent modulo the page size. -/
theorem outelf_link_segments_congruent_witness :
    outelf_link ex_hello = Except.ok ex_hello_linked ∧
    ∃ code bss data : Elf32_Phdr, ex_hello_linked.phdr = ex_hello.phdr ++ [code, bss, data] ∧
      (code.p_align = 0x1000 ∧ code.p_offset % code.p_align = code.p_vaddr % code.p_align) ∧
      (bss.p_align = 0x1000 ∧ bss.p_offset % bss.p_align = bss.p_vaddr % bss.p_align) ∧
      (data.p_align = 0x1000 ∧ data.p_offset % data.p_align = data.p_vaddr % data.p_align) :=
  ⟨by decide, outelf_link_segments_congruent ex_hello ex_hello_linked (by decide)⟩

/-! ## Relocation -/

/-- C2: one relocation entry, read at index `i` of the relocation section, with `val` the
value `symval` returns for its symbol, `o = r_offset`, and `dst` the offset of the patched
field in the buffer.  R_386_32 adds `val` to the 32-bit little-endian word at `dst`
modulo `2 ^ 32`; R_386_PC32 and R_386_PLT32 add `val - here`, where `here` is the `vaddr`
of the target section's mapping plus `o`; R_386_16 adds `val` to the 16-bit word modulo
`2 ^ 16`; R_386_NONE returns the buffer unchanged; every other type dies with the
unknown-relocation error. -/
theorem reloc_entry_patches (oe : Outelf) (o : Nat) (obj : Obj)
    (rel_shdr other_shdr : Elf32_Shdr) (bytes : List Nat) (i val : Nat)
    (hrel : rel_shdr.sh_offset + REL_SIZE * i + REL_SIZE ≤ bytes.length)
    (hval : symval oe o (ELF32_R_SYM (rd32 bytes (rel_shdr.sh_offset + REL_SIZE * i + 4)))
      = Except.ok val) :
    let r_offset := rd32 bytes (rel_shdr.sh_offset + REL_SIZE * i)
    let ty := ELF32_R_TYPE (rd32 bytes (rel_shdr.sh_offset + REL_SIZE * i + 4))
    let dst := other_shdr.sh_offset + r_offset
    let res := reloc_entry oe o obj rel_shdr other_shdr bytes i
    (ty = R_386_32 → dst + 4 ≤ bytes.length →
      ∃ b, res = Except.ok b ∧ rd32 b dst = (rd32 bytes dst + val) % 2 ^ 32) ∧
    (ty = R_386_PC32 ∨ ty = R_386_PLT32 → dst + 4 ≤ bytes.length →
      ∀ sec, outelf_mapping oe (obj.mem, rel_shdr.sh_info) = some sec →
      ∃ b, res = Except.ok b ∧
        (rd32 b dst : Int) = ((rd32 bytes dst : Int) + val - (sec.vaddr + r_offset)) % 2 ^ 32) ∧
    (ty = R_386_16 → dst + 2 ≤ bytes.length →
      ∃ b, res = Except.ok b ∧ rd16 b dst = (rd16 bytes dst + val) % 2 ^ 16) ∧
    (ty = R_386_NONE → res = Except.ok bytes) ∧
    (ty ≠ R_386_NONE ∧ ty ≠ R_386_16 ∧ ty ≠ R_386_32 ∧ ty ≠ R_386_PC32 ∧ ty ≠ R_386_PLT32 →
      res = Except.error Err.unknown_reloc) := by
  intro r_offset ty dst res
  have hlen : ¬ bytes.length < rel_shdr.sh_offset + REL_SIZE * i + REL_SIZE := by omega
  have hres : res = reloc_entry oe o obj rel_shdr other_shdr bytes i := rfl
  unfold reloc_entry at hres
  simp only [hlen, if_false, hval] at hres
  change res = (if ty = R_386_NONE then Except.ok bytes
      else if ty = R_386_16 then
        if bytes.length < dst + 2 then die Err.fault
        else Except.ok (wr16 bytes dst ((rd16 bytes dst + val) % 65536))
      else if ty = R_386_32 then
        if bytes.length < dst + 4 then die Err.fault
        else Except.ok (wr32 bytes dst ((rd32 bytes dst + val) % WORD))
      else if ty = R_386_PC32 ∨ ty = R_386_PLT32 then
        match outelf_mapping oe (obj.mem, rel_shdr.sh_info) with
        | none => die Err.fault
        | some sec =>
          if bytes.length < dst + 4 then die Err.fault
          else Except.ok (wr32 bytes dst
            ((rd32 bytes dst + sub32 val ((sec.vaddr + r_offset) % WORD)) % WORD))
      else die Err.unknown_reloc) at hres
  generalize res = res0 at hres ⊢
  generalize ty = t at hres ⊢
  generalize dst = d at hres ⊢
  refine ⟨?_, ?_, ?_, ?_, ?_⟩
  · intro hty hd
    subst hty
    have hd2 : ¬ bytes.length < d + 4 := by omega
    simp only [hd2, if_false] at hres
    refine ⟨_, hres, ?_⟩
    rw [rd32_wr32 _ _ _ hd]
    simp [WORD]
  · intro hty hd sec hsec
    have hd2 : ¬ bytes.length < d + 4 := by omega
    have h1 : ¬ t = R_386_NONE := by rcases hty with h | h <;> rw [h] <;> decide
    have h2 : ¬ t = R_386_16 := by rcases hty with h | h <;> rw [h] <;> decide
    have h3 : ¬ t = R_386_32 := by rcases hty with h | h <;> rw [h] <;> decide
    simp only [h1, h2, h3, hty, hsec, hd2, if_false, if_true] at hres
    refine ⟨_, hres, ?_⟩
    rw [rd32_wr32 _ _ _ hd]
    simp only [sub32, WORD]
    push_cast
    omega
  · intro hty hd
    subst hty
    have hd2 : ¬ bytes.length < d + 2 := by omega
    simp only [hd2, if_false] at hres
    refine ⟨_, hres, ?_⟩
    rw [rd16_wr16 _ _ _ hd]
    simp
  · intro hty
    subst hty
    simpa using hres
  · rintro ⟨h1, h2, h3, h4, h5⟩
    simp only [h1, h2, h3, h4, h5, if_false, or_self] at hres
    exact hres

/-- The image `ex_hello_layout` is the one `outelf_link` hands to `outelf_reloc`. -/
theorem ex_hello_layout_reached :
    (outelf_bss (link_after_text ex_hello)).map (link_layout ex_hello)
      = Except.ok ex_hello_layout := by
  decide

/-- The first entry of `.rel.text` of `ex_start` is an R_386_PC32 reference to `puts` at
offset 1 of `.text`: the word `0xfffffffc` there becomes 7, the displacement from the end
of the field, at `0x40000c5`, to `puts`, at `0x40000cc`. -/
theorem reloc_entry_patches_witness :
    (68 + REL_SIZE * 0 + REL_SIZE ≤ ex_start.bytes.length ∧
     symval ex_hello_layout 0 (ELF32_R_SYM (rd32 ex_start.bytes (68 + REL_SIZE * 0 + 4)))
       = Except.ok 0x40000cc) ∧
    ∃ b, reloc_entry ex_hello_layout 0 ex_start (mk_shdr SHT_REL 0 68 16 4 0 1)
        (mk_shdr 1 6 52 12 16 0 0) ex_start.bytes 0 = Except.ok b ∧
      (rd32 b 53 : Int) = ((0xfffffffc : Int) + 0x40000cc - (0x40000c0 + 1)) % 2 ^ 32 :=
  ⟨⟨by decide, by decide⟩,
    (reloc_entry_patches ex_hello_layout 0 ex_start (mk_shdr SHT_REL 0 68 16 4 0 1)
      (mk_shdr 1 6 52 12 16 0 0) ex_start.bytes 0 0x40000cc (by decide) (by decide)).2.1
      (by decide) (by decide)
      { o_shdr := (0x10000, 1), obj := 0, vaddr := 0x40000c0, faddr := 192 } (by decide)⟩

/-! ## Common symbols -/

/-- C3, as stated, fails: `ex_start` and `ex_puts` both declare the common object `x`
(16 bytes), and after the link `symval` gives `0x80000e0` for the one and `0x80000f0` for
the other. -/
theorem common_symbols_not_coalesced :
    outelf_link ex_hello = Except.ok ex_hello_linked ∧
    (ex_start.syms[3]?.map (fun s => (s.st_shndx, sym_name ex_start s)) = some (SHN_COMMON, [120]) ∧
     ex_puts.syms[2]?.map (fun s => (s.st_shndx, sym_name ex_puts s)) = some (SHN_COMMON, [120])) ∧
    symval ex_hello_linked 0 3 = Except.ok 0x80000e0 ∧
    symval ex_hello_linked 1 2 = Except.ok 0x80000f0 ∧
    symval ex_hello_linked 0 3 ≠ symval ex_hello_linked 1 2 := by
  decide

/-- C3 (amended): after `outelf_link`, every common symbol of type NOTYPE, OBJECT or FUNC
of every loaded object has a record of its own in `bss_syms`, and `symval` returns for it
`bss_vaddr` plus the offset of that record.  Two objects that declare a common symbol of
the same name get one record each; the records are not merged. -/
theorem common_symbol_own_record (oe oe1 : Outelf) (h : outelf_link oe = Except.ok oe1)
    (o j : Nat) (obj : Obj) (sym : Elf32_Sym)
    (hobj : oe1.objs[o]? = some obj) (hsym : obj.syms[j]? = some sym)
    (hcommon : sym.st_shndx = SHN_COMMON)
    (hty : ELF32_ST_TYPE sym.st_info = STT_NOTYPE ∨ ELF32_ST_TYPE sym.st_info = STT_OBJECT ∨
      ELF32_ST_TYPE sym.st_info = STT_FUNC) :
    ∃ b ∈ oe1.bss_syms, b.sym = (obj.mem, j) ∧
      symval oe1 o j = Except.ok ((oe1.bss_vaddr + b.off) % WORD) := by
  have hne : sym.st_shndx ≠ SHN_UNDEF := by rw [hcommon]; decide
  rw [symval_of_defined oe1 o j obj sym hobj hsym hty hne]
  simp only [symval_defined, hcommon, if_true, bss_addr]
  unfold outelf_link at h
  split at h
  · simp [die] at h
  · split at h
    · simp at h
    · rename_i ob hb
      split at h
      · simp at h
      · rename_i oe6 h6
        have hf := outelf_reloc_frame h6
        have ht := outelf_reloc_tables h6
        simp only [Except.ok.injEq] at h
        subst h
        simp only at hobj ⊢
        -- the object of the final image has a twin with the same tables in the input image
        have hmem : obj.tables ∈ oe6.objs.map Obj.tables :=
          List.mem_map_of_mem _ (List.getElem?_mem hobj)
        rw [ht, link_layout_objs hb] at hmem
        obtain ⟨obj0, hobj0, htab⟩ := List.mem_map.mp hmem
        have hm : obj0.mem = obj.mem := congrArg (fun t => t.1) htab
        have hs : obj0.syms = obj.syms := congrArg (fun t => t.2.2.2.1) htab
        have hrec := bss_objs_loop_records (link_after_text oe).objs (link_after_text oe) ob
          obj0 hb hobj0 j sym (by rw [hs]; exact hsym) hcommon
        rw [hm] at hrec
        have hbs : oe6.bss_syms = ob.bss_syms := by
          rw [hf.2.2.2.2.1, link_layout_bss_syms]
        obtain ⟨b, hb1, hb2, hb3⟩ := bss_addr_from_mem oe6.bss_vaddr (obj.mem, j) oe6.bss_syms
          (by rw [hbs]; exact hrec)
        exact ⟨b, hb1, hb2, by rw [hb3]⟩

/-- The common `x` of `ex_puts` (object 1, symbol 2) in the sample link: its own record
has offset 32. -/
theorem common_symbol_own_record_witness :
    (outelf_link ex_hello = Except.ok ex_hello_linked ∧
     ex_hello_linked.objs[1]? = some ex_puts ∧
     ex_puts.syms[2]? = some (mk_sym 6 4 16 0x11 SHN_COMMON) ∧
     (mk_sym 6 4 16 0x11 SHN_COMMON).st_shndx = SHN_COMMON ∧
     ELF32_ST_TYPE (mk_sym 6 4 16 0x11 SHN_COMMON).st_info = STT_OBJECT) ∧
    ∃ b ∈ ex_hello_linked.bss_syms, b.sym = (ex_puts.mem, 2) ∧
      symval ex_hello_linked 1 2 = Except.ok ((ex_hello_linked.bss_vaddr + b.off) % WORD) :=
  ⟨by decide,
    common_symbol_own_record ex_hello ex_hello_linked (by decide) 1 2 ex_puts
      (mk_sym 6 4 16 0x11 SHN_COMMON) (by decide) (by decide) (by decide)
      (Or.inr (Or.inl (by decide)))⟩

/-- What `outelf_find` returns is the first defining symbol in ingestion order. -/
theorem outelf_find_minimal (oe : Outelf) (name : List Nat) (o j : Nat)
    (h : outelf_find oe name = some (o, j)) :
    ∀ o3 j3 obj3 sym3, oe.objs[o3]? = some obj3 → obj3.syms[j3]? = some sym3 →
      sym_defines obj3.symstr name sym3 → o < o3 ∨ (o = o3 ∧ j ≤ j3) := by
  intro o3 j3 obj3 sym3 h1 h2 h3
  obtain ⟨obj, hobj, hfind, hmin⟩ := (outelf_find_some_iff oe name o j).mp h
  rcases Nat.lt_trichotomy o3 o with hlt | heq | hgt
  · have hn := hmin o3 obj3 hlt h1
    rw [obj_find_none_iff] at hn
    exact absurd h3 (hn sym3 (List.getElem?_mem h2))
  · subst heq
    rw [h1] at hobj
    injection hobj with hobj
    subst hobj
    obtain ⟨s, _, _, hm⟩ := (obj_find_some_iff obj3 name j).mp hfind
    right
    refine ⟨rfl, ?_⟩
    by_contra hlt
    exact hm j3 sym3 (by omega) h2 h3
  · exact Or.inl hgt

/-! ## Resolution of undefined symbols -/

/-- C4, as stated, fails: `ex_ref` refers to the undefined `tv`, whose first (and only)
non-LOCAL, non-UNDEF definition is symbol 1 of `ex_tls`, of type `STT_TLS`.  For the
reference `symval` returns the mapping address plus `st_value`, `0x60000b8`; for the
defining symbol in its own object it returns 0. -/
theorem symval_undef_other_type :
    outelf_link ex_tv = Except.ok ex_tv_linked ∧
    outelf_find ex_tv_linked (sym_name ex_ref (mk_sym 1 0 0 0x10 SHN_UNDEF)) = some (1, 1) ∧
    symval ex_tv_linked 0 1 = Except.ok 0x60000b8 ∧
    symval ex_tv_linked 1 1 = Except.ok 0 ∧
    symval ex_tv_linked 0 1 ≠ symval ex_tv_linked 1 1 := by
  decide

/-- C4 (amended): for a symbol of type NOTYPE, OBJECT or FUNC with a non-empty name and
`st_shndx == SHN_UNDEF`.  If `(o2, j2)` is the first non-LOCAL, non-UNDEF symbol of that
name (lowest object index, then lowest symbol index), `symval` returns the value of that
symbol as an ordinary symbol of its object (its bss address if it is common, else the
`vaddr` of the mapping of its section plus `st_value`, else 0), and this is what `symval`
returns for `(o2, j2)` itself whenever that symbol is of type NOTYPE, OBJECT or FUNC.  If
no loaded object has such a symbol and the message fits the array `msg` of `warn_undef`
(the name has at most 116 bytes), `symval` dies with the undefined-symbol error that
carries the name. -/
theorem symval_undef_resolves (oe : Outelf) (o j : Nat) (obj : Obj) (sym : Elf32_Sym)
    (hobj : oe.objs[o]? = some obj) (hsym : obj.syms[j]? = some sym)
    (hty : ELF32_ST_TYPE sym.st_info = STT_NOTYPE ∨ ELF32_ST_TYPE sym.st_info = STT_OBJECT ∨
      ELF32_ST_TYPE sym.st_info = STT_FUNC)
    (hname : sym_name obj sym ≠ []) (hundef : sym.st_shndx = SHN_UNDEF) :
    (∀ o2 j2 obj2 sym2, oe.objs[o2]? = some obj2 → obj2.syms[j2]? = some sym2 →
      (ELF32_ST_BIND sym2.st_info ≠ STB_LOCAL ∧ sym2.st_shndx ≠ SHN_UNDEF ∧
        sym_name obj2 sym2 = sym_name obj sym) →
      (∀ o3 j3 obj3 sym3, oe.objs[o3]? = some obj3 → obj3.syms[j3]? = some sym3 →
        (ELF32_ST_BIND sym3.st_info ≠ STB_LOCAL ∧ sym3.st_shndx ≠ SHN_UNDEF ∧
          sym_name obj3 sym3 = sym_name obj sym) → o2 < o3 ∨ (o2 = o3 ∧ j2 ≤ j3)) →
      symval oe o j = Except.ok (symval_defined oe obj2 j2 sym2) ∧
      (ELF32_ST_TYPE sym2.st_info = STT_NOTYPE ∨ ELF32_ST_TYPE sym2.st_info = STT_OBJECT ∨
        ELF32_ST_TYPE sym2.st_info = STT_FUNC → symval oe o j = symval oe o2 j2)) ∧
    ((∀ obj2 ∈ oe.objs, ∀ s ∈ obj2.syms,
        ¬ (ELF32_ST_BIND s.st_info ≠ STB_LOCAL ∧ s.st_shndx ≠ SHN_UNDEF ∧
          sym_name obj2 s = sym_name obj sym)) →
      (sym_name obj sym).length + 12 ≤ MSG_SIZE →
      symval oe o j = Except.error (Err.undefined (sym_name obj sym))) := by
  have h3 : ¬ ELF32_ST_TYPE sym.st_info = STT_SECTION := by
    rcases hty with h | h | h <;> rw [h] <;> decide
  constructor
  · intro o2 j2 obj2 sym2 hobj2 hsym2 hdef hfirst
    have hfind := outelf_find_first oe (sym_name obj sym) o2 j2 obj2 sym2 hobj2 hsym2 hdef hfirst
    have hval : symval oe o j = Except.ok (symval_defined oe obj2 j2 sym2) := by
      simp only [symval, hobj, hsym, h3, if_false, hty, if_true, hundef, hname, ne_eq,
        not_false_eq_true, and_self, hfind, hobj2, hsym2]
    refine ⟨hval, ?_⟩
    intro hty2
    rw [hval, symval_of_defined oe o2 j2 obj2 sym2 hobj2 hsym2 hty2 hdef.2.1]
  · intro hnone hlen
    have hfind : outelf_find oe (sym_name obj sym) = none :=
      (outelf_find_none_iff oe _).mpr hnone
    have hfit : ¬ MSG_SIZE < (sym_name obj sym).length + 12 := by omega
    simp only [symval, hobj, hsym, h3, if_false, hty, if_true, hundef, hname, ne_eq,
      not_false_eq_true, and_self, hfind, warn_undef, hfit, die]

/-- The reference to `puts` in `ex_start` (object 0, symbol 2) in the sample link. -/
theorem symval_undef_resolves_witness :
    (ex_hello_linked.objs[0]? = some (ex_hello_linked.objs.getD 0 default) ∧
     (ex_hello_linked.objs.getD 0 default).syms[2]? = some (mk_sym 8 0 0 0x10 SHN_UNDEF) ∧
     ELF32_ST_TYPE (mk_sym 8 0 0 0x10 SHN_UNDEF).st_info = STT_NOTYPE ∧
     sym_name (ex_hello_linked.objs.getD 0 default) (mk_sym 8 0 0 0x10 SHN_UNDEF) ≠ [] ∧
     (mk_sym 8 0 0 0x10 SHN_UNDEF).st_shndx = SHN_UNDEF) ∧
    symval ex_hello_linked 0 2 = Except.ok 0x40000cc ∧
    symval ex_hello_linked 0 2 = symval ex_hello_linked 1 1 :=
  ⟨by decide, by decide,
    ((symval_undef_resolves ex_hello_linked 0 2 (ex_hello_linked.objs.getD 0 default)
      (mk_sym 8 0 0 0x10 SHN_UNDEF) (by decide) (by decide) (Or.inl (by decide)) (by decide)
      (by decide)).1 1 1 ex_puts (mk_sym 1 0 3 0x12 1) (by decide) (by decide) (by decide)
      (outelf_find_minimal ex_hello_linked _ 1 1 (by decide))).2 (Or.inr (Or.inr (by decide)))⟩

/-- A name of 117 bytes does not fit the array `msg` of `warn_undef` together with
" undefined": the run leaves the defined behaviour of C. -/
theorem symval_undef_long_name :
    outelf_add outelf_init ex_long = Except.ok ex_long_name ∧
    (sym_name ex_long (mk_sym 1 0 0 0x10 SHN_UNDEF)).length = 117 ∧
    symval ex_long_name 0 1 = Except.error Err.fault := by
  decide

/-! ## Entry point -/

/-- C5, as stated, fails: no object of `ex_tv_linked` has a symbol `_start`, and
`outelf_write` dies with the unknown-symbol error of `outelf_addr`, which carries no name;
it is not the undefined-symbol error for `_start`. -/
theorem outelf_write_no_start_error :
    outelf_link ex_tv = Except.ok ex_tv_linked ∧
    outelf_find ex_tv_linked START = none ∧
    outelf_write ex_tv_linked = Except.error Err.unknown_symbol ∧
    outelf_write ex_tv_linked ≠ Except.error (Err.undefined START) := by
  decide

/-- C5 (amended): when `outelf_write` succeeds, `e_entry` of the header it writes is the
value `symval` returns for the symbol `outelf_find` finds for `_start`, the first
non-LOCAL, non-UNDEF symbol of that name; when no loaded object has such a symbol,
`outelf_write` dies with the unknown-symbol error of `outelf_addr` (message
"unknown symbol!", without the name) and returns no image. -/
theorem outelf_write_entry (oe : Outelf) :
    (∀ oe1 f, outelf_write oe = Except.ok (oe1, f) →
      ∃ o j, outelf_find oe START = some (o, j) ∧
        symval oe o j = Except.ok f.ehdr.e_entry ∧ oe1.ehdr.e_entry = f.ehdr.e_entry) ∧
    ((∀ obj ∈ oe.objs, ∀ s ∈ obj.syms,
        ¬ (ELF32_ST_BIND s.st_info ≠ STB_LOCAL ∧ s.st_shndx ≠ SHN_UNDEF ∧
          sym_name obj s = START)) →
      outelf_write oe = Except.error Err.unknown_symbol) := by
  constructor
  · intro oe1 f h
    unfold outelf_write at h
    cases ha : outelf_addr oe START with
    | error e => rw [ha] at h; simp at h
    | ok entry =>
      rw [ha] at h
      simp only at h
      split at h
      · simp at h
      · split at h
        · simp [die] at h
        · simp only [Except.ok.injEq, Prod.mk.injEq] at h
          obtain ⟨h1, h2⟩ := h
          subst h1 h2
          unfold outelf_addr at ha
          cases hf : outelf_find oe START with
          | none => rw [hf] at ha; simp [die] at ha
          | some p =>
            obtain ⟨o, j⟩ := p
            rw [hf] at ha
            exact ⟨o, j, rfl, ha, rfl⟩
  · intro hnone
    have hfind : outelf_find oe START = none := (outelf_find_none_iff oe _).mpr hnone
    simp only [outelf_write, outelf_addr, hfind, die]

/-- The sample link is written with `e_entry = 0x40000c0`, the address of `_start`. -/
theorem outelf_write_hello :
    (outelf_write ex_hello_linked).map (fun r => r.2.ehdr.e_entry) = Except.ok 0x40000c0 ∧
    outelf_find ex_hello_linked START = some (0, 1) ∧
    symval ex_hello_linked 0 1 = Except.ok 0x40000c0 := by
  decide

/-! ## Archives -/

/-- C6: for an archive whose first member is the symbol index and in which every index
entry, as `outelf_ar_link` reads it, leads to a relocatable member with a non-LOCAL,
non-UNDEF symbol of the entry's name.  With fuel for two more steps than there are
entries, `link_archive` is not cut short: it returns an image in which `sym_undef` is
false for the name of every entry, or it dies in `outelf_add` because MAXOBJS or MAXSECS
is reached.  When the tables have room for the members of all entries, it returns. -/
theorem link_archive_reaches_fixpoint (bytes : List Nat) (member : Nat → Obj) (oe : Outelf)
    (fuel : Nat) (hlen : 8 + ARHDR_SIZE ≤ bytes.length)
    (hidx : rd8 bytes 8 = 47 ∧ rd8 bytes 9 = 32)
    (hmem : ∀ e ∈ ar_entries bytes (8 + ARHDR_SIZE),
      (member e.2).e_type = ET_REL ∧
      ∃ s ∈ (member e.2).syms, ELF32_ST_BIND s.st_info ≠ STB_LOCAL ∧
        s.st_shndx ≠ SHN_UNDEF ∧ sym_name (member e.2) s = e.1)
    (hfuel : (ar_entries bytes (8 + ARHDR_SIZE)).length + 2 ≤ fuel) :
    ((∃ oe1, link_archive fuel bytes member oe = Except.ok oe1 ∧
        ∀ e ∈ ar_entries bytes (8 + ARHDR_SIZE), sym_undef oe1 e.1 = false) ∨
      link_archive fuel bytes member oe = Except.error Err.maxobjs ∨
      link_archive fuel bytes member oe = Except.error Err.maxsecs) ∧
    (oe.objs.length + (ar_entries bytes (8 + ARHDR_SIZE)).length ≤ MAXOBJS →
      oe.secs.length +
        ((ar_entries bytes (8 + ARHDR_SIZE)).map (fun e => nalloc (member e.2))).sum
          ≤ MAXSECS →
      ∃ oe1, link_archive fuel bytes member oe = Except.ok oe1 ∧
        ∀ e ∈ ar_entries bytes (8 + ARHDR_SIZE), sym_undef oe1 e.1 = false) := by
  obtain ⟨f, rfl⟩ : ∃ f, fuel = f + 1 := ⟨fuel - 1, by omega⟩
  rw [link_archive_index_first bytes member oe f hlen hidx]
  have hlen1 := ar_weight_le (fun _ => 1) (ar_entries bytes (8 + ARHDR_SIZE)) oe
  have hlen2 := ar_weight_le (fun e => nalloc (member e.2)) (ar_entries bytes (8 + ARHDR_SIZE)) oe
  simp only [List.map_const', List.sum_replicate, smul_eq_mul, mul_one] at hlen1
  have hspec := ar_rescan_spec bytes member (8 + ARHDR_SIZE) (by
    intro e he
    obtain ⟨h1, s, hs, hd⟩ := hmem e he
    refine ⟨h1, ?_⟩
    cases hf : obj_find (member e.2) e.1 with
    | some i => rfl
    | none =>
      unfold obj_find at hf
      rw [obj_find_from_none] at hf
      exact absurd hd (hf s hs)) f oe (by unfold ar_pending; omega)
  constructor
  · rcases hspec with h | h
    · exact Or.inl h
    · exact Or.inr h.1
  · intro hc1 hc2
    rcases hspec with h | h
    · exact h
    · exfalso
      apply h.2
      unfold ar_room ar_pending ar_pending_secs
      constructor <;> omega

/-- The archive `ex_ar` with the members M1 (`ex_m1`, defines `a`) and M2 (`ex_m2`,
defines `b`, refers to `a`), linked into an image whose only object refers to `b`: the
loop ends with the objects `ex_main_b`, M2, M1, in this order. -/
theorem link_archive_reaches_fixpoint_witness :
    (8 + ARHDR_SIZE ≤ ex_ar.length ∧ (rd8 ex_ar 8 = 47 ∧ rd8 ex_ar 9 = 32) ∧
     ar_entries ex_ar (8 + ARHDR_SIZE) = [([97], 144), ([98], 304)] ∧
     (∀ e ∈ ar_entries ex_ar (8 + ARHDR_SIZE),
       (ex_member e.2).e_type = ET_REL ∧
       ∃ s ∈ (ex_member e.2).syms, ELF32_ST_BIND s.st_info ≠ STB_LOCAL ∧
         s.st_shndx ≠ SHN_UNDEF ∧ sym_name (ex_member e.2) s = e.1)) ∧
    (∃ oe1, link_archive 4 ex_ar ex_member ex_needs_b = Except.ok oe1 ∧
      ∀ e ∈ ar_entries ex_ar (8 + ARHDR_SIZE), sym_undef oe1 e.1 = false) ∧
    (link_archive 4 ex_ar ex_member ex_needs_b).map (fun oe => oe.objs)
      = Except.ok [ex_main_b, ex_m2, ex_m1] :=
  ⟨by decide,
    (link_archive_reaches_fixpoint ex_ar ex_member ex_needs_b 4 (by decide) (by decide)
      (by decide) (by decide)).2 (by decide) (by decide),
    by decide⟩

/-- C7: a step of the index loop at an entry for whose name `sym_undef` is false goes on
with the image unchanged, so that a member is ingested only when `sym_undef` is true for
the name of its entry at that moment.  For an archive whose first member is the symbol
index and an image in which `sym_undef` is false for the name of every entry, one pass
returns 0 with the image unchanged and `link_archive` returns that image: its objects and
section mappings are the same. -/
theorem link_archive_lazy (bytes : List Nat) (member : Nat → Obj) (oe : Outelf) (fuel : Nat)
    (hlen : 8 + ARHDR_SIZE ≤ bytes.length) (hidx : rd8 bytes 8 = 47 ∧ rd8 bytes 9 = 32)
    (hall : ∀ e ∈ ar_entries bytes (8 + ARHDR_SIZE), sym_undef oe e.1 = false)
    (hfuel : 2 ≤ fuel) :
    (∀ (im : Outelf) (ar base k i ar_name added : Nat),
      sym_undef im (cstr bytes ar_name) = false →
      ar_link_loop bytes member ar base (k + 1) i ar_name im added =
        ar_link_loop bytes member ar base k (i + 1)
          (ar_name + (cstr bytes ar_name).length + 1) im added) ∧
    outelf_ar_link bytes member oe (8 + ARHDR_SIZE) (8 + ARHDR_SIZE) = Except.ok (oe, 0) ∧
    link_archive fuel bytes member oe = Except.ok oe ∧
    (∀ oe1, link_archive fuel bytes member oe = Except.ok oe1 →
      oe1.objs = oe.objs ∧ oe1.secs = oe.secs) := by
  have hpass : outelf_ar_link bytes member oe (8 + ARHDR_SIZE) (8 + ARHDR_SIZE)
      = Except.ok (oe, 0) := by
    rw [outelf_ar_link_eq_pass]
    exact ar_pass_idle _ _ _ _ _ hall
  have hret : link_archive fuel bytes member oe = Except.ok oe := by
    obtain ⟨f, rfl⟩ : ∃ f, fuel = f + 2 := ⟨fuel - 2, by omega⟩
    rw [link_archive_index_first bytes member oe (f + 1) hlen hidx]
    simp only [ar_rescan, hpass, ne_eq, not_true_eq_false, if_false]
  refine ⟨?_, hpass, hret, ?_⟩
  · intro im ar base k i ar_name added h
    have h1 : ¬ sym_undef im (cstr bytes ar_name) = true := by rw [h]; simp
    simp only [ar_link_loop, if_neg h1]
  · intro oe1 h
    rw [hret] at h
    injection h with h
    subst h
    exact ⟨rfl, rfl⟩

/-- The archive `ex_ar` linked into an image whose only object, `ex_puts`, refers to
neither `a` nor `b`: no member is ingested. -/
theorem link_archive_lazy_witness :
    (8 + ARHDR_SIZE ≤ ex_ar.length ∧ (rd8 ex_ar 8 = 47 ∧ rd8 ex_ar 9 = 32) ∧
     (∀ e ∈ ar_entries ex_ar (8 + ARHDR_SIZE), sym_undef ex_needs_none e.1 = false)) ∧
    link_archive 2 ex_ar ex_member ex_needs_none = Except.ok ex_needs_none :=
  ⟨by decide,
    (link_archive_lazy ex_ar ex_member ex_needs_none 2 (by decide) (by decide) (by decide)
      (by decide)).2.2.1⟩

/-! ## `sym_undef`, `obj_find`, `get_be32` -/

/-- C8: `sym_undef` is true exactly when some loaded object has a non-LOCAL symbol of
that name and every non-LOCAL symbol of that name in every loaded object has
`st_shndx == SHN_UNDEF`. -/
theorem sym_undef_iff_all_undef (oe : Outelf) (name : List Nat) :
    sym_undef oe name = true ↔
      (∃ obj ∈ oe.objs, ∃ sym ∈ obj.syms,
        ELF32_ST_BIND sym.st_info ≠ STB_LOCAL ∧ sym_name obj sym = name) ∧
      (∀ obj ∈ oe.objs, ∀ sym ∈ obj.syms,
        ELF32_ST_BIND sym.st_info ≠ STB_LOCAL → sym_name obj sym = name →
          sym.st_shndx = SHN_UNDEF) :=
  sym_undef_true_iff oe name

/-- C9: `obj_find` returns index `i` exactly when symbol `i` is not LOCAL, not UNDEF and
has the given name and no symbol with a smaller index is so; it returns no symbol exactly
when no symbol of the object is so. -/
theorem obj_find_first_match (obj : Obj) (name : List Nat) :
    (∀ i, obj_find obj name = some i ↔
      ∃ sym, obj.syms[i]? = some sym ∧
        (ELF32_ST_BIND sym.st_info ≠ STB_LOCAL ∧ sym.st_shndx ≠ SHN_UNDEF ∧
          sym_name obj sym = name) ∧
        ∀ k s, k < i → obj.syms[k]? = some s →
          ¬ (ELF32_ST_BIND s.st_info ≠ STB_LOCAL ∧ s.st_shndx ≠ SHN_UNDEF ∧
            sym_name obj s = name)) ∧
    (obj_find obj name = none ↔
      ∀ s ∈ obj.syms,
        ¬ (ELF32_ST_BIND s.st_info ≠ STB_LOCAL ∧ s.st_shndx ≠ SHN_UNDEF ∧
          sym_name obj s = name)) :=
  ⟨fun i => obj_find_some_iff obj name i, obj_find_none_iff obj name⟩

/-- C10: on the bytes 1, 0, 0, 0 the big-endian value is `2 ^ 24`, and `get_be32`
returns 0: the term `s[0] << 32` does not put `s[0]` at bits 24 to 31. -/
theorem get_be32_loses_top_byte :
    get_be32 1 0 0 0 = 0 ∧ get_be32 1 0 0 0 ≠ 1 * 2 ^ 24 + 0 * 2 ^ 16 + 0 * 2 ^ 8 + 0 := by
  decide

/-! ## `outelf_add` -/

/-- C11: `outelf_add` on a buffer whose `e_type` is not `ET_REL` returns the image
unchanged.  On a buffer whose `e_type` is `ET_REL`, when the image has fewer than
`MAXOBJS` objects and room for the mappings of the buffer, it returns the image with the
buffer appended to `objs` and, appended to `secs`, one mapping for each section whose
`sh_flags` has one of the low three bits, in the order of the section index, each pointing
to its section header and to the new object; the earlier objects and mappings and every
other field are as before. -/
theorem outelf_add_appends (oe : Outelf) (m : Obj) :
    (m.e_type ≠ ET_REL → outelf_add oe m = Except.ok oe) ∧
    (m.e_type = ET_REL → oe.objs.length < MAXOBJS → oe.secs.length + nalloc m ≤ MAXSECS →
      outelf_add oe m = Except.ok { oe with
        objs := oe.objs ++ [m]
        secs := oe.secs ++
          ((List.range m.shdr.length).filter
              (fun k => (m.shdr.getD k default).sh_flags &&& 0x7 != 0)).map
            (fun k => { o_shdr := (m.mem, k), obj := oe.objs.length, vaddr := 0, faddr := 0 }) }) := by
  constructor
  · intro h
    simp [outelf_add, h]
  · intro hrel hobjs hsecs
    have h1 : ¬ m.e_type ≠ ET_REL := not_not.mpr hrel
    have h2 : ¬ oe.objs.length ≥ MAXOBJS := by omega
    unfold outelf_add
    rw [if_neg h1, if_neg h2]
    rw [add_secs_eq oe.objs.length m.mem m.shdr 0 { oe with objs := oe.objs ++ [m] } hsecs]
    simp [wanted_secs]

/-- The second buffer of the sample link: `ex_puts` is added to the image that holds
`ex_start`, and the result is `ex_hello`.  Of the sections of `ex_puts` only `.text`
(index 1) has one of the three flags. -/
theorem outelf_add_appends_witness :
    (ex_puts.e_type = ET_REL ∧ ex_needs_b.objs.length < MAXOBJS ∧
      ex_needs_b.secs.length + nalloc ex_puts ≤ MAXSECS) ∧
    outelf_add ex_needs_b ex_puts = Except.ok { ex_needs_b with
      objs := [ex_main_b, ex_puts]
      secs := [{ o_shdr := (0x60000, 1), obj := 0, vaddr := 0, faddr := 0 },
               { o_shdr := (0x20000, 1), obj := 1, vaddr := 0, faddr := 0 }] } :=
  ⟨by decide,
    ((outelf_add_appends ex_needs_b ex_puts).2 (by decide) (by decide) (by decide)).trans
      (by decide)⟩

/-- The image `ex_hello` is what two calls of `outelf_add` make of the empty image. -/
theorem ex_hello_reached :
    (outelf_add outelf_init ex_start).bind (fun oe => outelf_add oe ex_puts)
      = Except.ok ex_hello := by
  decide

/-! ## Offsets of common symbols -/

/-- C15 fails on the code: `alloc_bss` rounds `bss_len` up to `max(st_value, 4)` but records
that offset plus `st_size`.  For `ex_two_commons` the records are 16 for `a` (16 bytes,
alignment 4) and 18 for `b` (2 bytes, alignment 2), and 18 is not a multiple of
`max(2, 4)`. -/
theorem alloc_bss_records_end :
    outelf_add outelf_init ex_two_commons = Except.ok ex_commons ∧
    (outelf_bss ex_commons).map (fun oe => (oe.bss_syms, oe.bss_len)) =
      Except.ok ([{ sym := (0x80000, 1), off := 16 }, { sym := (0x80000, 2), off := 18 }], 34) ∧
    ex_two_commons.syms[2]?.map (fun s => (s.st_shndx, s.st_value)) = some (SHN_COMMON, 2) ∧
    18 % MAX 2 4 = 2 := by
  decide

/-- C20 fails on the code, for the same reason.  In the link of `ex_puts` alone the only
common symbol, `x` of 16 bytes, is at `bss_vaddr + 16` while `bss_len` is 16, so its
storage lies past the end of the common area.  In the link of `ex_two_commons` the symbol
`a` (16 bytes) is at `0x80000c4` and `b` (2 bytes) at `0x80000c6`, inside the storage of
`a`. -/
theorem common_storage_not_owned :
    ((outelf_link ex_needs_none).map
        (fun oe => (oe.bss_vaddr, oe.bss_len, bss_addr oe (0x20000, 2)))
      = Except.ok (0x80000b8, 16, 0x80000c8) ∧
     ex_puts.syms[2]?.map (fun s => (s.st_shndx, s.st_size)) = some (SHN_COMMON, 16) ∧
     ¬ 0x80000c8 + 16 ≤ 0x80000b8 + 16) ∧
    ((outelf_link ex_commons).map
        (fun oe => (oe.bss_vaddr, oe.bss_len, bss_addr oe (0x80000, 1), bss_addr oe (0x80000, 2)))
      = Except.ok (0x80000b4, 34, 0x80000c4, 0x80000c6) ∧
     ex_two_commons.syms[1]?.map (fun s => (s.st_shndx, s.st_size)) = some (SHN_COMMON, 16) ∧
     ex_two_commons.syms[2]?.map (fun s => (s.st_shndx, s.st_size)) = some (SHN_COMMON, 2) ∧
     (0x80000c4 ≤ 0x80000c6 ∧ 0x80000c6 < 0x80000c4 + 16)) := by
  decide

/-! ## `symval` by symbol type -/

/-- C16: for the symbol `j` of the loaded object `o`.  If its type is `STT_SECTION` and its
section has a mapping, `symval` returns the `vaddr` of that mapping.  If its type is
`STT_NOTYPE`, `STT_OBJECT` or `STT_FUNC`: when `st_shndx` is neither `SHN_UNDEF` nor
`SHN_COMMON` and the section has a mapping, `symval` returns that `vaddr` plus `st_value`
(as a 32-bit sum); when `st_shndx` is `SHN_COMMON`, it returns `bss_vaddr` plus the offset
of the first record of `bss_syms` for that symbol.  For every other type it returns 0. -/
theorem symval_by_type (oe : Outelf) (o j : Nat) (obj : Obj) (sym : Elf32_Sym)
    (hobj : oe.objs[o]? = some obj) (hsym : obj.syms[j]? = some sym) :
    (ELF32_ST_TYPE sym.st_info = STT_SECTION →
      ∀ sec, outelf_mapping oe (obj.mem, sym.st_shndx) = some sec →
        symval oe o j = Except.ok sec.vaddr) ∧
    ((ELF32_ST_TYPE sym.st_info = STT_NOTYPE ∨ ELF32_ST_TYPE sym.st_info = STT_OBJECT ∨
        ELF32_ST_TYPE sym.st_info = STT_FUNC) →
      (sym.st_shndx ≠ SHN_UNDEF → sym.st_shndx ≠ SHN_COMMON →
        ∀ sec, outelf_mapping oe (obj.mem, sym.st_shndx) = some sec →
          symval oe o j = Except.ok ((sec.vaddr + sym.st_value) % 2 ^ 32)) ∧
      (sym.st_shndx = SHN_COMMON →
        ∀ b, oe.bss_syms.find? (fun b => b.sym = (obj.mem, j)) = some b →
          symval oe o j = Except.ok ((oe.bss_vaddr + b.off) % 2 ^ 32))) ∧
    (ELF32_ST_TYPE sym.st_info ≠ STT_SECTION → ELF32_ST_TYPE sym.st_info ≠ STT_NOTYPE →
      ELF32_ST_TYPE sym.st_info ≠ STT_OBJECT → ELF32_ST_TYPE sym.st_info ≠ STT_FUNC →
      symval oe o j = Except.ok 0) := by
  refine ⟨?_, ?_, ?_⟩
  · intro hty sec hsec
    simp only [symval, hobj, hsym, hty, if_true, hsec]
  · intro hty
    constructor
    · intro hu hc sec hsec
      rw [symval_of_defined oe o j obj sym hobj hsym hty hu]
      simp only [symval_defined, hc, if_false, hsec, WORD]
    · intro hc b hb
      have hu : sym.st_shndx ≠ SHN_UNDEF := by rw [hc]; decide
      rw [symval_of_defined oe o j obj sym hobj hsym hty hu]
      simp only [symval_defined, hc, if_true, bss_addr, bss_addr_from_find, hb, WORD]
  · intro h1 h2 h3 h4
    simp only [symval, hobj, hsym, h1, h2, h3, h4, if_false, or_self]

/-- In the sample link: `_start` (object 0, symbol 1, a function at offset 0 of `.text`,
which is mapped at `0x40000c0`) and the common `x` of `ex_start` (symbol 3, record with
offset 16). -/
theorem symval_by_type_witness :
    (ex_hello_linked.objs[0]? = some (ex_hello_linked.objs.getD 0 default) ∧
     (ex_hello_linked.objs.getD 0 default).syms[1]? = some (mk_sym 1 0 12 0x12 1) ∧
     ELF32_ST_TYPE (mk_sym 1 0 12 0x12 1).st_info = STT_FUNC ∧
     outelf_mapping ex_hello_linked (0x10000, 1) =
       some { o_shdr := (0x10000, 1), obj := 0, vaddr := 0x40000c0, faddr := 192 }) ∧
    symval ex_hello_linked 0 1 = Except.ok ((0x40000c0 + 0) % 2 ^ 32) :=
  ⟨by decide,
    ((symval_by_type ex_hello_linked 0 1 (ex_hello_linked.objs.getD 0 default)
      (mk_sym 1 0 12 0x12 1) (by decide) (by decide)).2.1
      (Or.inr (Or.inr (by decide)))).1 (by decide) (by decide)
      { o_shdr := (0x10000, 1), obj := 0, vaddr := 0x40000c0, faddr := 192 } (by decide)⟩

/-! ## Relocation leaves the rest of the buffer alone -/

/-- C18: one relocation entry, read at index `i` of the relocation section, that
`reloc_entry` has processed, the result being the buffer `b`.  With `dst` the offset in the
buffer of the field at `r_offset` of the target section: `b` is as long as the buffer
was; for R_386_32, R_386_PC32 and R_386_PLT32 the four bytes at `dst` lie in the buffer
and every byte outside them is unchanged; for R_386_16 the same holds with the two bytes at
`dst`; for R_386_NONE the buffer is unchanged. -/
theorem reloc_entry_frame (oe : Outelf) (o : Nat) (obj : Obj)
    (rel_shdr other_shdr : Elf32_Shdr) (bytes b : List Nat) (i : Nat)
    (h : reloc_entry oe o obj rel_shdr other_shdr bytes i = Except.ok b) :
    let r_offset := rd32 bytes (rel_shdr.sh_offset + REL_SIZE * i)
    let ty := ELF32_R_TYPE (rd32 bytes (rel_shdr.sh_offset + REL_SIZE * i + 4))
    let dst := other_shdr.sh_offset + r_offset
    b.length = bytes.length ∧
    (ty = R_386_32 ∨ ty = R_386_PC32 ∨ ty = R_386_PLT32 →
      dst + 4 ≤ bytes.length ∧ ∀ p, p < dst ∨ dst + 4 ≤ p → b[p]? = bytes[p]?) ∧
    (ty = R_386_16 →
      dst + 2 ≤ bytes.length ∧ ∀ p, p < dst ∨ dst + 2 ≤ p → b[p]? = bytes[p]?) ∧
    (ty = R_386_NONE → b = bytes) := by
  intro r_offset ty dst
  unfold reloc_entry at h
  simp only at h
  by_cases hlen : bytes.length < rel_shdr.sh_offset + REL_SIZE * i + REL_SIZE
  · rw [if_pos hlen] at h
    simp [die] at h
  · rw [if_neg hlen] at h
    cases hv : symval oe o (ELF32_R_SYM (rd32 bytes (rel_shdr.sh_offset + REL_SIZE * i + 4))) with
    | error e =>
      rw [hv] at h
      simp at h
    | ok val =>
      rw [hv] at h
      exact reloc_patch_frame ty dst bytes b ((rd16 bytes dst + val) % 65536)
        ((rd32 bytes dst + val) % WORD)
        (fun sec => (rd32 bytes dst + sub32 val ((sec.vaddr + r_offset) % WORD)) % WORD)
        (outelf_mapping oe (obj.mem, rel_shdr.sh_info)) h

/-- The first entry of `.rel.text` of `ex_start` (R_386_PC32 at offset 1 of `.text`, which
starts at offset 52 of the buffer): the bytes before offset 53 and from offset 57 on are
unchanged. -/
theorem reloc_entry_frame_witness :
    reloc_entry ex_hello_layout 0 ex_start (mk_shdr SHT_REL 0 68 16 4 0 1)
        (mk_shdr 1 6 52 12 16 0 0) ex_start.bytes 0
      = Except.ok (wr32 ex_start.bytes 53 7) ∧
    (wr32 ex_start.bytes 53 7).length = ex_start.bytes.length ∧
    ∀ p, p < 53 ∨ 53 + 4 ≤ p → (wr32 ex_start.bytes 53 7)[p]? = ex_start.bytes[p]? :=
  ⟨by decide,
    (reloc_entry_frame ex_hello_layout 0 ex_start (mk_shdr SHT_REL 0 68 16 4 0 1)
      (mk_shdr 1 6 52 12 16 0 0) ex_start.bytes (wr32 ex_start.bytes 53 7) 0 (by decide)).1,
    ((reloc_entry_frame ex_hello_layout 0 ex_start (mk_shdr SHT_REL 0 68 16 4 0 1)
      (mk_shdr 1 6 52 12 16 0 0) ex_start.bytes (wr32 ex_start.bytes 53 7) 0 (by decide)).2.1
      (Or.inr (Or.inl (by decide)))).2⟩

/-! ## Program headers -/

/-- C14: `outelf_link` on an image that has no program header yet (`outelf_init` followed by
`outelf_add` calls), when it returns, has made exactly three program headers, all of type
`PT_LOAD`, in the order text, bss, data.  Text has `p_offset = ehdr_size + 4 * phdr_size
= 0xB4` and `p_vaddr = 0x04000000 + p_offset mod 0x1000`; bss has `p_offset = 0xB4` plus
the length of the text segment, `p_vaddr = 0x08000000 + p_offset mod 0x1000` and
`p_filesz = 0`; data has the `p_offset` of bss rounded up to a multiple of 4 and
`p_vaddr = 0x06000000 + p_offset mod 0x1000`.  Offsets are 32-bit words. -/
theorem outelf_link_three_headers (oe oe1 : Outelf) (hfresh : oe.phdr = [])
    (h : outelf_link oe = Except.ok oe1) :
    ∃ text bss data : Elf32_Phdr, oe1.phdr = [text, bss, data] ∧
      (text.p_type = PT_LOAD ∧ bss.p_type = PT_LOAD ∧ data.p_type = PT_LOAD) ∧
      (text.p_offset = EHDR_SIZE + 4 * PHDR_SIZE ∧ text.p_offset = 0xB4 ∧
        text.p_vaddr = 0x04000000 + text.p_offset % 0x1000 ∧ text.p_memsz = text.p_filesz) ∧
      (bss.p_offset = (0xB4 + text.p_filesz) % 2 ^ 32 ∧
        bss.p_vaddr = 0x08000000 + bss.p_offset % 0x1000 ∧ bss.p_filesz = 0) ∧
      (data.p_offset = round4 bss.p_offset % 2 ^ 32 ∧
        data.p_vaddr = 0x06000000 + data.p_offset % 0x1000) := by
  obtain ⟨ob, -, hph, -⟩ := outelf_link_inv h
  rw [hfresh] at hph
  refine ⟨code_phdr oe, bss_phdr oe ob, data_phdr oe ob oe.got_syms.length, hph,
    ⟨rfl, rfl, rfl⟩, ⟨rfl, rfl, rfl, rfl⟩, ⟨rfl, rfl, rfl⟩, ?_, rfl⟩
  simp only [data_phdr, bss_phdr, data_faddr, ALIGN_four, round4]
  have hlt : bss_faddr oe < WORD := Nat.mod_lt _ (by decide)
  rw [Nat.mod_eq_of_lt hlt]
  rfl

/-- The sample link of `ex_start` and `ex_puts`: text at offset `0xB4` with 28 bytes, bss
and data at offset 208. -/
theorem outelf_link_three_headers_witness :
    (ex_hello.phdr = [] ∧ outelf_link ex_hello = Except.ok ex_hello_linked) ∧
    ∃ text bss data : Elf32_Phdr, ex_hello_linked.phdr = [text, bss, data] ∧
      (text.p_type = PT_LOAD ∧ bss.p_type = PT_LOAD ∧ data.p_type = PT_LOAD) ∧
      (text.p_offset = EHDR_SIZE + 4 * PHDR_SIZE ∧ text.p_offset = 0xB4 ∧
        text.p_vaddr = 0x04000000 + text.p_offset % 0x1000 ∧ text.p_memsz = text.p_filesz) ∧
      (bss.p_offset = (0xB4 + text.p_filesz) % 2 ^ 32 ∧
        bss.p_vaddr = 0x08000000 + bss.p_offset % 0x1000 ∧ bss.p_filesz = 0) ∧
      (data.p_offset = round4 bss.p_offset % 2 ^ 32 ∧
        data.p_vaddr = 0x06000000 + data.p_offset % 0x1000) :=
  ⟨by decide, outelf_link_three_headers ex_hello ex_hello_linked (by decide) (by decide)⟩

/-! ## The GOT -/

/-- C13: when `outelf_link` returns, with `D` the sum of `sh_size` over the mappings of data
sections rounded up to a multiple of 4, and sums taken as 32-bit words:
`got_vaddr = data.p_vaddr + D`, `got_faddr = data.p_offset + D`, both are multiples of 4,
and `data.p_filesz = data.p_memsz = D + 4 * ngot_syms + 16`.  And when `symval` returns for
every GOT entry, `outelf_putgot` returns `4 * ngot_syms + 16` bytes in which the four bytes
of slot `i` are the little-endian bytes of the `symval` of entry `i` and the last 16 bytes
are zero. -/
theorem got_follows_data (oe oe1 : Outelf) (h : outelf_link oe = Except.ok oe1) :
    (∃ text bss data : Elf32_Phdr, oe1.phdr = oe.phdr ++ [text, bss, data] ∧
      oe1.got_vaddr = (data.p_vaddr + round4 (data_size oe1)) % 2 ^ 32 ∧
      oe1.got_faddr = (data.p_offset + round4 (data_size oe1)) % 2 ^ 32 ∧
      oe1.got_vaddr % 4 = 0 ∧ oe1.got_faddr % 4 = 0 ∧
      data.p_filesz = (round4 (data_size oe1) + 4 * oe1.got_syms.length + 16) % 2 ^ 32 ∧
      data.p_memsz = data.p_filesz) ∧
    ((∀ g ∈ oe1.got_syms, ∃ v, symval oe1 g.obj g.sym = Except.ok v) →
      ∃ bs, outelf_putgot oe1 = Except.ok bs ∧ bs.length = 4 * oe1.got_syms.length + 16 ∧
        (∀ i g, oe1.got_syms[i]? = some g →
          ∃ v, symval oe1 g.obj g.sym = Except.ok v ∧ (bs.drop (4 * i)).take 4 = le32 v) ∧
        bs.drop (4 * oe1.got_syms.length) = List.replicate 16 0) := by
  constructor
  · have hhd := final_headers h
    obtain ⟨ob, -, hph, -, -, -, -, hgs, hgv, hgf, -, hobjs, hs⟩ := outelf_link_inv h
    have hsum : (data_pass oe ob).2 % WORD = data_size oe1 % WORD := by
      rw [data_pass_eq hobjs, place_len, data_size, hhd, bss_pass_headers hobjs hs,
        Nat.zero_add]
    refine ⟨code_phdr oe, bss_phdr oe ob, data_phdr oe ob oe.got_syms.length, hph, ?_⟩
    rw [hgv, hgf, hgs]
    simp only [data_phdr, data_len, data_vaddr, data_faddr, ALIGN_four, round4, hsum,
      DATADDR, PAGE_SIZE, GOT_PAD]
    generalize data_size oe1 = S
    generalize bss_faddr oe = B
    generalize oe.got_syms.length = n
    simp only [WORD]
    refine ⟨?_, ?_, ?_, ?_, ?_, trivial⟩ <;> omega
  · intro hall
    obtain ⟨bs, hbs, hlen, hslots⟩ := putgot_loop_spec oe1 oe1.got_syms hall
    refine ⟨bs ++ List.replicate GOT_PAD 0, ?_, ?_, ?_, ?_⟩
    · simp only [outelf_putgot, hbs]
    · simp [hlen, GOT_PAD]
    · intro i g hi
      obtain ⟨v, hv, hslot⟩ := hslots i g hi
      refine ⟨v, hv, ?_⟩
      have hi2 : i < oe1.got_syms.length := by
        rcases Nat.lt_or_ge i oe1.got_syms.length with hlt | hge
        · exact hlt
        · rw [List.getElem?_eq_none hge] at hi
          simp at hi
      rw [List.drop_append_of_le_length (by omega), List.take_append_of_le_length]
      · exact hslot
      · rw [List.length_drop]
        omega
    · rw [← hlen, List.drop_left]
      rfl

/-- The sample link: one data section of 4 bytes, so the GOT is at `0x60000d4` in memory
and at offset 212 in the file, and the data segment has 20 bytes. -/
theorem got_follows_data_witness :
    outelf_link ex_hello = Except.ok ex_hello_linked ∧
    (∃ text bss data : Elf32_Phdr, ex_hello_linked.phdr = ex_hello.phdr ++ [text, bss, data] ∧
      ex_hello_linked.got_vaddr = (data.p_vaddr + round4 (data_size ex_hello_linked)) % 2 ^ 32 ∧
      ex_hello_linked.got_faddr = (data.p_offset + round4 (data_size ex_hello_linked)) % 2 ^ 32 ∧
      ex_hello_linked.got_vaddr % 4 = 0 ∧ ex_hello_linked.got_faddr % 4 = 0 ∧
      data.p_filesz
        = (round4 (data_size ex_hello_linked) + 4 * ex_hello_linked.got_syms.length + 16) % 2 ^ 32 ∧
      data.p_memsz = data.p_filesz) ∧
    ((∀ g ∈ ex_hello_linked.got_syms, ∃ v, symval ex_hello_linked g.obj g.sym = Except.ok v) →
      ∃ bs, outelf_putgot ex_hello_linked = Except.ok bs ∧
        bs.length = 4 * ex_hello_linked.got_syms.length + 16 ∧
        (∀ i g, ex_hello_linked.got_syms[i]? = some g →
          ∃ v, symval ex_hello_linked g.obj g.sym = Except.ok v ∧
            (bs.drop (4 * i)).take 4 = le32 v) ∧
        bs.drop (4 * ex_hello_linked.got_syms.length) = List.replicate 16 0) :=
  ⟨by decide, got_follows_data ex_hello ex_hello_linked (by decide)⟩

/-! ## Placement of code and nobits sections -/

/-- C17, as stated, fails: `ex_big_bss` has two nobits sections, of `0xF8000000` and of 4
bytes.  The common area is empty and starts at `bss_vaddr = 0x80000b4`; the first section
is placed there, and the 32-bit address of the second wraps around to `0xb4`, below
`bss_vaddr + bss_len`. -/
theorem nobits_wraps_below_commons :
    outelf_add outelf_init ex_big_bss = Except.ok ex_wide ∧
    (outelf_link ex_wide).map (fun oe => (oe.bss_vaddr, oe.bss_len, oe.secs)) = Except.ok
      (0x80000b4, 0,
        [{ o_shdr := (0xa0000, 1), obj := 0, vaddr := 0x80000b4, faddr := 0xb4 },
         { o_shdr := (0xa0000, 2), obj := 0, vaddr := 0xb4, faddr := 0xb4 }]) ∧
    ex_big_bss.shdr[2]?.map (fun sh => SEC_BSS sh) = some true ∧
    ¬ 0x80000b4 + 0 ≤ 0xb4 := by
  decide

/-- C17 (amended): when `outelf_link` returns, every mapping of a code section or of a
nobits section whose `sh_addralign` is 0 or a power of two has a `vaddr` that is a multiple
of `max(sh_addralign, 4)`; every nobits mapping has `faddr` equal to the `p_offset` of the
bss segment; and, provided `bss_vaddr + bss_len` plus the sizes and alignments
`max(sh_addralign, 4)` of the nobits sections does not exceed `2 ^ 32`, so that the
addresses of the bss segment do not wrap around, every nobits mapping has its `vaddr` at or
above `bss_vaddr + bss_len`. -/
theorem nobits_sections_placed (oe oe1 : Outelf) (h : outelf_link oe = Except.ok oe1) :
    ∃ text bss data : Elf32_Phdr, oe1.phdr = oe.phdr ++ [text, bss, data] ∧
      ∀ s ∈ oe1.secs,
        ((SEC_CODE (sec_shdr oe1 s) = true ∨ SEC_BSS (sec_shdr oe1 s) = true) →
          ((sec_shdr oe1 s).sh_addralign = 0 ∨ ∃ k, (sec_shdr oe1 s).sh_addralign = 2 ^ k) →
          s.vaddr % MAX (sec_shdr oe1 s).sh_addralign 4 = 0) ∧
        (SEC_BSS (sec_shdr oe1 s) = true →
          s.faddr = bss.p_offset ∧
          (oe1.bss_vaddr + oe1.bss_len + nobits_weight oe ≤ 2 ^ 32 →
            oe1.bss_vaddr + oe1.bss_len ≤ s.vaddr)) := by
  obtain ⟨ob, -, hph, hsecs, hbv, hbl, -, -, -, -, htab, hobjs, hs1⟩ := outelf_link_inv h
  refine ⟨code_phdr oe, bss_phdr oe ob, data_phdr oe ob oe.got_syms.length, hph, ?_⟩
  intro s hs
  rw [sec_shdr_tables htab s]
  obtain ⟨i, hi⟩ := List.mem_iff_getElem?.mp hs
  rw [hsecs] at hi
  constructor
  · intro hcb hpow
    obtain ⟨k, hk⟩ := MAX_pow_two _ hpow
    by_cases hb : SEC_BSS (sec_shdr oe s) = true
    · have h2 := final_bss hobjs hs1 hi hb
      rw [bss_pass_eq hobjs hs1] at h2
      obtain ⟨⟨x, hx⟩, -⟩ := place_selected_out _ (sec_shdr_placed oe) _ _ _ _ _ _ _ _ _ h2 hb
      rw [hx, al_max, hk]
      exact ALIGN_pow_two _ _
    · have hb2 : SEC_BSS (sec_shdr oe s) = false := by simpa using hb
      have hc : SEC_CODE (sec_shdr oe s) = true := by
        rcases hcb with h1 | h1
        · exact h1
        · exact absurd h1 hb
      have h2 := final_code hobjs hs1 hi hc hb2
      rw [text_pass_eq] at h2
      obtain ⟨⟨x, hx⟩, -⟩ := place_selected_out _ (sec_shdr_placed oe) _ _ _ _ _ _ _ _ _ h2 hc
      rw [hx, al_max, hk]
      exact ALIGN_pow_two _ _
  · intro hb
    have h2 := final_bss hobjs hs1 hi hb
    constructor
    · rw [bss_pass_eq hobjs hs1] at h2
      exact (place_selected_out _ (sec_shdr_placed oe) _ _ _ _ _ _ _ _ _ h2 hb).2 rfl
    · intro hw
      rw [hbv, hbl] at hw ⊢
      exact bss_layout hobjs hs1 hw i s h2 hb

/-- The sample link: the `.bss` of `ex_start` comes after the 48 bytes of the common
area. -/
theorem nobits_sections_placed_witness :
    (outelf_link ex_hello = Except.ok ex_hello_linked ∧
     ex_hello_linked.bss_vaddr + ex_hello_linked.bss_len + nobits_weight ex_hello ≤ 2 ^ 32) ∧
    ∃ text bss data : Elf32_Phdr, ex_hello_linked.phdr = ex_hello.phdr ++ [text, bss, data] ∧
      ∀ s ∈ ex_hello_linked.secs,
        ((SEC_CODE (sec_shdr ex_hello_linked s) = true ∨
            SEC_BSS (sec_shdr ex_hello_linked s) = true) →
          ((sec_shdr ex_hello_linked s).sh_addralign = 0 ∨
            ∃ k, (sec_shdr ex_hello_linked s).sh_addralign = 2 ^ k) →
          s.vaddr % MAX (sec_shdr ex_hello_linked s).sh_addralign 4 = 0) ∧
        (SEC_BSS (sec_shdr ex_hello_linked s) = true →
          s.faddr = bss.p_offset ∧
          (ex_hello_linked.bss_vaddr + ex_hello_linked.bss_len + nobits_weight ex_hello ≤ 2 ^ 32 →
            ex_hello_linked.bss_vaddr + ex_hello_linked.bss_len ≤ s.vaddr)) :=
  ⟨by decide, nobits_sections_placed ex_hello ex_hello_linked (by decide)⟩

/-! ## Code and data do not overlap -/

/-- C12, as stated, fails: `ex_big_text` has a `.text` of `0x2001000` bytes, placed at
`0x40000c0`, and a `.data` of 4 bytes, placed at `0x60000c0`, which is inside the address
range of `.text`. -/
theorem code_overlaps_data :
    outelf_add outelf_init ex_big_text = Except.ok ex_big ∧
    (outelf_link ex_big).map (fun oe => oe.secs) = Except.ok
      [{ o_shdr := (0x90000, 1), obj := 0, vaddr := 0x40000c0, faddr := 0xc0 },
       { o_shdr := (0x90000, 2), obj := 0, vaddr := 0x60000c0, faddr := 0x20010c0 }] ∧
    (ex_big_text.shdr[1]?.map (fun sh => (SEC_CODE sh, sh.sh_size)) = some (true, 0x2001000) ∧
     ex_big_text.shdr[2]?.map (fun sh => (SEC_DATA sh, sh.sh_size)) = some (true, 4)) ∧
    ¬ ranges_disjoint 0x40000c0 0x2001000 0x60000c0 4 :=
  ⟨rfl, by decide, by decide,
    fun h => h 0x60000c0 ⟨by decide, by decide, by decide, by decide⟩⟩

/-- C12 (amended): when `outelf_link` returns and `bss_len` plus the sizes and alignments
`max(sh_addralign, 4)` of the mapped sections is at most 32 MiB less one page, the
address range `[vaddr, vaddr + sh_size)` of every mapping of a code section is disjoint
from that of every mapping of a data section. -/
theorem code_data_disjoint (oe oe1 : Outelf) (h : outelf_link oe = Except.ok oe1)
    (hsmall : oe1.bss_len + layout_weight oe + 0x1000 ≤ 0x2000000)
    (s t : Secmap) (hs : s ∈ oe1.secs) (ht : t ∈ oe1.secs)
    (hcode : SEC_CODE (sec_shdr oe1 s) = true) (hdata : SEC_DATA (sec_shdr oe1 t) = true) :
    ranges_disjoint s.vaddr (sec_shdr oe1 s).sh_size t.vaddr (sec_shdr oe1 t).sh_size := by
  obtain ⟨ob, -, -, hsecs, -, hbl, -, -, -, -, htab, hobjs, hs1⟩ := outelf_link_inv h
  rw [sec_shdr_tables htab s] at hcode ⊢
  rw [sec_shdr_tables htab t] at hdata ⊢
  obtain ⟨i, hi⟩ := List.mem_iff_getElem?.mp hs
  obtain ⟨j, hj⟩ := List.mem_iff_getElem?.mp ht
  rw [hsecs] at hi hj
  obtain ⟨hsum, -, -, -, T3, -, D3, -⟩ := text_data_layout hobjs hs1 (by omega)
  have hd := D3 j t hj hdata
  have hdv : data_vaddr oe = DATADDR + data_faddr oe % PAGE_SIZE := rfl
  have hbb : bss_base oe = BSSADDR + bss_faddr oe % PAGE_SIZE := rfl
  have htv : text_vaddr = 0x40000b4 := by decide
  simp only [DATADDR, BSSADDR, PAGE_SIZE] at hdv hbb
  by_cases hb : SEC_BSS (sec_shdr oe s) = true
  · have h2 := final_bss hobjs hs1 hi hb
    have hnw := nobits_weight_le oe
    have h3 := bss_layout hobjs hs1 (by omega) i s h2 hb
    intro x
    omega
  · have h2 := final_code hobjs hs1 hi hcode (by simpa using hb)
    have h3 := T3 i s h2 hcode
    intro x
    omega

/-- The sample link: `.text` of `ex_start` (12 bytes at `0x40000c0`) and its `.data`
(4 bytes at `0x60000d0`). -/
theorem code_data_disjoint_witness :
    (outelf_link ex_hello = Except.ok ex_hello_linked ∧
     ex_hello_linked.bss_len + layout_weight ex_hello + 0x1000 ≤ 0x2000000 ∧
     ({ o_shdr := (0x10000, 1), obj := 0, vaddr := 0x40000c0, faddr := 192 } : Secmap)
       ∈ ex_hello_linked.secs ∧
     ({ o_shdr := (0x10000, 2), obj := 0, vaddr := 0x60000d0, faddr := 208 } : Secmap)
       ∈ ex_hello_linked.secs) ∧
    ranges_disjoint 0x40000c0 12 0x60000d0 4 :=
  ⟨by decide,
    code_data_disjoint ex_hello ex_hello_linked (by decide) (by decide)
      { o_shdr := (0x10000, 1), obj := 0, vaddr := 0x40000c0, faddr := 192 }
      { o_shdr := (0x10000, 2), obj := 0, vaddr := 0x60000d0, faddr := 208 }
      (by decide) (by decide) (by decide) (by decide)⟩

/-! ## Sections inside their segments -/

/-- C19, as stated, fails: the four code sections of `ex_four_aligned` have 16 bytes in
all, but each asks for an alignment of `0x40000000`.  They are placed at `0x40000000`,
`0x80000000`, `0xc0000000` and, the 32-bit address having wrapped around, at 0, which is
below the `p_vaddr = 0x40000b4` of the text segment. -/
theorem aligned_sections_leave_segment :
    outelf_add outelf_init ex_four_aligned = Except.ok ex_aligned ∧
    (ex_four_aligned.shdr.map (fun sh => sh.sh_size)).sum = 16 ∧
    (outelf_link ex_aligned).map
        (fun oe => (oe.secs, oe.phdr.map (fun p => (p.p_offset, p.p_vaddr, p.p_filesz))))
      = Except.ok
        ([{ o_shdr := (0xb0000, 1), obj := 0, vaddr := 0x40000000, faddr := 0x3c000000 },
          { o_shdr := (0xb0000, 2), obj := 0, vaddr := 0x80000000, faddr := 0x7c000000 },
          { o_shdr := (0xb0000, 3), obj := 0, vaddr := 0xc0000000, faddr := 0xbc000000 },
          { o_shdr := (0xb0000, 4), obj := 0, vaddr := 0, faddr := 0xfc000000 }],
         [(0xb4, 0x40000b4, 0xfbffff50), (0xfc000004, 0x8000004, 0),
          (0xfc000004, 0x6000004, 16)]) ∧
    ex_four_aligned.shdr[4]?.map (fun sh => (SEC_CODE sh, SEC_BSS sh)) = some (true, false) ∧
    ¬ 0x40000b4 ≤ 0 := by
  decide

/-- C19 (amended): when `outelf_link` returns on an image whose mapped sections have sizes
and alignments `max(sh_addralign, 4)` that sum to less than `2 ^ 31`, and whose GOT table
is within its capacity, every mapping of a section that is not nobits lies inside its
segment (text for a code section, data otherwise) at the same distance from the start in
memory and in the file, and its file range `[faddr, faddr + sh_size)` is disjoint from the
header area `[0, 0xB4)`, from the GOT at `got_faddr` and from the file range of every other
such mapping. -/
theorem sections_inside_segments (oe oe1 : Outelf) (h : outelf_link oe = Except.ok oe1)
    (hw : layout_weight oe < 2 ^ 31) (hgot : oe.got_syms.length ≤ MAXSYMS) :
    ∃ text bss data : Elf32_Phdr, oe1.phdr = oe.phdr ++ [text, bss, data] ∧
      ∀ (i : Nat) (s : Secmap), oe1.secs[i]? = some s → SEC_BSS (sec_shdr oe1 s) = false →
        inside_segment (if SEC_CODE (sec_shdr oe1 s) then text else data) s
          (sec_shdr oe1 s).sh_size ∧
        ranges_disjoint s.faddr (sec_shdr oe1 s).sh_size 0 0xB4 ∧
        ranges_disjoint s.faddr (sec_shdr oe1 s).sh_size
          oe1.got_faddr (4 * oe1.got_syms.length + 16) ∧
        ∀ (j : Nat) (t : Secmap), j ≠ i → oe1.secs[j]? = some t → SEC_BSS (sec_shdr oe1 t) = false →
          ranges_disjoint s.faddr (sec_shdr oe1 s).sh_size t.faddr (sec_shdr oe1 t).sh_size := by
  obtain ⟨ob, -, hph, hsecs, -, -, -, hgs, -, hgf, htab, hobjs, hs1⟩ := outelf_link_inv h
  refine ⟨code_phdr oe, bss_phdr oe ob, data_phdr oe ob oe.got_syms.length, hph, ?_⟩
  obtain ⟨hsum, hbf, hdf1, hdf2, -, T4, -, D4⟩ := text_data_layout hobjs hs1 hw
  have htf : text_faddr = 0xb4 := by decide
  have hdl := ALIGN_bounds (data_pass oe ob).2 4 (by omega) (by simp only [WORD]; omega)
  have hdl2 : data_len oe ob = ALIGN (data_pass oe ob).2 4 := rfl
  rw [← hdl2] at hdl
  have hgf2 : oe1.got_faddr = data_faddr oe + data_len oe ob := by
    rw [hgf]
    exact Nat.mod_eq_of_lt (by simp only [WORD]; omega)
  have hfs : (data_phdr oe ob oe.got_syms.length).p_filesz
      = data_len oe ob + (oe.got_syms.length * 4 + GOT_PAD) := by
    simp only [data_phdr]
    simp only [MAXSYMS] at hgot
    exact Nat.mod_eq_of_lt (by simp only [WORD, GOT_PAD]; omega)
  intro i s hi hb
  rw [sec_shdr_tables htab s] at hb ⊢
  rw [hsecs] at hi
  have hS := file_slot hobjs hs1 hw i s hi hb
  refine ⟨?_, ?_, ?_, ?_⟩
  · by_cases hc : SEC_CODE (sec_shdr oe s) = true
    · have := hS.1 hc
      rw [if_pos hc]
      simp only [inside_segment, code_phdr]
      omega
    · have hc2 : SEC_CODE (sec_shdr oe s) = false := by simpa using hc
      have := hS.2 hc2
      rw [if_neg hc]
      simp only [inside_segment, hfs]
      simp only [data_phdr]
      omega
  · intro x
    by_cases hc : SEC_CODE (sec_shdr oe s) = true
    · have := hS.1 hc
      omega
    · have := hS.2 (by simpa using hc)
      omega
  · intro x
    by_cases hc : SEC_CODE (sec_shdr oe s) = true
    · have := hS.1 hc
      omega
    · have := hS.2 (by simpa using hc)
      omega
  · intro j t hji hj hbt
    rw [sec_shdr_tables htab t] at hbt ⊢
    rw [hsecs] at hj
    have hT := file_slot hobjs hs1 hw j t hj hbt
    intro x
    by_cases hc : SEC_CODE (sec_shdr oe s) = true
    · have a := hS.1 hc
      by_cases hct : SEC_CODE (sec_shdr oe t) = true
      · have b := hT.1 hct
        rcases Nat.lt_or_gt_of_ne hji with hlt | hgt
        · have := T4 j i t s hlt b.1 a.1 hct hc
          omega
        · have := T4 i j s t hgt a.1 b.1 hc hct
          omega
      · have b := hT.2 (by simpa using hct)
        omega
    · have a := hS.2 (by simpa using hc)
      by_cases hct : SEC_CODE (sec_shdr oe t) = true
      · have b := hT.1 hct
        omega
      · have b := hT.2 (by simpa using hct)
        rcases Nat.lt_or_gt_of_ne hji with hlt | hgt
        · have := D4 j i t s hlt hj hi b.1 a.1
          omega
        · have := D4 i j s t hgt hi hj a.1 b.1
          omega

/-- The sample link, whose sizes and alignments sum to 56. -/
theorem sections_inside_segments_witness :
    (outelf_link ex_hello = Except.ok ex_hello_linked ∧ layout_weight ex_hello < 2 ^ 31 ∧
     ex_hello.got_syms.length ≤ MAXSYMS) ∧
    ∃ text bss data : Elf32_Phdr, ex_hello_linked.phdr = ex_hello.phdr ++ [text, bss, data] ∧
      ∀ (i : Nat) (s : Secmap), ex_hello_linked.secs[i]? = some s →
        SEC_BSS (sec_shdr ex_hello_linked s) = false →
        inside_segment (if SEC_CODE (sec_shdr ex_hello_linked s) then text else data) s
          (sec_shdr ex_hello_linked s).sh_size ∧
        ranges_disjoint s.faddr (sec_shdr ex_hello_linked s).sh_size 0 0xB4 ∧
        ranges_disjoint s.faddr (sec_shdr ex_hello_linked s).sh_size
          ex_hello_linked.got_faddr (4 * ex_hello_linked.got_syms.length + 16) ∧
        ∀ (j : Nat) (t : Secmap), j ≠ i → ex_hello_linked.secs[j]? = some t →
          SEC_BSS (sec_shdr ex_hello_linked t) = false →
          ranges_disjoint s.faddr (sec_shdr ex_hello_linked s).sh_size
            t.faddr (sec_shdr ex_hello_linked t).sh_size :=
  ⟨by decide,
    sections_inside_segments ex_hello ex_hello_linked (by decide) (by decide) (by decide)⟩

end NeatLd
